import Mathlib

/-!
Verification of the deadlock-detector core (resource graph, cycle
enumerator, classifier, dependency extractor, lock parser) against its
natural-language specification.

The C sources are shallowly embedded: C arrays indexed by a running count
become Lean lists (an element per initialized slot), `int` values that can
be negative stay `Int`, vertex indices (always non-negative once stored)
are `Nat`, the NULL and -1 sentinels of fallible lookups become `Option`, and the
`color`/`parent` DFS scratch arrays (reset at the start of every
enumeration pass, per the spec) are threaded as explicit DFS state.
Memory-allocation failure paths are not modelled (allocation is assumed to
succeed), which is the only source of error codes that disappears.
-/

namespace DeadlockDetect

/-! ## Constants from config.h -/

def SUCCESS : Int := 0

def ERROR_GRAPH_CREATION_FAILED : Int := -6

def ERROR_INVALID_ARGUMENT : Int := -4

def MAX_PROCESSES : Nat := 10000

def MAX_RESOURCES : Nat := 5000

def MAX_VERTICES : Nat := MAX_PROCESSES + MAX_RESOURCES

def MAX_RESOURCES_PER_PROCESS : Nat := 256

/-- Modelled from the spec: the constant `MAX_WAITING_PIDS` is used by
`analyze_pipe_and_lock_dependencies` in deadlock_detection.c but its
defining header is not part of the sources; the spec gives
`max_waiting_pids_per_process` (default 128). -/
def MAX_WAITING_PIDS : Nat := 128

def COLOR_WHITE : Nat := 0

def COLOR_GRAY : Nat := 1

def COLOR_BLACK : Nat := 2

def VERTEX_TYPE_PROCESS : Int := 0

def VERTEX_TYPE_RESOURCE : Int := 1

/-! ## Resource graph (resource_graph.h / resource_graph.c) -/

/-- One node of an adjacency list (GraphNode).  `vertex_id` is the target
vertex index (only indices produced by the vertex-adding operations are
ever stored, hence `Nat`); `edge_type` is 0 for request, 1 for
allocation. -/
structure GraphNode where
  vertex_id : Nat
  edge_type : Nat
deriving DecidableEq, Repr

/-- The per-vertex data of a ResourceGraph slot: `vertex_type` (0 process,
1 resource, mirroring VERTEX_TYPE_*), `vertex_id` (PID or RID) and
`vertex_instances` (0 for processes). -/
structure GVertex where
  vertex_type : Int
  vertex_id : Int
  vertex_instances : Int
deriving DecidableEq, Repr

/-- Fallback used where the C code would read an array slot that was never
initialized by a vertex-adding operation (create_graph fills type/id with
-1 and instances with 0). -/
def GVertex.default0 : GVertex := ⟨-1, -1, 0⟩

/-- ResourceGraph.  `verts` and `adj` hold one entry per added vertex (the
C code keeps dense arrays of capacity `max_vertices` of which exactly
`num_vertices = next_vertex_index` leading slots are initialized; both
counters move in lockstep).  `num_edges` is the `num_edges` counter
field. -/
structure ResourceGraph where
  max_vertices : Nat
  verts : List GVertex
  adj : List (List GraphNode)
  num_edges : Nat
deriving DecidableEq, Repr

def ResourceGraph.numVertices (g : ResourceGraph) : Nat := g.verts.length

def ResourceGraph.vertexAt (g : ResourceGraph) (i : Nat) : GVertex :=
  g.verts.getD i GVertex.default0

def ResourceGraph.adjAt (g : ResourceGraph) (i : Nat) : List GraphNode :=
  g.adj.getD i []

/-- create_graph: a fresh graph with no initialized vertices.  The C
function rejects `max_vertices <= 0` by returning NULL; every call site in
the embedded pipeline passes a positive capacity, so the failure branch is
not represented. -/
def create_graph (max_vertices : Nat) : ResourceGraph :=
  ⟨max_vertices, [], [], 0⟩

/-- find_vertex_by_pid: index of the first process vertex with this pid
(`none` for the C return value -1). -/
def find_vertex_by_pid (g : ResourceGraph) (pid : Int) : Option Nat :=
  g.verts.findIdx? fun v =>
    v.vertex_type == VERTEX_TYPE_PROCESS && v.vertex_id == pid

/-- find_vertex_by_rid: index of the first resource vertex with this rid. -/
def find_vertex_by_rid (g : ResourceGraph) (rid : Int) : Option Nat :=
  g.verts.findIdx? fun v =>
    v.vertex_type == VERTEX_TYPE_RESOURCE && v.vertex_id == rid

/-- add_process_vertex: returns the updated graph and the vertex index, or
`none` for the C return value -1 (non-positive pid, or graph full). -/
def add_process_vertex (g : ResourceGraph) (pid : Int) :
    ResourceGraph × Option Nat :=
  if pid ≤ 0 then (g, none)
  else
    match find_vertex_by_pid g pid with
    | some existing => (g, some existing)
    | none =>
        if g.max_vertices ≤ g.verts.length then (g, none)
        else
          ({ g with
              verts := g.verts ++ [⟨VERTEX_TYPE_PROCESS, pid, 0⟩],
              adj := g.adj ++ [[]] },
           some g.verts.length)

/-- add_resource_vertex: non-positive `instances` is coerced to 1; an
existing rid gets its instance count updated if different. -/
def add_resource_vertex (g : ResourceGraph) (rid instances : Int) :
    ResourceGraph × Option Nat :=
  if rid < 0 then (g, none)
  else
    let inst := if instances ≤ 0 then 1 else instances
    match find_vertex_by_rid g rid with
    | some existing =>
        if (g.vertexAt existing).vertex_instances ≠ inst then
          ({ g with
              verts := g.verts.set existing
                { g.vertexAt existing with vertex_instances := inst } },
           some existing)
        else (g, some existing)
    | none =>
        if g.max_vertices ≤ g.verts.length then (g, none)
        else
          ({ g with
              verts := g.verts ++ [⟨VERTEX_TYPE_RESOURCE, rid, inst⟩],
              adj := g.adj ++ [[]] },
           some g.verts.length)

/-- add_edge_to_list: skip if an identical (target, type) node already
exists, otherwise insert at the head. -/
def add_edge_to_list (l : List GraphNode) (vertex_id edge_type : Nat) :
    List GraphNode :=
  if l.any fun n => n.vertex_id == vertex_id && n.edge_type == edge_type then l
  else ⟨vertex_id, edge_type⟩ :: l

/-- add_request_edge: ensure both vertices, then insert the P→R edge of
type 0.  `add_edge_to_list` returns SUCCESS both when it inserts and when
it skips a duplicate (its only failure is allocation, not modelled), so
the C `if (result == SUCCESS) graph->num_edges++` increments the counter
unconditionally here. -/
def add_request_edge (g : ResourceGraph) (pid rid : Int) :
    ResourceGraph × Int :=
  match add_process_vertex g pid with
  | (g1, none) => (g1, ERROR_GRAPH_CREATION_FAILED)
  | (g1, some process_vertex) =>
      match add_resource_vertex g1 rid 1 with
      | (g2, none) => (g2, ERROR_GRAPH_CREATION_FAILED)
      | (g2, some resource_vertex) =>
          ({ g2 with
              adj := g2.adj.set process_vertex
                (add_edge_to_list (g2.adjAt process_vertex) resource_vertex 0),
              num_edges := g2.num_edges + 1 },
           SUCCESS)

/-- add_allocation_edge: ensure both vertices (resource first), then
insert the R→P edge of type 1; the counter increment mirrors
add_request_edge. -/
def add_allocation_edge (g : ResourceGraph) (rid pid : Int) :
    ResourceGraph × Int :=
  match add_resource_vertex g rid 1 with
  | (g1, none) => (g1, ERROR_GRAPH_CREATION_FAILED)
  | (g1, some resource_vertex) =>
      match add_process_vertex g1 pid with
      | (g2, none) => (g2, ERROR_GRAPH_CREATION_FAILED)
      | (g2, some process_vertex) =>
          ({ g2 with
              adj := g2.adj.set resource_vertex
                (add_edge_to_list (g2.adjAt resource_vertex) process_vertex 1),
              num_edges := g2.num_edges + 1 },
           SUCCESS)

/-- get_graph_statistics: (process count, resource count, num_edges). -/
def get_graph_statistics (g : ResourceGraph) : Nat × Nat × Nat :=
  (g.verts.countP (fun v => v.vertex_type == VERTEX_TYPE_PROCESS),
   g.verts.countP (fun v => v.vertex_type == VERTEX_TYPE_RESOURCE),
   g.num_edges)

/-! ## Cycle detection (cycle_detection.h / cycle_detection.c) -/

/-- CycleInfo.  `cycle_length`, `num_processes` and `num_resources` are
the lengths of the corresponding lists (the C code keeps them equal to the
lengths of the arrays it allocates at every write site). -/
structure CycleInfo where
  cycle_path : List Nat
  cycle_start_vertex : Nat
  cycle_end_vertex : Nat
  process_ids : List Int
  resource_ids : List Int
deriving DecidableEq, Repr

/-- The rotation scan of is_duplicate_cycle for two paths of equal length:
some offset aligns `existing` (rotated) with `cycle`. -/
def cycles_match_rotation (existing cycle : List Nat) : Bool :=
  (List.range cycle.length).any fun offset =>
    (List.range cycle.length).all fun j =>
      existing.getD ((j + offset) % cycle.length) 0 == cycle.getD j 0

/-- is_duplicate_cycle: some existing cycle has the same length and
matches under the rotation scan. -/
def is_duplicate_cycle (cycle : CycleInfo) (cycle_list : List CycleInfo) :
    Bool :=
  cycle_list.any fun existing =>
    existing.cycle_path.length == cycle.cycle_path.length &&
    cycles_match_rotation existing.cycle_path cycle.cycle_path

/-- add_cycle_to_list: skip duplicates, otherwise append a copy at the
end. -/
def add_cycle_to_list (cycle_list : List CycleInfo) (cycle : CycleInfo) :
    List CycleInfo :=
  if is_duplicate_cycle cycle cycle_list then cycle_list
  else cycle_list ++ [cycle]

/-- The parent-chain walk of extract_cycle_path: collect vertices starting
at `v` and following `parent` until `ancestor` is reached (the collected
list excludes `ancestor`; the C code appends it separately).  `fuel`
mirrors the C bound `path_idx < graph->num_vertices`; a broken chain
(parent < 0) or an exhausted bound is the C error return. -/
def parent_chain (parent : List Int) (ancestor : Nat) :
    Nat → Nat → Option (List Nat)
  | fuel, v =>
    if v = ancestor then some []
    else
      match fuel with
      | 0 => none
      | Nat.succ fuel2 =>
          let next := parent.getD v (-1)
          if next < 0 then none
          else
            (parent_chain parent ancestor fuel2 next.toNat).map
              fun rest => v :: rest

/-- extract_cycle_path builds the ids of process vertices on the
non-closing portion of a path (bounds and kind checked per element). -/
def path_process_ids (g : ResourceGraph) (path : List Nat) : List Int :=
  path.dropLast.filterMap fun v =>
    if v < g.numVertices &&
        (g.vertexAt v).vertex_type == VERTEX_TYPE_PROCESS then
      some (g.vertexAt v).vertex_id
    else none

/-- Resource counterpart of `path_process_ids`. -/
def path_resource_ids (g : ResourceGraph) (path : List Nat) : List Int :=
  path.dropLast.filterMap fun v =>
    if v < g.numVertices &&
        (g.vertexAt v).vertex_type == VERTEX_TYPE_RESOURCE then
      some (g.vertexAt v).vertex_id
    else none

/-- Assemble the CycleInfo that extract_cycle_path writes for a closed
path starting and ending at `ancestor`. -/
def mk_cycle_info (g : ResourceGraph) (ancestor : Nat) (path : List Nat) :
    CycleInfo :=
  { cycle_path := path,
    cycle_start_vertex := ancestor,
    cycle_end_vertex := ancestor,
    process_ids := path_process_ids g path,
    resource_ids := path_resource_ids g path }

/-- extract_cycle_path: reconstruct the closed cycle
`ancestor :: ... :: current :: ancestor` from the parent chain (`none`
stands for the C error returns).  The self-loop branch and the general
branch both derive the id arrays from the non-closing portion of the
path. -/
def extract_cycle_path (parent : List Int) (ancestor current : Nat)
    (g : ResourceGraph) : Option CycleInfo :=
  if g.numVertices ≤ ancestor ∨ g.numVertices ≤ current then none
  else if current = ancestor then
    some (mk_cycle_info g ancestor [ancestor, ancestor])
  else
    match parent_chain parent ancestor g.numVertices current with
    | none => none
    | some chain =>
        some (mk_cycle_info g ancestor (ancestor :: chain.reverse ++ [ancestor]))

/-- The color array, parent array and cycle accumulator threaded through
the DFS of find_all_cycles (the C code keeps color/parent inside the
graph; they are scratch state reset at the start of every enumeration). -/
structure DfsState where
  color : List Nat
  parent : List Int
  cycles : List CycleInfo
deriving DecidableEq, Repr

/-- The neighbor-scanning body of dfs_visit_recursive: skip out-of-range
targets, recurse into WHITE neighbors (after recording the parent), emit a
cycle on a GRAY neighbor (a failed extraction is skipped, matching the C
`result == SUCCESS` guard), ignore BLACK neighbors. -/
def dfs_neighbor (g : ResourceGraph) (visit : Nat → DfsState → DfsState)
    (vertex : Nat) (st : DfsState) (node : GraphNode) : DfsState :=
  let neighbor := node.vertex_id
  if g.numVertices ≤ neighbor then st
  else if st.color.getD neighbor 0 = COLOR_WHITE then
    visit neighbor { st with parent := st.parent.set neighbor (Int.ofNat vertex) }
  else if st.color.getD neighbor 0 = COLOR_GRAY then
    match extract_cycle_path st.parent neighbor vertex g with
    | some cycle => { st with cycles := add_cycle_to_list st.cycles cycle }
    | none => st
  else st

/-- dfs_visit_recursive: mark GRAY, scan the adjacency list, mark BLACK.
The C recursion is bounded by the number of vertices (each nested call
targets a WHITE vertex and immediately colors it GRAY); `fuel` makes that
bound explicit, and `find_all_cycles` supplies one more than the vertex
count, which can never be exhausted. -/
def dfs_visit_recursive (g : ResourceGraph) :
    Nat → Nat → DfsState → DfsState
  | 0, _, st => st
  | Nat.succ fuel, vertex, st =>
      let st1 := { st with color := st.color.set vertex COLOR_GRAY }
      let st2 := (g.adjAt vertex).foldl
        (dfs_neighbor g (dfs_visit_recursive g fuel) vertex) st1
      { st2 with color := st2.color.set vertex COLOR_BLACK }

/-- find_all_cycles: reset all colors (reset_graph_colors), then DFS from
every still-WHITE vertex in increasing index order, resetting the parent
array before each root. -/
def find_all_cycles (g : ResourceGraph) : List CycleInfo :=
  let nv := g.numVertices
  let init : DfsState :=
    ⟨List.replicate nv COLOR_WHITE, List.replicate nv (-1), []⟩
  let final := (List.range nv).foldl
    (fun st i =>
      if st.color.getD i 0 = COLOR_WHITE then
        dfs_visit_recursive g (nv + 1) i
          { st with parent := List.replicate nv (-1) }
      else st)
    init
  final.cycles

/-! ## Deadlock classification (deadlock_detection.c) -/

/-- is_deadlock_definite: true (the C return 1) iff the cycle is non-empty
and no in-range resource vertex on the non-closing portion of the path has
more than one instance.  The C NULL/empty-path guards collapse to the
emptiness test. -/
def is_deadlock_definite (cycle : CycleInfo) (g : ResourceGraph) : Bool :=
  if cycle.cycle_path.isEmpty then false
  else
    cycle.cycle_path.dropLast.all fun vertex =>
      if vertex < g.numVertices then
        if (g.vertexAt vertex).vertex_type == VERTEX_TYPE_RESOURCE then
          (g.vertexAt vertex).vertex_instances ≤ 1
        else true
      else true

/-- filter_actual_deadlocks: split the cycle list into the definite and
potential buckets, preserving order (the C deep copies are value
copies here). -/
def filter_actual_deadlocks (cycles : List CycleInfo) (g : ResourceGraph) :
    List CycleInfo × List CycleInfo :=
  cycles.partition fun c => is_deadlock_definite c g

/-- is_pid_in_array / add_pid_to_array: append pid unless already
present. -/
def add_pid_to_array (pids : List Int) (pid : Int) : List Int :=
  if pid ∈ pids then pids else pids ++ [pid]

/-- identify_deadlocked_processes: walk every cycle path (skipping the
closing vertex), collecting in-range process-vertex ids, then fold in the
cycle's own process_ids array; a cycle with no path (NULL in C, empty
here) is skipped entirely. -/
def identify_deadlocked_processes (cycles : List CycleInfo)
    (g : ResourceGraph) : List Int :=
  cycles.foldl
    (fun pids c =>
      if c.cycle_path.isEmpty then pids
      else
        let pids1 := c.cycle_path.dropLast.foldl
          (fun ps v =>
            if v < g.numVertices &&
                (g.vertexAt v).vertex_type == VERTEX_TYPE_PROCESS then
              add_pid_to_array ps (g.vertexAt v).vertex_id
            else ps)
          pids
        c.process_ids.foldl add_pid_to_array pids1)
    []

/-- DeadlockReport (the fields consumed by the verified pipeline;
explanations, recommendations and the timestamp are presentation strings
outside the modelled core, and the num_* counters are list lengths). -/
structure DeadlockReport where
  deadlock_detected : Bool
  deadlocked_pids : List Int
  cycles : List CycleInfo
  total_processes_scanned : Nat
  total_resources_found : Nat
deriving DecidableEq, Repr

/-- create_deadlock_report: all fields zeroed. -/
def create_deadlock_report : DeadlockReport :=
  ⟨false, [], [], 0, 0⟩

/-- analyze_cycles_for_deadlock: choose the definite bucket, or the
potential bucket when no definite cycle exists; the report's cycles are
the chosen bucket and deadlock_detected is set iff it is non-empty, in
which case the deadlocked pids are extracted from it. -/
def analyze_cycles_for_deadlock (cycles : List CycleInfo)
    (g : ResourceGraph) (report : DeadlockReport) : DeadlockReport :=
  if cycles.length = 0 then { report with deadlock_detected := false }
  else
    let buckets := filter_actual_deadlocks cycles g
    let selected :=
      if buckets.1.length = 0 ∧ 0 < buckets.2.length then buckets.2
      else buckets.1
    if 0 < selected.length then
      { report with
          cycles := selected,
          deadlock_detected := true,
          deadlocked_pids := identify_deadlocked_processes selected g }
    else { report with cycles := selected, deadlock_detected := false }

/-! ## Process resource info and the RAG builder -/

/-- ProcessResourceInfo (the fields consumed by the modelled pipeline;
the held_files/waiting_files presentation strings and the pipe_fds array
are unused by the verified core). -/
structure ProcessResourceInfo where
  pid : Int
  held_resources : List Int
  waiting_resources : List Int
  waiting_on_pids : List Int
  pipe_inodes : List Nat
  is_blocked_on_pipe : Bool
  is_blocked_on_lock : Bool
deriving DecidableEq, Repr

instance : Inhabited ProcessResourceInfo :=
  ⟨⟨0, [], [], [], [], false, false⟩⟩

/-- One iteration of the held-resources loop of build_rag_from_processes:
add the resource vertex (single instance), then the allocation edge
R → P.  `none` is any of the C error returns. -/
def build_held_step (pid : Int) (gacc : ResourceGraph) (rid : Int) :
    Option ResourceGraph :=
  match (add_resource_vertex gacc rid 1).2 with
  | none => none
  | some _ =>
      match add_allocation_edge (add_resource_vertex gacc rid 1).1 rid pid with
      | (gb, res) => if res = SUCCESS then some gb else none

/-- One iteration of the waiting-resources loop of
build_rag_from_processes: add the resource vertex (single instance), then
the request edge P → R (the is_pid_in_array test in this loop only feeds
the discarded resource_count tally). -/
def build_waiting_step (pid : Int) (gacc : ResourceGraph) (rid : Int) :
    Option ResourceGraph :=
  match (add_resource_vertex gacc rid 1).2 with
  | none => none
  | some _ =>
      match add_request_edge (add_resource_vertex gacc rid 1).1 pid rid with
      | (gb, res) => if res = SUCCESS then some gb else none

/-- One iteration of the build loop of build_rag_from_processes: add the
process vertex, then one resource vertex plus allocation edge per held
rid, then one resource vertex plus request edge per waited-for rid.
`none` is any of the C error returns (the local resource_count tally of
the C code is computed and then discarded, so it is not modelled). -/
def build_rag_step (g : ResourceGraph) (p : ProcessResourceInfo) :
    Option ResourceGraph :=
  match (add_process_vertex g p.pid).2 with
  | none => none
  | some _ =>
      match p.held_resources.foldlM (build_held_step p.pid)
          (add_process_vertex g p.pid).1 with
      | none => none
      | some g2 => p.waiting_resources.foldlM (build_waiting_step p.pid) g2

/-- build_rag_from_processes: capacity `2 * num_procs` clamped to
MAX_VERTICES, then the build loop; `none` is any C error return. -/
def build_rag_from_processes (procs : List ProcessResourceInfo) :
    Option ResourceGraph :=
  if procs.length = 0 then none
  else
    let max_vertices := min (procs.length * 2) MAX_VERTICES
    procs.foldlM build_rag_step (create_graph max_vertices)

/-- detect_deadlock_in_system: build the RAG, record the statistics, run
find_all_cycles, analyze.  Result is the final report and the C return
value (1 deadlock, 0 none, negative error).  The explanation and
recommendation generation steps only fill presentation strings. -/
def detect_deadlock_in_system (procs : List ProcessResourceInfo)
    (report0 : DeadlockReport) : DeadlockReport × Int :=
  if procs.length = 0 then
    ({ report0 with deadlock_detected := false, total_processes_scanned := 0 }, 0)
  else
    let report1 := { report0 with
        deadlock_detected := false,
        total_processes_scanned := procs.length }
    match build_rag_from_processes procs with
    | none => (report1, ERROR_GRAPH_CREATION_FAILED)
    | some graph =>
        let stats := get_graph_statistics graph
        let report2 := { report1 with total_resources_found := stats.2.1 }
        let cycles := find_all_cycles graph
        let report3 :=
          if 0 < cycles.length then
            analyze_cycles_for_deadlock cycles graph report2
          else { report2 with deadlock_detected := false }
        (report3, if report3.deadlock_detected then 1 else 0)

/-! ## WFG projection (convert_to_wfg in resource_graph.c) -/

/-- The edge-conversion pass of convert_to_wfg for one request edge of
process vertex `i`: follow every allocation edge of the target resource
and add a direct WFG edge, incrementing the WFG edge counter for every
path even when add_edge_to_list deduplicates. -/
def wfg_convert_edge (rag : ResourceGraph) (i : Nat) (wfg : ResourceGraph)
    (node : GraphNode) : ResourceGraph :=
  let resource_vertex := node.vertex_id
  if (rag.vertexAt resource_vertex).vertex_type == VERTEX_TYPE_RESOURCE then
    (rag.adjAt resource_vertex).foldl
      (fun w redge =>
        if redge.edge_type == 1 then
          let target_process := redge.vertex_id
          match find_vertex_by_pid w (rag.vertexAt i).vertex_id,
              find_vertex_by_pid w (rag.vertexAt target_process).vertex_id with
          | some p1, some p2 =>
              { w with
                  adj := w.adj.set p1 (add_edge_to_list (w.adjAt p1) p2 0),
                  num_edges := w.num_edges + 1 }
          | _, _ => w
        else w)
      wfg
  else wfg

/-- convert_to_wfg: copy the process vertices into a fresh graph of
exactly that capacity, then convert every P→R→P2 path into a direct edge.
Returns `none` when the RAG has no process vertex (the C success with a
NULL output graph). -/
def convert_to_wfg (rag : ResourceGraph) : Option ResourceGraph :=
  let process_count :=
    rag.verts.countP fun v => v.vertex_type == VERTEX_TYPE_PROCESS
  if process_count = 0 then none
  else
    let wfg0 := create_graph process_count
    let wfg1 := rag.verts.foldl
      (fun w v =>
        if v.vertex_type == VERTEX_TYPE_PROCESS then
          (add_process_vertex w v.vertex_id).1
        else w)
      wfg0
    some ((List.range rag.numVertices).foldl
      (fun w i =>
        if (rag.vertexAt i).vertex_type == VERTEX_TYPE_PROCESS then
          (rag.adjAt i).foldl (wfg_convert_edge rag i) w
        else w)
      wfg1)

/-! ## System lock records (process_monitor.h / process_monitor.c) -/

/-- FileLockInfo (the file_path presentation string is outside the
modelled core).  `lockEnd` is the C field named end. -/
structure FileLockInfo where
  lock_id : Int
  lock_type : Char
  pid : Int
  inode : Int
  start : Int
  lockEnd : Int
  is_blocking : Bool
deriving DecidableEq, Repr

/-! ## Pipe and lock dependency extraction (deadlock_detection.c) -/

/-- The capped, deduplicating insertion into waiting_on_pids (the C block
that allocates the array on first use, then appends when the count is
below MAX_WAITING_PIDS and the pid is not yet present). -/
def pri_add_waiting_pid (p : ProcessResourceInfo) (pid : Int) :
    ProcessResourceInfo :=
  if p.waiting_on_pids.length < MAX_WAITING_PIDS then
    if pid ∈ p.waiting_on_pids then p
    else { p with waiting_on_pids := p.waiting_on_pids ++ [pid] }
  else p

/-- Capped, deduplicating insertion into waiting_resources (cap
MAX_RESOURCES_PER_PROCESS). -/
def pri_add_waiting_resource (p : ProcessResourceInfo) (rid : Int) :
    ProcessResourceInfo :=
  if p.waiting_resources.length < MAX_RESOURCES_PER_PROCESS then
    if rid ∈ p.waiting_resources then p
    else { p with waiting_resources := p.waiting_resources ++ [rid] }
  else p

/-- Capped, deduplicating insertion into held_resources (cap
MAX_RESOURCES_PER_PROCESS). -/
def pri_add_held_resource (p : ProcessResourceInfo) (rid : Int) :
    ProcessResourceInfo :=
  if p.held_resources.length < MAX_RESOURCES_PER_PROCESS then
    if rid ∈ p.held_resources then p
    else { p with held_resources := p.held_resources ++ [rid] }
  else p

/-- The body run by analyze_pipe_and_lock_dependencies when procs `i` and
`j` (i ≠ j) share the pipe inode `inode`: with
`rid = inode mod 1000000`, a blocked proc i records the wait (pid first,
then resource, as in the source); proc j records the pipe as held
unconditionally; if proc j is itself blocked on a pipe the reverse wait is
recorded and proc i also records the pipe as held. -/
def pipe_pair_update (ps : List ProcessResourceInfo) (i j : Nat)
    (inode : Nat) : List ProcessResourceInfo :=
  let rid : Int := Int.ofNat (inode % 1000000)
  let proc0 := ps.getD i default
  let other0 := ps.getD j default
  let proc1 :=
    if proc0.is_blocked_on_pipe then
      pri_add_waiting_resource (pri_add_waiting_pid proc0 other0.pid) rid
    else proc0
  let other1 := pri_add_held_resource other0 rid
  if other1.is_blocked_on_pipe then
    let other2 := pri_add_waiting_resource (pri_add_waiting_pid other1 proc1.pid) rid
    let proc2 := pri_add_held_resource proc1 rid
    (ps.set i proc2).set j other2
  else (ps.set i proc1).set j other1

/-- The double loop over the pipe-inode arrays of procs `i` and `j`
(the arrays are never modified by the updates, so they are read once). -/
def pipe_pair_scan (ps : List ProcessResourceInfo) (i j : Nat) :
    List ProcessResourceInfo :=
  let inodesI := (ps.getD i default).pipe_inodes
  let inodesJ := (ps.getD j default).pipe_inodes
  inodesI.foldl
    (fun psk pipe_inode =>
      inodesJ.foldl
        (fun psl other_inode =>
          if other_inode = pipe_inode then pipe_pair_update psl i j pipe_inode
          else psl)
        psk)
    ps

/-- One iteration of the system-lock loop for proc `i`: a blocking lock
owned by someone else adds the lock id to the waiting resources (when not
yet present and below the cap), and — only when the id was newly added —
adds the owner pid to waiting_on_pids provided some proc has that pid
(the C inner search loop breaks at the first match). -/
def lock_scan_step (ps : List ProcessResourceInfo) (i : Nat)
    (lock : FileLockInfo) : List ProcessResourceInfo :=
  let proc := ps.getD i default
  if lock.is_blocking && lock.pid ≠ proc.pid then
    if proc.waiting_resources.length < MAX_RESOURCES_PER_PROCESS then
      if lock.lock_id ∈ proc.waiting_resources then ps
      else
        let proc1 := { proc with
            waiting_resources := proc.waiting_resources ++ [lock.lock_id] }
        let proc2 :=
          if ps.any fun q => q.pid = lock.pid then
            pri_add_waiting_pid proc1 lock.pid
          else proc1
        ps.set i proc2
    else ps
  else ps

/-- The per-proc body of analyze_pipe_and_lock_dependencies: the pipe
pairing step (run only when proc `i` has pipe inodes, against every other
index), then the system-lock step (run only when proc `i` is blocked on a
lock and lock records exist). -/
def analyze_deps_step (system_locks : List FileLockInfo) (n : Nat)
    (ps : List ProcessResourceInfo) (i : Nat) : List ProcessResourceInfo :=
  let ps1 :=
    if 0 < (ps.getD i default).pipe_inodes.length then
      (List.range n).foldl
        (fun psj j => if i = j then psj else pipe_pair_scan psj i j)
        ps
    else ps
  if (ps1.getD i default).is_blocked_on_lock && 0 < system_locks.length then
    system_locks.foldl (fun psl lock => lock_scan_step psl i lock) ps1
  else ps1

/-- analyze_pipe_and_lock_dependencies.  The system-lock records come from
parse_system_locks reading /proc/locks; that external input is passed as
the `system_locks` parameter (a parse failure leaves the list empty and
the analysis continues, as in the source). -/
def analyze_pipe_and_lock_dependencies (procs : List ProcessResourceInfo)
    (system_locks : List FileLockInfo) : List ProcessResourceInfo :=
  (List.range procs.length).foldl
    (analyze_deps_step system_locks procs.length) procs

/-! ## The /proc/locks line scanner (sscanf in parse_system_locks)

The C call is
sscanf(line, percent-d colon, three 15-wide strings, percent-d, then
u colon u colon lu and two lu) and its return value is the number of
conversions assigned before the first matching failure.  The model below
follows C scanf semantics for exactly these directives: a numeric
conversion skips leading whitespace and accepts an optional sign followed
by at least one digit (the unsigned conversions also accept a sign in C;
their values are modelled as signed integers, without the 64-bit wrap,
which no claim inspects), a literal colon must match the next character
exactly, and a width-limited string conversion skips whitespace and then
takes at most 15 non-whitespace characters, leaving the rest of a longer
word in the input. -/

/-- Whitespace skip performed by numeric and string conversions. -/
def scan_skip_ws (cs : List Char) : List Char :=
  cs.dropWhile fun c => c.isWhitespace

/-- Digit run: at least one decimal digit, returning its value. -/
def scan_digits (cs : List Char) : Option (Nat × List Char) :=
  let ds := cs.takeWhile fun c => c.isDigit
  if ds.isEmpty then none
  else some (ds.foldl (fun n c => n * 10 + (c.toNat - 48)) 0,
             cs.drop ds.length)

/-- A numeric conversion: whitespace skip, optional sign, digits. -/
def scan_int (cs : List Char) : Option (Int × List Char) :=
  match scan_skip_ws cs with
  | '-' :: rest => (scan_digits rest).map fun p => (-(p.1 : Int), p.2)
  | '+' :: rest => (scan_digits rest).map fun p => ((p.1 : Int), p.2)
  | rest => (scan_digits rest).map fun p => ((p.1 : Int), p.2)

/-- A literal (non-whitespace) character of the format string. -/
def scan_char (c : Char) (cs : List Char) : Option (List Char) :=
  match cs with
  | d :: rest => if d = c then some rest else none
  | [] => none

/-- A width-limited string conversion (percent-15-s). -/
def scan_str (width : Nat) (cs : List Char) :
    Option (List Char × List Char) :=
  let cs1 := scan_skip_ws cs
  let tok := (cs1.takeWhile fun c => ¬c.isWhitespace).take width
  if tok.isEmpty then none else some (tok, cs1.drop tok.length)

/-- The values assigned by the sscanf call of parse_system_locks together
with the number of conversions assigned (`parsed`).  A numeric local the C
code never assigned (conversion not reached) is modelled as 0; the C
reads such locals uninitialized when it builds a record with
5 ≤ parsed < 8, and no claim inspects those fields. -/
structure LockLineScan where
  parsed : Nat
  lock_id : Int
  lock_type_str : List Char
  advisory_str : List Char
  rw_str : List Char
  pid_val : Int
  major : Int
  minor : Int
  inode_val : Int
  start_val : Int
  end_val : Int
deriving DecidableEq, Repr

def LockLineScan.init : LockLineScan :=
  ⟨0, 0, [], [], [], 0, 0, 0, 0, 0, 0⟩

/-- The sscanf call of parse_system_locks applied to one line. -/
def scan_lock_line (cs : List Char) : LockLineScan :=
  match scan_int cs with
  | none => LockLineScan.init
  | some (lock_id, cs) =>
    let s1 := { LockLineScan.init with parsed := 1, lock_id := lock_id }
    match scan_char ':' cs with
    | none => s1
    | some cs =>
      match scan_str 15 cs with
      | none => s1
      | some (lock_type_str, cs) =>
        let s2 := { s1 with parsed := 2, lock_type_str := lock_type_str }
        match scan_str 15 cs with
        | none => s2
        | some (advisory_str, cs) =>
          let s3 := { s2 with parsed := 3, advisory_str := advisory_str }
          match scan_str 15 cs with
          | none => s3
          | some (rw_str, cs) =>
            let s4 := { s3 with parsed := 4, rw_str := rw_str }
            match scan_int cs with
            | none => s4
            | some (pid_val, cs) =>
              let s5 := { s4 with parsed := 5, pid_val := pid_val }
              match scan_int cs with
              | none => s5
              | some (major, cs) =>
                let s6 := { s5 with parsed := 6, major := major }
                match scan_char ':' cs with
                | none => s6
                | some cs =>
                  match scan_int cs with
                  | none => s6
                  | some (minor, cs) =>
                    let s7 := { s6 with parsed := 7, minor := minor }
                    match scan_char ':' cs with
                    | none => s7
                    | some cs =>
                      match scan_int cs with
                      | none => s7
                      | some (inode_val, cs) =>
                        let s8 := { s7 with parsed := 8, inode_val := inode_val }
                        match scan_int cs with
                        | none => s8
                        | some (start_val, cs) =>
                          let s9 := { s8 with parsed := 9, start_val := start_val }
                          match scan_int cs with
                          | none => s9
                          | some (end_val, _) =>
                            { s9 with parsed := 10, end_val := end_val }

/-- The record parse_system_locks builds from a line whose scan assigned
at least five conversions. -/
def lock_record_of_scan (sc : LockLineScan) : FileLockInfo :=
  { lock_id := sc.lock_id,
    lock_type := if sc.lock_type_str.headD ' ' = 'F' then 'F' else 'P',
    pid := sc.pid_val,
    inode := sc.inode_val,
    start := sc.start_val,
    lockEnd := if 10 ≤ sc.parsed then sc.end_val else 0,
    is_blocking := sc.rw_str = "WRITE".toList }

/-- One iteration of the second pass of parse_system_locks: while the
output index is below the counted capacity, skip empty lines, parse the
rest, and keep a record when at least five conversions were assigned. -/
def parse_locks_step (lock_count : Nat) (acc : List FileLockInfo)
    (line : String) : List FileLockInfo :=
  if acc.length < lock_count then
    if line = "" then acc
    else
      let sc := scan_lock_line line.toList
      if 5 ≤ sc.parsed then acc ++ [lock_record_of_scan sc] else acc
  else acc

/-- parse_system_locks on the lines of /proc/locks (each line given
without its trailing newline, which the C code strips).  First pass:
count the non-empty lines to size the output array; second pass: parse
each non-empty line while the array index is below that count, keeping
exactly the lines with at least five assigned conversions. -/
def parse_system_locks (lines : List String) : List FileLockInfo :=
  let lock_count := (lines.filter fun l => l ≠ "").length
  if lock_count = 0 then []
  else lines.foldl (parse_locks_step lock_count) []

/-! ## Specification-side notions (spec.md sections 3, 4.5, 8 and the
glossary) used to state the claims -/

/-- An edge u → v of the graph: some adjacency node of u targets v. -/
def edge_in_graph (g : ResourceGraph) (u v : Nat) : Bool :=
  (g.adjAt u).any fun n => n.vertex_id == v

/-- Every consecutive pair of the path is an edge of the graph. -/
def path_edges_ok (g : ResourceGraph) : List Nat → Bool
  | u :: v :: rest => edge_in_graph g u v && path_edges_ok g (v :: rest)
  | _ => true

/-- Elementary directed cycle of the graph, from the spec: an ordered
vertex sequence of length at least two over the graph's vertices, closed
(first = last), each consecutive pair an edge, and no vertex other than
the shared endpoint repeated (the non-closing portion has no
duplicates). -/
def is_elementary_cycle (g : ResourceGraph) (path : List Nat) : Bool :=
  decide (2 ≤ path.length) &&
  path.all (fun v => decide (v < g.numVertices)) &&
  decide (path.headD 0 = path.getLastD 0) &&
  path_edges_ok g path &&
  decide path.dropLast.Nodup

/-- Rotation equality of non-closing vertex sequences, from the spec: the
lists are cyclic permutations of each other. -/
def rotation_eq (a b : List Nat) : Bool :=
  a.length == b.length &&
  (List.range (a.length + 1)).any fun k => a.rotate k == b

/-- Order-preserving deduplication, from the spec: keep the first
occurrence of every element. -/
def dedup_keep_first (l : List Int) : List Int :=
  l.foldl (fun acc x => if x ∈ acc then acc else acc ++ [x]) []

/-- The process-kind vertex ids encountered while walking a cycle's path
with the duplicate closing vertex skipped, from the spec. -/
def walk_process_ids (g : ResourceGraph) (c : CycleInfo) : List Int :=
  c.cycle_path.dropLast.filterMap fun v =>
    if v < g.numVertices &&
        (g.vertexAt v).vertex_type == VERTEX_TYPE_PROCESS then
      some (g.vertexAt v).vertex_id
    else none

/-- The record the spec describes for one /proc/locks line: present only
when the line yields at least its first five fields, with the numeric id,
a kind tag F for a kind word starting with F and P otherwise, the owning
pid, the inode, the start and end offsets (end is 0 if unparseable), and
is_blocking set iff the rw field equals WRITE. -/
def spec_lock_line (line : String) : Option FileLockInfo :=
  let sc := scan_lock_line line.toList
  if 5 ≤ sc.parsed then
    some { lock_id := sc.lock_id,
           lock_type := if sc.lock_type_str.headD ' ' = 'F' then 'F' else 'P',
           pid := sc.pid_val,
           inode := sc.inode_val,
           start := sc.start_val,
           lockEnd := if 10 ≤ sc.parsed then sc.end_val else 0,
           is_blocking := sc.rw_str = "WRITE".toList }
  else none

/-- Specification-side reading of parse_system_locks: one record per
line that yields at least the first five fields, in order, lines with
fewer skipped silently. -/
def spec_parse_system_locks (lines : List String) : List FileLockInfo :=
  lines.filterMap spec_lock_line

/-- The per-entry evolution relation of the dependency extractor: a PRI
only ever gains entries at the end of its held/waiting/waiting-on lists,
while its pid, pipe inodes and blocked flags never change. -/
def pri_extends (p q : ProcessResourceInfo) : Prop :=
  q.pid = p.pid ∧ q.pipe_inodes = p.pipe_inodes ∧
  q.is_blocked_on_pipe = p.is_blocked_on_pipe ∧
  q.is_blocked_on_lock = p.is_blocked_on_lock ∧
  (∃ e, q.held_resources = p.held_resources ++ e) ∧
  (∃ e, q.waiting_resources = p.waiting_resources ++ e) ∧
  (∃ e, q.waiting_on_pids = p.waiting_on_pids ++ e)

/-- Pointwise lifting of `pri_extends` to the proc array (same length,
every entry extends). -/
def procs_extends (ps qs : List ProcessResourceInfo) : Prop :=
  qs.length = ps.length ∧
  ∀ t, pri_extends (ps.getD t default) (qs.getD t default)

/-- Invariant used to show a process that is blocked on nothing never
gains waiting entries: relative to the original array `procs`, entry `t`
of the evolving array still has both blocked flags false and its waiting
lists unchanged. -/
def waits_unchanged_inv (procs : List ProcessResourceInfo) (t : Nat)
    (s : List ProcessResourceInfo) : Prop :=
  (s.getD t default).is_blocked_on_pipe = false ∧
  (s.getD t default).is_blocked_on_lock = false ∧
  (s.getD t default).waiting_resources
    = (procs.getD t default).waiting_resources ∧
  (s.getD t default).waiting_on_pids
    = (procs.getD t default).waiting_on_pids

/-- The DFS recursion-stack invariant tying the scratch arrays of
`DfsState` to the (ghost) list `s` of currently GRAY vertices in
discovery order: the stack is duplicate-free, the stack bottom has no
parent, each stack entry's parent is its predecessor, consecutive stack
entries are graph edges, the GRAY vertices are exactly the stack
members, every stack member is in range, and the scratch arrays keep
their allocated size. -/
structure StackInv (g : ResourceGraph) (s : List Nat) (st : DfsState) :
    Prop where
  nodup : s.Nodup
  head_par : s ≠ [] → st.parent.getD (s.headD 0) (-1) < 0
  links : ∀ k, k + 1 < s.length →
    st.parent.getD (s.getD (k + 1) 0) (-1) = Int.ofNat (s.getD k 0)
  edges : ∀ k, k + 1 < s.length →
    edge_in_graph g (s.getD k 0) (s.getD (k + 1) 0) = true
  gray_mem : ∀ v, st.color.getD v 0 = COLOR_GRAY → v ∈ s
  mem_gray : ∀ v ∈ s, st.color.getD v 0 = COLOR_GRAY
  vrange : ∀ v ∈ s, v < g.numVertices
  par_len : st.parent.length = g.numVertices
  col_len : st.color.length = g.numVertices

/-- What one DFS visit does to the scratch arrays, seen from outside: a
vertex that is not WHITE keeps its color and parent entry, and no vertex
ends up GRAY that was not GRAY already. -/
structure DfsPost (st st2 : DfsState) : Prop where
  stable : ∀ v, st.color.getD v 0 ≠ COLOR_WHITE →
    st2.color.getD v 0 = st.color.getD v 0 ∧
    st2.parent.getD v (-1) = st.parent.getD v (-1)
  gray_shrink : ∀ v, st2.color.getD v 0 = COLOR_GRAY →
    st.color.getD v 0 = COLOR_GRAY

/-- The cycle-list invariant behind the per-pass deduplication argument:
every recorded cycle's path is its non-closing interior re-closed with the
interior's head, the interior is non-empty, never meets a WHITE vertex,
and — whenever all of its vertices sit on the current GRAY stack — the
interior is a contiguous infix of that stack; moreover no two recorded
interiors are rotations of each other in either direction. -/
def CycOK (s : List Nat) (st : DfsState) : Prop :=
  (∀ c ∈ st.cycles,
    c.cycle_path
      = c.cycle_path.dropLast ++ [c.cycle_path.dropLast.headD 0] ∧
    c.cycle_path.dropLast ≠ [] ∧
    (∀ v ∈ c.cycle_path.dropLast, st.color.getD v 0 ≠ COLOR_WHITE) ∧
    ((∀ v ∈ c.cycle_path.dropLast, v ∈ s) →
      c.cycle_path.dropLast <:+: s)) ∧
  List.Pairwise (fun c1 c2 =>
    rotation_eq c1.cycle_path.dropLast c2.cycle_path.dropLast = false ∧
    rotation_eq c2.cycle_path.dropLast c1.cycle_path.dropLast = false)
    st.cycles

/-! ## Concrete inputs used by the end-to-end and counterexample
theorems -/

/-- E2E-2 input: process 1001 holds resource 1 and waits for resource 2. -/
def e2e_pri1 : ProcessResourceInfo := ⟨1001, [1], [2], [], [], false, false⟩

/-- E2E-2 input: process 1002 holds resource 2 and waits for resource 1. -/
def e2e_pri2 : ProcessResourceInfo := ⟨1002, [2], [1], [], [], false, false⟩

/-- A RAG holding the 2-cycle P1001 ⇄ R1 together with the 4-cycle
P1001 → R2 → P1002 → R1 → P1001 (vertex indices: P1001 = 0, R1 = 1,
R2 = 2, P1002 = 3). -/
def cyc_graph : ResourceGraph :=
  (add_request_edge
    (add_allocation_edge
      (add_request_edge
        (add_allocation_edge
          (add_request_edge (create_graph 10) 1001 1).1
          1 1001).1
        1001 2).1
      2 1002).1
    1002 1).1

/-- A graph built by adding the request edge P1 → R2 twice. -/
def dup_graph : ResourceGraph :=
  (add_request_edge (add_request_edge (create_graph 10) 1 2).1 1 2).1

/-- The same graph with the edge added once. -/
def once_graph : ResourceGraph :=
  (add_request_edge (create_graph 10) 1 2).1

/-- A RAG in which two distinct resources (100 and 200) connect process 1
to process 2: requests P1 → R100, P1 → R200 and allocations R100 → P2,
R200 → P2. -/
def two_res_rag : ResourceGraph :=
  (add_allocation_edge
    (add_request_edge
      (add_allocation_edge
        (add_request_edge (create_graph 10) 1 100).1
        100 2).1
      1 200).1
    200 2).1

/-- Extractor input: process 11 shares pipe inode 42 and is not blocked
on anything. -/
def pipe_pri_a : ProcessResourceInfo := ⟨11, [], [], [], [42], false, false⟩

/-- Extractor input: process 22 shares pipe inode 42 and is not blocked
on anything. -/
def pipe_pri_b : ProcessResourceInfo := ⟨22, [], [], [], [42], false, false⟩

/-- Like `pipe_pri_a` but blocked on a pipe: used to witness the positive
half of the amended pipe-extraction claim. -/
def pipe_pri_a_blk : ProcessResourceInfo := ⟨11, [], [], [], [42], true, false⟩

/-- The report produced by the full pipeline on the E2E-2 input. -/
def e2e_report : DeadlockReport :=
  (detect_deadlock_in_system [e2e_pri1, e2e_pri2] create_deadlock_report).1

/-- The RAG built from the E2E-2 input. -/
def e2e_rag : Option ResourceGraph :=
  build_rag_from_processes [e2e_pri1, e2e_pri2]

/-! ## Evaluation lemmas for the concrete inputs

Kernel-level whnf of the DFS pipeline duplicates the threaded state, so
the concrete runs are evaluated once here by simp and the claim theorems
rewrite with the results. -/

theorem e2e_rag_eq : e2e_rag =
    some ⟨4, [⟨0, 1001, 0⟩, ⟨1, 1, 1⟩, ⟨1, 2, 1⟩, ⟨0, 1002, 0⟩],
          [[⟨2, 0⟩], [⟨0, 1⟩], [⟨3, 1⟩], [⟨1, 0⟩]], 4⟩ := by
  simp [e2e_rag, build_rag_from_processes, build_rag_step, build_held_step,
    build_waiting_step, e2e_pri1, e2e_pri2,
    create_graph, add_request_edge, add_allocation_edge, add_process_vertex,
    add_resource_vertex, add_edge_to_list, find_vertex_by_pid,
    find_vertex_by_rid, List.findIdx?, ResourceGraph.numVertices,
    ResourceGraph.vertexAt, ResourceGraph.adjAt, GVertex.default0,
    MAX_VERTICES, MAX_PROCESSES, MAX_RESOURCES, SUCCESS,
    VERTEX_TYPE_PROCESS, VERTEX_TYPE_RESOURCE]

theorem e2e_report_eq : e2e_report =
    { deadlock_detected := true,
      deadlocked_pids := [1001, 1002],
      cycles := [⟨[0, 2, 3, 1, 0], 0, 0, [1001, 1002], [2, 1]⟩],
      total_processes_scanned := 2,
      total_resources_found := 2 } := by
  simp [e2e_report, detect_deadlock_in_system, build_rag_from_processes,
    build_rag_step, build_held_step, build_waiting_step, e2e_pri1, e2e_pri2,
    create_graph, add_request_edge,
    add_allocation_edge, add_process_vertex, add_resource_vertex,
    add_edge_to_list, find_vertex_by_pid, find_vertex_by_rid, List.findIdx?,
    ResourceGraph.numVertices, ResourceGraph.vertexAt, ResourceGraph.adjAt,
    GVertex.default0, MAX_VERTICES, MAX_PROCESSES, MAX_RESOURCES, SUCCESS,
    VERTEX_TYPE_PROCESS, VERTEX_TYPE_RESOURCE, get_graph_statistics,
    find_all_cycles, dfs_visit_recursive, dfs_neighbor, extract_cycle_path,
    parent_chain, add_cycle_to_list, is_duplicate_cycle,
    cycles_match_rotation, mk_cycle_info, path_process_ids, path_resource_ids,
    List.range, List.range.loop, COLOR_WHITE, COLOR_GRAY, COLOR_BLACK,
    analyze_cycles_for_deadlock, filter_actual_deadlocks,
    is_deadlock_definite, identify_deadlocked_processes, add_pid_to_array,
    create_deadlock_report]

theorem cyc_graph_eq : cyc_graph =
    ⟨10, [⟨0, 1001, 0⟩, ⟨1, 1, 1⟩, ⟨1, 2, 1⟩, ⟨0, 1002, 0⟩],
     [[⟨2, 0⟩, ⟨1, 0⟩], [⟨0, 1⟩], [⟨3, 1⟩], [⟨1, 0⟩]], 5⟩ := by
  simp [cyc_graph, create_graph, add_request_edge, add_allocation_edge,
    add_process_vertex, add_resource_vertex, add_edge_to_list,
    find_vertex_by_pid, find_vertex_by_rid, List.findIdx?,
    ResourceGraph.numVertices, ResourceGraph.vertexAt, ResourceGraph.adjAt,
    GVertex.default0, SUCCESS, VERTEX_TYPE_PROCESS, VERTEX_TYPE_RESOURCE]

theorem cyc_graph_cycles_eq :
    find_all_cycles cyc_graph = [⟨[0, 2, 3, 1, 0], 0, 0, [1001, 1002], [2, 1]⟩] := by
  rw [cyc_graph_eq]
  simp [find_all_cycles, dfs_visit_recursive, dfs_neighbor,
    extract_cycle_path, parent_chain, add_cycle_to_list, is_duplicate_cycle,
    cycles_match_rotation, mk_cycle_info, path_process_ids, path_resource_ids,
    ResourceGraph.numVertices, ResourceGraph.vertexAt, ResourceGraph.adjAt,
    GVertex.default0, List.range, List.range.loop, COLOR_WHITE, COLOR_GRAY,
    COLOR_BLACK, VERTEX_TYPE_PROCESS, VERTEX_TYPE_RESOURCE]

/-- C2: adding the same request edge twice is NOT invisible to the public
operations: the adjacency structure and vertices are unchanged by the
second call, but the num_edges figure returned by get_graph_statistics
grows from 1 to 2 even though both graphs hold exactly one edge — the
counter is incremented when add_edge_to_list deliberately skips the
duplicate, contradicting the header documentation of num_edges as the
total number of edges in the graph. -/
theorem add_request_edge_second_call_drifts_num_edges :
    dup_graph.verts = once_graph.verts ∧
    dup_graph.adj = once_graph.adj ∧
    (once_graph.adjAt 0).length = 1 ∧
    (dup_graph.adjAt 0).length = 1 ∧
    get_graph_statistics once_graph = (1, 1, 1) ∧
    get_graph_statistics dup_graph = (1, 1, 2) :=
  ⟨rfl, rfl, rfl, rfl, rfl, rfl⟩

/-- C8: converting a RAG in which resources 100 and 200 both connect
process 1 to process 2 yields a WFG whose vertices are all processes and
whose adjacency holds the single deduplicated edge P1 → P2, but whose
num_edges counter reads 2 — convert_to_wfg increments it for every
P → R → P2 path even when add_edge_to_list skips the duplicate, so the
statistics differ from a graph with the edge added once. -/
theorem convert_to_wfg_counter_counts_duplicate_paths :
    (convert_to_wfg two_res_rag).map
      (fun w => (w.verts.all fun v => v.vertex_type == VERTEX_TYPE_PROCESS,
                 w.adj, w.num_edges))
      = some (true, [[⟨1, 0⟩], []], 2) := rfl

/-- C3 counterexample: two processes share pipe inode 42 and neither is
blocked on a pipe, yet the dependency extractor still adds resource id 42
to the second process's held set — additions to held are made for every
pipe-sharing pair, not only when the partner is blocked_on_pipe. -/
theorem pipe_held_added_without_blocked_flag :
    pipe_pri_a.is_blocked_on_pipe = false ∧
    pipe_pri_b.is_blocked_on_pipe = false ∧
    pipe_pri_b.held_resources = [] ∧
    ((analyze_pipe_and_lock_dependencies [pipe_pri_a, pipe_pri_b] []).getD 1
        default).held_resources = [42] :=
  ⟨rfl, rfl, rfl, rfl⟩

/-- C1 counterexample: in cyc_graph the closed path 0 → 1 → 0
(P1001 → R1 → P1001) is an elementary directed cycle, but no CycleInfo
emitted by find_all_cycles is rotation-equal to it: the DFS reaches R1
through the longer cycle first, so the back edge closing the short cycle
points at an already-finished vertex and is never reported. -/
theorem elementary_cycle_not_emitted :
    is_elementary_cycle cyc_graph [0, 1, 0] = true ∧
    (find_all_cycles cyc_graph).all
      (fun c => !rotation_eq c.cycle_path.dropLast [0, 1]) = true := by
  rw [cyc_graph_cycles_eq, cyc_graph_eq]
  exact ⟨by decide, by decide⟩

/-- C7: on the two-party E2E input (P1001 holds R1 waits R2, P1002 holds
R2 waits R1, both resources single-instance) the pipeline reports a
deadlock with exactly one cycle, that cycle visits P1001, R2, P1002, R1
(up to rotation), the deadlocked pids are exactly 1001 and 1002, and the
cycle is classified definite. -/
theorem detect_two_party_definite_deadlock :
    e2e_report.deadlock_detected = true ∧
    e2e_report.cycles.map CycleInfo.cycle_path = [[0, 2, 3, 1, 0]] ∧
    (e2e_rag.map fun g =>
       e2e_report.cycles.all fun c =>
         (List.range (c.cycle_path.dropLast.length + 1)).any fun k =>
           (c.cycle_path.dropLast.map fun v =>
               ((g.vertexAt v).vertex_type, (g.vertexAt v).vertex_id)).rotate k
             == [(VERTEX_TYPE_PROCESS, 1001), (VERTEX_TYPE_RESOURCE, 2),
                 (VERTEX_TYPE_PROCESS, 1002), (VERTEX_TYPE_RESOURCE, 1)])
      = some true ∧
    (∀ p : Int, p ∈ e2e_report.deadlocked_pids ↔ p = 1001 ∨ p = 1002) ∧
    (e2e_rag.map fun g =>
       e2e_report.cycles.all fun c => is_deadlock_definite c g) = some true := by
  rw [e2e_report_eq, e2e_rag_eq]
  refine ⟨rfl, rfl, by decide, ?_, by decide⟩
  intro p
  simp

/-! ## Helper lemmas: vertices and the definiteness test -/

theorem vertexAt_mem (g : ResourceGraph) (v : Nat) (h : v < g.numVertices) :
    g.vertexAt v ∈ g.verts := by
  have he : g.vertexAt v = g.verts[v] := List.getD_eq_getElem g.verts _ h
  rw [he]
  exact List.getElem_mem h

/-- C5: for a non-empty cycle over a graph whose resource vertices all
carry at least one instance (the invariant of every graph the public
operations build), is_deadlock_definite returns 1 exactly when every
in-range resource vertex of the non-closing portion of the path has
exactly one instance; in particular a cycle containing no resource vertex
is classified definite. -/
theorem is_deadlock_definite_iff (cycle : CycleInfo) (g : ResourceGraph)
    (hpath : cycle.cycle_path ≠ [])
    (hinst : ∀ v ∈ g.verts, v.vertex_type = VERTEX_TYPE_RESOURCE →
      1 ≤ v.vertex_instances) :
    (is_deadlock_definite cycle g = true ↔
      ∀ v ∈ cycle.cycle_path.dropLast, v < g.numVertices →
        (g.vertexAt v).vertex_type = VERTEX_TYPE_RESOURCE →
        (g.vertexAt v).vertex_instances = 1) ∧
    ((∀ v ∈ cycle.cycle_path.dropLast, v < g.numVertices →
        (g.vertexAt v).vertex_type ≠ VERTEX_TYPE_RESOURCE) →
      is_deadlock_definite cycle g = true) := by
  have hne : cycle.cycle_path.isEmpty = false := by
    simpa [List.isEmpty_iff] using hpath
  have hmain : is_deadlock_definite cycle g = true ↔
      ∀ v ∈ cycle.cycle_path.dropLast, v < g.numVertices →
        (g.vertexAt v).vertex_type = VERTEX_TYPE_RESOURCE →
        (g.vertexAt v).vertex_instances = 1 := by
    rw [is_deadlock_definite, hne]
    simp only [Bool.false_eq_true, if_false, List.all_eq_true]
    constructor
    · intro h v hv hlt hres
      have := h v hv
      rw [if_pos hlt, if_pos (by simpa using hres)] at this
      have hle : (g.vertexAt v).vertex_instances ≤ 1 := by simpa using this
      have hge : 1 ≤ (g.vertexAt v).vertex_instances :=
        hinst _ (vertexAt_mem g v hlt) hres
      omega
    · intro h v hv
      by_cases hlt : v < g.numVertices
      · rw [if_pos hlt]
        by_cases hres : (g.vertexAt v).vertex_type = VERTEX_TYPE_RESOURCE
        · rw [if_pos (by simpa using hres)]
          have := h v hv hlt hres
          simp [this]
        · rw [if_neg (by simpa using hres)]
      · rw [if_neg hlt]
  refine ⟨hmain, fun hnores => ?_⟩
  rw [hmain]
  intro v hv hlt hres
  exact absurd hres (hnores v hv hlt)

/-- Witness for C5 at the cycle 0 → 1 → 0 over a two-vertex graph with a
single-instance resource. -/
theorem is_deadlock_definite_iff_witness :
    ((⟨[0, 1, 0], 0, 0, [], []⟩ : CycleInfo).cycle_path ≠ [] ∧
     (∀ v ∈ (⟨2, [⟨0, 7, 0⟩, ⟨1, 9, 1⟩], [[], []], 0⟩ : ResourceGraph).verts,
        v.vertex_type = VERTEX_TYPE_RESOURCE → 1 ≤ v.vertex_instances)) ∧
    ((is_deadlock_definite ⟨[0, 1, 0], 0, 0, [], []⟩
        ⟨2, [⟨0, 7, 0⟩, ⟨1, 9, 1⟩], [[], []], 0⟩ = true ↔
      ∀ v ∈ ([0, 1, 0] : List Nat).dropLast,
        v < (⟨2, [⟨0, 7, 0⟩, ⟨1, 9, 1⟩], [[], []], 0⟩ : ResourceGraph).numVertices →
        ((⟨2, [⟨0, 7, 0⟩, ⟨1, 9, 1⟩], [[], []], 0⟩ : ResourceGraph).vertexAt v).vertex_type
            = VERTEX_TYPE_RESOURCE →
        ((⟨2, [⟨0, 7, 0⟩, ⟨1, 9, 1⟩], [[], []], 0⟩ : ResourceGraph).vertexAt v).vertex_instances
            = 1) ∧
     ((∀ v ∈ ([0, 1, 0] : List Nat).dropLast,
        v < (⟨2, [⟨0, 7, 0⟩, ⟨1, 9, 1⟩], [[], []], 0⟩ : ResourceGraph).numVertices →
        ((⟨2, [⟨0, 7, 0⟩, ⟨1, 9, 1⟩], [[], []], 0⟩ : ResourceGraph).vertexAt v).vertex_type
            ≠ VERTEX_TYPE_RESOURCE) →
      is_deadlock_definite ⟨[0, 1, 0], 0, 0, [], []⟩
        ⟨2, [⟨0, 7, 0⟩, ⟨1, 9, 1⟩], [[], []], 0⟩ = true)) :=
  ⟨⟨by decide, by decide⟩,
   is_deadlock_definite_iff ⟨[0, 1, 0], 0, 0, [], []⟩
     ⟨2, [⟨0, 7, 0⟩, ⟨1, 9, 1⟩], [[], []], 0⟩ (by decide) (by decide)⟩

/-! ## Claim C4: the selection rule of the classifier -/

theorem partition_snd_ne_nil (cycles : List CycleInfo) (g : ResourceGraph)
    (hne : cycles ≠ [])
    (hdef : (filter_actual_deadlocks cycles g).1 = []) :
    (filter_actual_deadlocks cycles g).2 ≠ [] := by
  cases cycles with
  | nil => exact absurd rfl hne
  | cons c t =>
      rw [filter_actual_deadlocks, List.partition_eq_filter_filter] at hdef ⊢
      by_cases hc : is_deadlock_definite c g = true
      · exfalso
        simp [List.filter_cons, hc] at hdef
      · simp [List.filter_cons, hc]

/-- C4: the classifier's report carries the definite bucket when it is
non-empty and otherwise the potential bucket (for a freshly initialized
report), and deadlock_detected holds exactly when the report's cycle list
is non-empty. -/
theorem analyze_cycles_selection (cycles : List CycleInfo)
    (g : ResourceGraph) (report0 : DeadlockReport)
    (hfresh : report0.cycles = []) :
    ((analyze_cycles_for_deadlock cycles g report0).cycles =
      if (filter_actual_deadlocks cycles g).1 ≠ []
      then (filter_actual_deadlocks cycles g).1
      else (filter_actual_deadlocks cycles g).2) ∧
    ((analyze_cycles_for_deadlock cycles g report0).deadlock_detected = true ↔
      (analyze_cycles_for_deadlock cycles g report0).cycles ≠ []) := by
  by_cases hnil : cycles.length = 0
  · have hcyc : cycles = [] := List.length_eq_zero.mp hnil
    subst hcyc
    rw [analyze_cycles_for_deadlock]
    simp [filter_actual_deadlocks, hfresh]
  · have hne : cycles ≠ [] := fun h => hnil (by simp [h])
    by_cases hdef : (filter_actual_deadlocks cycles g).1 = []
    · have hpot := partition_snd_ne_nil cycles g hne hdef
      have hlen1 : (filter_actual_deadlocks cycles g).1.length = 0 := by
        simp [hdef]
      have hlen2 : 0 < (filter_actual_deadlocks cycles g).2.length :=
        List.length_pos.mpr hpot
      simp [analyze_cycles_for_deadlock, hnil, hdef, hpot, hlen1, hlen2]
    · have hlen1 : (filter_actual_deadlocks cycles g).1.length ≠ 0 := by
        simpa using fun h => hdef (List.length_eq_zero.mp h)
      simp [analyze_cycles_for_deadlock, hnil, hdef, hlen1,
        List.length_pos.mpr hdef]

/-- Witness for C4 at a one-cycle input over a one-vertex graph. -/
theorem analyze_cycles_selection_witness :
    (create_deadlock_report.cycles = []) ∧
    (((analyze_cycles_for_deadlock [⟨[0, 0], 0, 0, [7], []⟩]
        ⟨1, [⟨0, 7, 0⟩], [[⟨0, 0⟩]], 1⟩ create_deadlock_report).cycles =
      if (filter_actual_deadlocks [⟨[0, 0], 0, 0, [7], []⟩]
            ⟨1, [⟨0, 7, 0⟩], [[⟨0, 0⟩]], 1⟩).1 ≠ []
      then (filter_actual_deadlocks [⟨[0, 0], 0, 0, [7], []⟩]
            ⟨1, [⟨0, 7, 0⟩], [[⟨0, 0⟩]], 1⟩).1
      else (filter_actual_deadlocks [⟨[0, 0], 0, 0, [7], []⟩]
            ⟨1, [⟨0, 7, 0⟩], [[⟨0, 0⟩]], 1⟩).2) ∧
    ((analyze_cycles_for_deadlock [⟨[0, 0], 0, 0, [7], []⟩]
        ⟨1, [⟨0, 7, 0⟩], [[⟨0, 0⟩]], 1⟩ create_deadlock_report).deadlock_detected
        = true ↔
      (analyze_cycles_for_deadlock [⟨[0, 0], 0, 0, [7], []⟩]
        ⟨1, [⟨0, 7, 0⟩], [[⟨0, 0⟩]], 1⟩ create_deadlock_report).cycles ≠ [])) :=
  ⟨rfl,
   analyze_cycles_selection [⟨[0, 0], 0, 0, [7], []⟩]
     ⟨1, [⟨0, 7, 0⟩], [[⟨0, 0⟩]], 1⟩ create_deadlock_report rfl⟩

/-! ## Claim C6: deadlocked pid extraction -/

theorem add_pid_mem (pids : List Int) (x y : Int) :
    y ∈ add_pid_to_array pids x ↔ y ∈ pids ∨ y = x := by
  rw [add_pid_to_array]
  by_cases h : x ∈ pids
  · rw [if_pos h]
    constructor
    · exact Or.inl
    · rintro (hy | rfl)
      · exact hy
      · exact h
  · rw [if_neg h]
    simp

theorem foldl_add_pid_mem (l : List Int) :
    ∀ (acc : List Int) (y : Int),
      y ∈ l.foldl add_pid_to_array acc ↔ y ∈ acc ∨ y ∈ l := by
  induction l with
  | nil => simp
  | cons x t ih =>
      intro acc y
      rw [List.foldl_cons, ih, add_pid_mem, List.mem_cons]
      tauto

theorem foldl_add_pid_nodup (l : List Int) :
    ∀ acc : List Int, acc.Nodup → (l.foldl add_pid_to_array acc).Nodup := by
  induction l with
  | nil => exact fun acc h => h
  | cons x t ih =>
      intro acc hacc
      rw [List.foldl_cons]
      refine ih _ ?_
      rw [add_pid_to_array]
      by_cases h : x ∈ acc
      · rwa [if_pos h]
      · rw [if_neg h]
        simpa [List.nodup_append] using ⟨hacc, h⟩

theorem foldl_add_pid_absorb (l : List Int) :
    ∀ acc : List Int, (∀ x ∈ l, x ∈ acc) → l.foldl add_pid_to_array acc = acc := by
  induction l with
  | nil => exact fun acc _ => rfl
  | cons x t ih =>
      intro acc hsub
      rw [List.foldl_cons, add_pid_to_array,
        if_pos (hsub x (List.mem_cons_self x t))]
      exact ih acc fun y hy => hsub y (List.mem_cons_of_mem x hy)

theorem path_fold_eq (g : ResourceGraph) (path : List Nat) :
    ∀ acc : List Int,
      path.foldl
        (fun ps v =>
          if v < g.numVertices &&
              (g.vertexAt v).vertex_type == VERTEX_TYPE_PROCESS then
            add_pid_to_array ps (g.vertexAt v).vertex_id
          else ps)
        acc
      = (path.filterMap fun v =>
          if v < g.numVertices &&
              (g.vertexAt v).vertex_type == VERTEX_TYPE_PROCESS then
            some (g.vertexAt v).vertex_id
          else none).foldl add_pid_to_array acc := by
  induction path with
  | nil => exact fun acc => rfl
  | cons v t ih =>
      intro acc
      rw [List.foldl_cons, List.filterMap_cons]
      by_cases h : (v < g.numVertices &&
          (g.vertexAt v).vertex_type == VERTEX_TYPE_PROCESS) = true
      · rw [if_pos h, if_pos h, List.foldl_cons]
        exact ih _
      · rw [if_neg h, if_neg h]
        exact ih _

/-- C6: under the pipeline invariant that every cycle's process_ids array
lists only pids found on the cycle's own path (which holds for every
CycleInfo the enumerator emits), identify_deadlocked_processes returns
exactly the order-preserving deduplication of the process-kind vertex ids
met while walking every cycle's path with the closing vertex skipped — a
list with no duplicates and no other pids. -/
theorem identify_deadlocked_eq (cycles : List CycleInfo) (g : ResourceGraph)
    (hids : ∀ c ∈ cycles, ∀ p ∈ c.process_ids, p ∈ walk_process_ids g c) :
    identify_deadlocked_processes cycles g
      = dedup_keep_first ((cycles.map (walk_process_ids g)).flatten) ∧
    (identify_deadlocked_processes cycles g).Nodup ∧
    (∀ p, p ∈ identify_deadlocked_processes cycles g ↔
      ∃ c ∈ cycles, p ∈ walk_process_ids g c) := by
  have hmain : ∀ (cs : List CycleInfo), (∀ c ∈ cs, ∀ p ∈ c.process_ids,
      p ∈ walk_process_ids g c) → ∀ acc : List Int,
      cs.foldl
        (fun pids c =>
          if c.cycle_path.isEmpty then pids
          else
            let pids1 := c.cycle_path.dropLast.foldl
              (fun ps v =>
                if v < g.numVertices &&
                    (g.vertexAt v).vertex_type == VERTEX_TYPE_PROCESS then
                  add_pid_to_array ps (g.vertexAt v).vertex_id
                else ps)
              pids
            c.process_ids.foldl add_pid_to_array pids1)
        acc
      = ((cs.map (walk_process_ids g)).flatten).foldl add_pid_to_array acc := by
    intro cs
    induction cs with
    | nil => intro _ acc; rfl
    | cons c t ih =>
        intro hcs acc
        rw [List.foldl_cons, List.map_cons, List.flatten_cons, List.foldl_append]
        by_cases hemp : c.cycle_path.isEmpty
        · have hwalk : walk_process_ids g c = [] := by
            have : c.cycle_path = [] := by simpa [List.isEmpty_iff] using hemp
            simp [walk_process_ids, this]
          rw [if_pos hemp, hwalk]
          exact ih (fun d hd => hcs d (List.mem_cons_of_mem c hd)) acc
        · rw [if_neg hemp]
          have hpath := path_fold_eq g c.cycle_path.dropLast acc
          have habs : c.process_ids.foldl add_pid_to_array
              ((walk_process_ids g c).foldl add_pid_to_array acc)
              = (walk_process_ids g c).foldl add_pid_to_array acc := by
            refine foldl_add_pid_absorb _ _ fun p hp => ?_
            rw [foldl_add_pid_mem]
            exact Or.inr (hcs c (List.mem_cons_self c t) p hp)
          simp only [walk_process_ids] at habs
          simp only [hpath, habs]
          rw [ih (fun d hd => hcs d (List.mem_cons_of_mem c hd))]
          simp [walk_process_ids]
  have heq : identify_deadlocked_processes cycles g
      = dedup_keep_first ((cycles.map (walk_process_ids g)).flatten) := by
    have h1 := hmain cycles hids []
    rw [identify_deadlocked_processes, h1]
    have : ∀ l : List Int, dedup_keep_first l = l.foldl add_pid_to_array [] := by
      intro l
      rw [dedup_keep_first]
      congr 1
    exact (this _).symm
  refine ⟨heq, ?_, ?_⟩
  · rw [heq]
    have : dedup_keep_first ((cycles.map (walk_process_ids g)).flatten)
        = ((cycles.map (walk_process_ids g)).flatten).foldl add_pid_to_array [] := rfl
    rw [this]
    exact foldl_add_pid_nodup _ [] List.nodup_nil
  · intro p
    rw [heq]
    have : dedup_keep_first ((cycles.map (walk_process_ids g)).flatten)
        = ((cycles.map (walk_process_ids g)).flatten).foldl add_pid_to_array [] := rfl
    rw [this, foldl_add_pid_mem]
    simp

/-- Witness for C6 at a single 2-cycle over a process and a resource. -/
theorem identify_deadlocked_eq_witness :
    (∀ c ∈ [(⟨[0, 1, 0], 0, 0, [7], []⟩ : CycleInfo)], ∀ p ∈ c.process_ids,
      p ∈ walk_process_ids ⟨2, [⟨0, 7, 0⟩, ⟨1, 3, 1⟩], [[⟨1, 0⟩], [⟨0, 1⟩]], 2⟩ c) ∧
    (identify_deadlocked_processes [⟨[0, 1, 0], 0, 0, [7], []⟩]
        ⟨2, [⟨0, 7, 0⟩, ⟨1, 3, 1⟩], [[⟨1, 0⟩], [⟨0, 1⟩]], 2⟩
      = dedup_keep_first
          (([(⟨[0, 1, 0], 0, 0, [7], []⟩ : CycleInfo)].map
            (walk_process_ids ⟨2, [⟨0, 7, 0⟩, ⟨1, 3, 1⟩], [[⟨1, 0⟩], [⟨0, 1⟩]], 2⟩)).flatten) ∧
     (identify_deadlocked_processes [⟨[0, 1, 0], 0, 0, [7], []⟩]
        ⟨2, [⟨0, 7, 0⟩, ⟨1, 3, 1⟩], [[⟨1, 0⟩], [⟨0, 1⟩]], 2⟩).Nodup ∧
     (∀ p, p ∈ identify_deadlocked_processes [⟨[0, 1, 0], 0, 0, [7], []⟩]
          ⟨2, [⟨0, 7, 0⟩, ⟨1, 3, 1⟩], [[⟨1, 0⟩], [⟨0, 1⟩]], 2⟩ ↔
        ∃ c ∈ [(⟨[0, 1, 0], 0, 0, [7], []⟩ : CycleInfo)],
          p ∈ walk_process_ids ⟨2, [⟨0, 7, 0⟩, ⟨1, 3, 1⟩], [[⟨1, 0⟩], [⟨0, 1⟩]], 2⟩ c)) :=
  ⟨by decide,
   identify_deadlocked_eq [⟨[0, 1, 0], 0, 0, [7], []⟩]
     ⟨2, [⟨0, 7, 0⟩, ⟨1, 3, 1⟩], [[⟨1, 0⟩], [⟨0, 1⟩]], 2⟩ (by decide)⟩

/-! ## Claim C9: the /proc/locks reader -/

theorem scan_empty_line : scan_lock_line "".toList = LockLineScan.init := by
  decide

theorem parsed_line_ne_empty (l : String)
    (h : 5 ≤ (scan_lock_line l.toList).parsed) : l ≠ "" := by
  intro heq
  rw [heq, scan_empty_line] at h
  exact absurd h (by decide)

theorem spec_lock_line_none (l : String)
    (h : ¬5 ≤ (scan_lock_line l.toList).parsed) : spec_lock_line l = none := by
  rw [spec_lock_line, if_neg h]

theorem spec_lock_line_some (l : String)
    (h : 5 ≤ (scan_lock_line l.toList).parsed) :
    spec_lock_line l = some (lock_record_of_scan (scan_lock_line l.toList)) := by
  rw [spec_lock_line, if_pos h]
  rfl

theorem parse_locks_loop (total : Nat) :
    ∀ (rem : List String) (acc : List FileLockInfo),
      acc.length +
          rem.countP (fun l => decide (5 ≤ (scan_lock_line l.toList).parsed))
        ≤ total →
      rem.foldl (parse_locks_step total) acc = acc ++ rem.filterMap spec_lock_line := by
  intro rem
  induction rem with
  | nil => intro acc _; simp
  | cons l t ih =>
      intro acc hbound
      rw [List.foldl_cons, List.filterMap_cons, List.countP_cons] at *
      by_cases hq : 5 ≤ (scan_lock_line l.toList).parsed
      · have hdec : decide (5 ≤ (scan_lock_line l.toList).parsed) = true := by
          exact decide_eq_true hq
        have hlt : acc.length < total := by
          rw [hdec] at hbound
          simp only [if_true] at hbound
          omega
        have hstep : parse_locks_step total acc l
            = acc ++ [lock_record_of_scan (scan_lock_line l.toList)] := by
          rw [parse_locks_step, if_pos hlt, if_neg (parsed_line_ne_empty l hq)]
          exact if_pos hq
        rw [hstep, spec_lock_line_some l hq,
          ih (acc ++ [lock_record_of_scan (scan_lock_line l.toList)]) (by
            rw [hdec] at hbound
            simp only [if_true] at hbound
            simp only [List.length_append, List.length_cons, List.length_nil]
            omega)]
        simp
      · have hdec : decide (5 ≤ (scan_lock_line l.toList).parsed) = false := by
          exact decide_eq_false hq
        have hstep : parse_locks_step total acc l = acc := by
          rw [parse_locks_step]
          by_cases hlt : acc.length < total
          · rw [if_pos hlt]
            by_cases hemp : l = ""
            · rw [if_pos hemp]
            · rw [if_neg hemp]
              exact if_neg hq
          · rw [if_neg hlt]
        rw [hstep, spec_lock_line_none l hq,
          ih acc (by
            rw [hdec] at hbound
            simp only [Bool.false_eq_true, if_false] at hbound
            omega)]

theorem filterMap_spec_lock_length (lines : List String) :
    (lines.filterMap spec_lock_line).length
      = lines.countP fun l => decide (5 ≤ (scan_lock_line l.toList).parsed) := by
  induction lines with
  | nil => rfl
  | cons l t ih =>
      rw [List.filterMap_cons, List.countP_cons]
      by_cases hq : 5 ≤ (scan_lock_line l.toList).parsed
      · rw [spec_lock_line_some l hq, decide_eq_true hq]
        simp only [List.length_cons, if_true, ih]
      · rw [spec_lock_line_none l hq, decide_eq_false hq]
        simp [ih]

/-- C9: parse_system_locks yields exactly one record per line whose scan
assigns at least the first five fields (in input order, other lines
skipped silently), and each record is the one described by the spec —
kind tag F exactly for a kind word starting with F and P otherwise,
is_blocking set iff the rw field equals WRITE, and end offset 0 when the
end field cannot be parsed — as transcribed by spec_lock_line. -/
theorem parse_system_locks_spec (lines : List String) :
    parse_system_locks lines = spec_parse_system_locks lines ∧
    (parse_system_locks lines).length
      = lines.countP fun l => decide (5 ≤ (scan_lock_line l.toList).parsed) := by
  have hsub : lines.countP (fun l => decide (5 ≤ (scan_lock_line l.toList).parsed))
      ≤ lines.countP fun l => decide (l ≠ "") := by
    refine List.countP_mono_left fun l _ h => ?_
    simp only [decide_eq_true_eq] at *
    exact parsed_line_ne_empty l h
  have hcount : (lines.filter fun l => l ≠ "").length
      = lines.countP fun l => decide (l ≠ "") :=
    (List.countP_eq_length_filter _ _).symm
  have hunf : parse_system_locks lines =
      if (lines.filter fun l => l ≠ "").length = 0 then []
      else lines.foldl
        (parse_locks_step ((lines.filter fun l => l ≠ "").length)) [] := rfl
  rw [hunf, spec_parse_system_locks]
  by_cases hz : (lines.filter fun l => l ≠ "").length = 0
  · have hq0 : lines.countP (fun l => decide (5 ≤ (scan_lock_line l.toList).parsed)) = 0 := by
      rw [hcount] at hz
      omega
    have hnil : lines.filterMap spec_lock_line = [] := by
      have := filterMap_spec_lock_length lines
      rw [hq0] at this
      exact List.length_eq_zero.mp this
    rw [if_pos hz, hnil, hq0]
    exact ⟨rfl, rfl⟩
  · rw [if_neg hz]
    have hloop := parse_locks_loop ((lines.filter fun l => l ≠ "").length) lines []
      (by rw [hcount]; simpa using hsub)
    rw [hloop]
    simpa using filterMap_spec_lock_length lines

/-! ## Claim C10: graphs built from PRIs are single-instance throughout -/

theorem resinv_add_process (g : ResourceGraph) (pid : Int)
    (h : ∀ v ∈ g.verts, v.vertex_type = VERTEX_TYPE_RESOURCE →
      v.vertex_instances = 1) :
    ∀ v ∈ (add_process_vertex g pid).1.verts,
      v.vertex_type = VERTEX_TYPE_RESOURCE → v.vertex_instances = 1 := by
  rw [add_process_vertex]
  by_cases hp : pid ≤ 0
  · rw [if_pos hp]; exact h
  · rw [if_neg hp]
    cases hf : find_vertex_by_pid g pid with
    | some existing => exact h
    | none =>
        by_cases hfull : g.max_vertices ≤ g.verts.length
        · rw [if_pos hfull]; exact h
        · rw [if_neg hfull]
          intro v hv
          rcases List.mem_append.mp hv with hv | hv
          · exact h v hv
          · intro hres
            simp only [List.mem_singleton] at hv
            subst hv
            exact absurd hres (by
              simp [VERTEX_TYPE_PROCESS, VERTEX_TYPE_RESOURCE])

theorem resinv_add_resource (g : ResourceGraph) (rid : Int)
    (h : ∀ v ∈ g.verts, v.vertex_type = VERTEX_TYPE_RESOURCE →
      v.vertex_instances = 1) :
    ∀ v ∈ (add_resource_vertex g rid 1).1.verts,
      v.vertex_type = VERTEX_TYPE_RESOURCE → v.vertex_instances = 1 := by
  rw [add_resource_vertex]
  by_cases hr : rid < 0
  · rw [if_pos hr]; exact h
  · rw [if_neg hr]
    have hinst : (if (1 : Int) ≤ 0 then (1 : Int) else 1) = 1 := by norm_num
    simp only [hinst]
    cases hf : find_vertex_by_rid g rid with
    | some existing =>
        simp only [hf]
        by_cases hne : (g.vertexAt existing).vertex_instances ≠ 1
        · simp only [hne, if_true, ne_eq, not_false_eq_true, if_pos]
          intro v hv
          rcases List.mem_or_eq_of_mem_set hv with hv | hv
          · exact h v hv
          · intro _
            subst hv
            rfl
        · rw [if_neg hne]
          exact h
    | none =>
        simp only [hf]
        by_cases hfull : g.max_vertices ≤ g.verts.length
        · rw [if_pos hfull]; exact h
        · rw [if_neg hfull]
          intro v hv
          rcases List.mem_append.mp hv with hv | hv
          · exact h v hv
          · intro _
            simp only [List.mem_singleton] at hv
            subst hv
            rfl

theorem resinv_add_allocation (g : ResourceGraph) (rid pid : Int)
    (h : ∀ v ∈ g.verts, v.vertex_type = VERTEX_TYPE_RESOURCE →
      v.vertex_instances = 1) :
    ∀ v ∈ (add_allocation_edge g rid pid).1.verts,
      v.vertex_type = VERTEX_TYPE_RESOURCE → v.vertex_instances = 1 := by
  have h1 := resinv_add_resource g rid h
  rcases hres : add_resource_vertex g rid 1 with ⟨g1, rv?⟩
  rw [hres] at h1
  cases rv? with
  | none =>
      simp only [add_allocation_edge, hres]
      exact h1
  | some resource_vertex =>
      have h2 := resinv_add_process g1 pid h1
      rcases hproc : add_process_vertex g1 pid with ⟨g2, pv?⟩
      rw [hproc] at h2
      cases pv? with
      | none =>
          simp only [add_allocation_edge, hres, hproc]
          exact h2
      | some process_vertex =>
          simp only [add_allocation_edge, hres, hproc]
          exact h2

theorem resinv_add_request (g : ResourceGraph) (pid rid : Int)
    (h : ∀ v ∈ g.verts, v.vertex_type = VERTEX_TYPE_RESOURCE →
      v.vertex_instances = 1) :
    ∀ v ∈ (add_request_edge g pid rid).1.verts,
      v.vertex_type = VERTEX_TYPE_RESOURCE → v.vertex_instances = 1 := by
  have h1 := resinv_add_process g pid h
  rcases hproc : add_process_vertex g pid with ⟨g1, pv?⟩
  rw [hproc] at h1
  cases pv? with
  | none =>
      simp only [add_request_edge, hproc]
      exact h1
  | some process_vertex =>
      have h2 := resinv_add_resource g1 rid h1
      rcases hres : add_resource_vertex g1 rid 1 with ⟨g2, rv?⟩
      rw [hres] at h2
      cases rv? with
      | none =>
          simp only [add_request_edge, hproc, hres]
          exact h2
      | some resource_vertex =>
          simp only [add_request_edge, hproc, hres]
          exact h2

theorem foldlM_option_preserve {α β : Type} (P : β → Prop)
    (step : β → α → Option β)
    (hstep : ∀ b a b2, P b → step b a = some b2 → P b2) :
    ∀ (l : List α) (b b2 : β), P b → l.foldlM step b = some b2 → P b2 := by
  intro l
  induction l with
  | nil =>
      intro b b2 hb hfold
      simp only [List.foldlM_nil, Option.pure_def, Option.some.injEq] at hfold
      rwa [← hfold]
  | cons a t ih =>
      intro b b2 hb hfold
      rw [List.foldlM_cons] at hfold
      cases hstep1 : step b a with
      | none => rw [hstep1] at hfold; exact absurd hfold (by simp)
      | some b1 =>
          rw [hstep1] at hfold
          simp only [Option.bind_eq_bind, Option.some_bind] at hfold
          exact ih b1 b2 (hstep b a b1 hb hstep1) hfold

theorem resinv_held_step (pid : Int) (b : ResourceGraph) (a : Int)
    (b2 : ResourceGraph)
    (hb : ∀ v ∈ b.verts, v.vertex_type = VERTEX_TYPE_RESOURCE →
      v.vertex_instances = 1)
    (hs : build_held_step pid b a = some b2) :
    ∀ v ∈ b2.verts, v.vertex_type = VERTEX_TYPE_RESOURCE →
      v.vertex_instances = 1 := by
  rw [build_held_step] at hs
  cases hrv : (add_resource_vertex b a 1).2 with
  | none => rw [hrv] at hs; exact absurd hs (by simp)
  | some rv =>
      have hga := resinv_add_resource b a hb
      rcases halloc : add_allocation_edge (add_resource_vertex b a 1).1 a pid
        with ⟨gb, res⟩
      simp only [hrv, halloc] at hs
      have hgb : ∀ v ∈ gb.verts, v.vertex_type = VERTEX_TYPE_RESOURCE →
          v.vertex_instances = 1 := by
        have := resinv_add_allocation (add_resource_vertex b a 1).1 a pid hga
        rwa [halloc] at this
      by_cases hsucc : res = SUCCESS
      · rw [if_pos hsucc] at hs
        cases hs
        exact hgb
      · rw [if_neg hsucc] at hs
        exact absurd hs (by simp)

theorem resinv_waiting_step (pid : Int) (b : ResourceGraph) (a : Int)
    (b2 : ResourceGraph)
    (hb : ∀ v ∈ b.verts, v.vertex_type = VERTEX_TYPE_RESOURCE →
      v.vertex_instances = 1)
    (hs : build_waiting_step pid b a = some b2) :
    ∀ v ∈ b2.verts, v.vertex_type = VERTEX_TYPE_RESOURCE →
      v.vertex_instances = 1 := by
  rw [build_waiting_step] at hs
  cases hrv : (add_resource_vertex b a 1).2 with
  | none => rw [hrv] at hs; exact absurd hs (by simp)
  | some rv =>
      have hga := resinv_add_resource b a hb
      rcases hreq : add_request_edge (add_resource_vertex b a 1).1 pid a
        with ⟨gb, res⟩
      simp only [hrv, hreq] at hs
      have hgb : ∀ v ∈ gb.verts, v.vertex_type = VERTEX_TYPE_RESOURCE →
          v.vertex_instances = 1 := by
        have := resinv_add_request (add_resource_vertex b a 1).1 pid a hga
        rwa [hreq] at this
      by_cases hsucc : res = SUCCESS
      · rw [if_pos hsucc] at hs
        cases hs
        exact hgb
      · rw [if_neg hsucc] at hs
        exact absurd hs (by simp)

theorem resinv_build_step (g : ResourceGraph) (p : ProcessResourceInfo)
    (g2 : ResourceGraph)
    (h : ∀ v ∈ g.verts, v.vertex_type = VERTEX_TYPE_RESOURCE →
      v.vertex_instances = 1)
    (hstep : build_rag_step g p = some g2) :
    ∀ v ∈ g2.verts, v.vertex_type = VERTEX_TYPE_RESOURCE →
      v.vertex_instances = 1 := by
  rw [build_rag_step] at hstep
  cases hpv : (add_process_vertex g p.pid).2 with
  | none => rw [hpv] at hstep; exact absurd hstep (by simp)
  | some pv =>
      rw [hpv] at hstep
      have h1 := resinv_add_process g p.pid h
      cases hheld : p.held_resources.foldlM (build_held_step p.pid)
          (add_process_vertex g p.pid).1 with
      | none => rw [hheld] at hstep; exact absurd hstep (by simp)
      | some gh =>
          rw [hheld] at hstep
          have h2 : ∀ v ∈ gh.verts, v.vertex_type = VERTEX_TYPE_RESOURCE →
              v.vertex_instances = 1 :=
            foldlM_option_preserve _ (build_held_step p.pid)
              (fun b a b2 hb hs => resinv_held_step p.pid b a b2 hb hs)
              p.held_resources _ gh h1 hheld
          exact foldlM_option_preserve _ (build_waiting_step p.pid)
            (fun b a b2 hb hs => resinv_waiting_step p.pid b a b2 hb hs)
            p.waiting_resources gh g2 h2 hstep

theorem resinv_build (procs : List ProcessResourceInfo) (g : ResourceGraph)
    (hbuild : build_rag_from_processes procs = some g) :
    ∀ v ∈ g.verts, v.vertex_type = VERTEX_TYPE_RESOURCE →
      v.vertex_instances = 1 := by
  rw [build_rag_from_processes] at hbuild
  by_cases hz : procs.length = 0
  · rw [if_pos hz] at hbuild
    exact absurd hbuild (by simp)
  · rw [if_neg hz] at hbuild
    exact foldlM_option_preserve _ build_rag_step
      (fun b a b2 hb hs => resinv_build_step b a b2 hb hs)
      procs _ g (by simp [create_graph]) hbuild

theorem extract_path_shape (parent : List Int) (ancestor current : Nat)
    (g : ResourceGraph) (c : CycleInfo)
    (h : extract_cycle_path parent ancestor current g = some c) :
    ∃ mid, c.cycle_path = ancestor :: mid ++ [ancestor] := by
  rw [extract_cycle_path] at h
  by_cases hb : g.numVertices ≤ ancestor ∨ g.numVertices ≤ current
  · rw [if_pos hb] at h
    exact absurd h (by simp)
  · rw [if_neg hb] at h
    by_cases hself : current = ancestor
    · rw [if_pos hself] at h
      cases h
      exact ⟨[], rfl⟩
    · rw [if_neg hself] at h
      cases hchain : parent_chain parent ancestor g.numVertices current with
      | none => rw [hchain] at h; exact absurd h (by simp)
      | some chain =>
          rw [hchain] at h
          cases h
          exact ⟨chain.reverse, rfl⟩

theorem add_cycle_forall (P : CycleInfo → Prop) (l : List CycleInfo)
    (c : CycleInfo) (hl : ∀ d ∈ l, P d) (hc : P c) :
    ∀ d ∈ add_cycle_to_list l c, P d := by
  rw [add_cycle_to_list]
  by_cases hdup : is_duplicate_cycle c l
  · rw [if_pos hdup]; exact hl
  · rw [if_neg hdup]
    intro d hd
    rcases List.mem_append.mp hd with hd | hd
    · exact hl d hd
    · simp only [List.mem_singleton] at hd
      subst hd
      exact hc

theorem dfs_visit_cycles_forall (g : ResourceGraph) (P : CycleInfo → Prop)
    (hext : ∀ parent ancestor current c,
      extract_cycle_path parent ancestor current g = some c → P c) :
    ∀ (fuel vertex : Nat) (st : DfsState), (∀ d ∈ st.cycles, P d) →
      ∀ d ∈ (dfs_visit_recursive g fuel vertex st).cycles, P d := by
  intro fuel
  induction fuel with
  | zero => intro vertex st hst; exact hst
  | succ fuel ih =>
      intro vertex st hst
      rw [dfs_visit_recursive]
      have hfold : ∀ (nodes : List GraphNode) (st1 : DfsState),
          (∀ d ∈ st1.cycles, P d) →
          ∀ d ∈ (nodes.foldl
            (dfs_neighbor g (dfs_visit_recursive g fuel) vertex) st1).cycles,
            P d := by
        intro nodes
        induction nodes with
        | nil => intro st1 hst1; exact hst1
        | cons node rest ihn =>
            intro st1 hst1
            rw [List.foldl_cons]
            refine ihn _ ?_
            simp only [dfs_neighbor]
            by_cases hrange : g.numVertices ≤ node.vertex_id
            · rw [if_pos hrange]; exact hst1
            · rw [if_neg hrange]
              by_cases hwhite : st1.color.getD node.vertex_id 0 = COLOR_WHITE
              · rw [if_pos hwhite]
                exact ih node.vertex_id _ hst1
              · rw [if_neg hwhite]
                by_cases hgray : st1.color.getD node.vertex_id 0 = COLOR_GRAY
                · rw [if_pos hgray]
                  cases hex : extract_cycle_path st1.parent node.vertex_id
                      vertex g with
                  | none => exact hst1
                  | some c =>
                      exact add_cycle_forall P st1.cycles c hst1
                        (hext _ _ _ _ hex)
                · rw [if_neg hgray]; exact hst1
      exact hfold _ _ hst

theorem find_all_cycles_forall (g : ResourceGraph) (P : CycleInfo → Prop)
    (hext : ∀ parent ancestor current c,
      extract_cycle_path parent ancestor current g = some c → P c) :
    ∀ c ∈ find_all_cycles g, P c := by
  rw [find_all_cycles]
  have hfold : ∀ (l : List Nat) (st : DfsState), (∀ d ∈ st.cycles, P d) →
      ∀ d ∈ (l.foldl
        (fun st i =>
          if st.color.getD i 0 = COLOR_WHITE then
            dfs_visit_recursive g (g.numVertices + 1) i
              { st with parent := List.replicate g.numVertices (-1) }
          else st)
        st).cycles, P d := by
    intro l
    induction l with
    | nil => intro st hst; exact hst
    | cons i rest ihl =>
        intro st hst
        rw [List.foldl_cons]
        refine ihl _ ?_
        by_cases hw : st.color.getD i 0 = COLOR_WHITE
        · rw [if_pos hw]
          exact dfs_visit_cycles_forall g P hext _ i _ hst
        · rw [if_neg hw]; exact hst
  exact hfold _ _ (by intro d hd; exact absurd hd (List.not_mem_nil d))

theorem definite_of_single_instance (g : ResourceGraph) (c : CycleInfo)
    (hres : ∀ v ∈ g.verts, v.vertex_type = VERTEX_TYPE_RESOURCE →
      v.vertex_instances = 1)
    (hne : c.cycle_path ≠ []) : is_deadlock_definite c g = true := by
  rw [is_deadlock_definite]
  have hemp : c.cycle_path.isEmpty = false := by
    simpa [List.isEmpty_iff] using hne
  rw [hemp]
  simp only [Bool.false_eq_true, if_false, List.all_eq_true]
  intro v hv
  by_cases hlt : v < g.numVertices
  · rw [if_pos hlt]
    by_cases hrv : ((g.vertexAt v).vertex_type == VERTEX_TYPE_RESOURCE) = true
    · rw [if_pos hrv]
      have := hres _ (vertexAt_mem g v hlt) (by simpa using hrv)
      simp [this]
    · rw [if_neg hrv]
  · rw [if_neg hlt]

/-- C10: a RAG built from PRIs has every resource vertex at exactly one
instance (add_resource_vertex coerces non-positive counts to 1 and every
builder call passes 1); consequently every cycle the enumerator finds in
such a graph is classified definite and the potential bucket of
filter_actual_deadlocks is empty. -/
theorem built_rag_cycles_definite (procs : List ProcessResourceInfo)
    (g : ResourceGraph) (hbuild : build_rag_from_processes procs = some g) :
    (∀ v ∈ g.verts, v.vertex_type = VERTEX_TYPE_RESOURCE →
      v.vertex_instances = 1) ∧
    (∀ c ∈ find_all_cycles g, is_deadlock_definite c g = true) ∧
    (filter_actual_deadlocks (find_all_cycles g) g).2 = [] := by
  have hres := resinv_build procs g hbuild
  have hcyc : ∀ c ∈ find_all_cycles g, is_deadlock_definite c g = true := by
    intro c hc
    have hshape : ∃ a mid, c.cycle_path = a :: mid ++ [a] :=
      find_all_cycles_forall g
        (fun c => ∃ a mid, c.cycle_path = a :: mid ++ [a])
        (fun parent ancestor current c hx =>
          ⟨ancestor, extract_path_shape parent ancestor current g c hx⟩)
        c hc
    rcases hshape with ⟨a, mid, hp⟩
    exact definite_of_single_instance g c hres (by simp [hp])
  refine ⟨hres, hcyc, ?_⟩
  rw [filter_actual_deadlocks, List.partition_eq_filter_filter]
  simp only []
  rw [List.filter_eq_nil_iff]
  intro c hc
  simp [hcyc c hc]

/-- Witness for C10 at the E2E-2 build. -/
theorem built_rag_cycles_definite_witness :
    (build_rag_from_processes [e2e_pri1, e2e_pri2] =
      some ⟨4, [⟨0, 1001, 0⟩, ⟨1, 1, 1⟩, ⟨1, 2, 1⟩, ⟨0, 1002, 0⟩],
            [[⟨2, 0⟩], [⟨0, 1⟩], [⟨3, 1⟩], [⟨1, 0⟩]], 4⟩) ∧
    ((∀ v ∈ (⟨4, [⟨0, 1001, 0⟩, ⟨1, 1, 1⟩, ⟨1, 2, 1⟩, ⟨0, 1002, 0⟩],
            [[⟨2, 0⟩], [⟨0, 1⟩], [⟨3, 1⟩], [⟨1, 0⟩]], 4⟩ : ResourceGraph).verts,
        v.vertex_type = VERTEX_TYPE_RESOURCE → v.vertex_instances = 1) ∧
     (∀ c ∈ find_all_cycles ⟨4, [⟨0, 1001, 0⟩, ⟨1, 1, 1⟩, ⟨1, 2, 1⟩, ⟨0, 1002, 0⟩],
            [[⟨2, 0⟩], [⟨0, 1⟩], [⟨3, 1⟩], [⟨1, 0⟩]], 4⟩,
        is_deadlock_definite c
          ⟨4, [⟨0, 1001, 0⟩, ⟨1, 1, 1⟩, ⟨1, 2, 1⟩, ⟨0, 1002, 0⟩],
            [[⟨2, 0⟩], [⟨0, 1⟩], [⟨3, 1⟩], [⟨1, 0⟩]], 4⟩ = true) ∧
     (filter_actual_deadlocks
        (find_all_cycles ⟨4, [⟨0, 1001, 0⟩, ⟨1, 1, 1⟩, ⟨1, 2, 1⟩, ⟨0, 1002, 0⟩],
            [[⟨2, 0⟩], [⟨0, 1⟩], [⟨3, 1⟩], [⟨1, 0⟩]], 4⟩)
        ⟨4, [⟨0, 1001, 0⟩, ⟨1, 1, 1⟩, ⟨1, 2, 1⟩, ⟨0, 1002, 0⟩],
            [[⟨2, 0⟩], [⟨0, 1⟩], [⟨3, 1⟩], [⟨1, 0⟩]], 4⟩).2 = []) :=
  ⟨e2e_rag_eq,
   built_rag_cycles_definite [e2e_pri1, e2e_pri2]
     ⟨4, [⟨0, 1001, 0⟩, ⟨1, 1, 1⟩, ⟨1, 2, 1⟩, ⟨0, 1002, 0⟩],
      [[⟨2, 0⟩], [⟨0, 1⟩], [⟨3, 1⟩], [⟨1, 0⟩]], 4⟩ e2e_rag_eq⟩

/-! ## Claim C3: pipe and lock dependency extraction -/

theorem pri_extends_refl (p : ProcessResourceInfo) : pri_extends p p :=
  ⟨rfl, rfl, rfl, rfl, ⟨[], by simp⟩, ⟨[], by simp⟩, ⟨[], by simp⟩⟩

theorem pri_extends_trans (p q r : ProcessResourceInfo)
    (h1 : pri_extends p q) (h2 : pri_extends q r) : pri_extends p r := by
  obtain ⟨a1, a2, a3, a4, ⟨e1, he1⟩, ⟨e2, he2⟩, ⟨e3, he3⟩⟩ := h1
  obtain ⟨b1, b2, b3, b4, ⟨f1, hf1⟩, ⟨f2, hf2⟩, ⟨f3, hf3⟩⟩ := h2
  refine ⟨by rw [b1, a1], by rw [b2, a2], by rw [b3, a3], by rw [b4, a4],
    ⟨e1 ++ f1, ?_⟩, ⟨e2 ++ f2, ?_⟩, ⟨e3 ++ f3, ?_⟩⟩
  · rw [hf1, he1, List.append_assoc]
  · rw [hf2, he2, List.append_assoc]
  · rw [hf3, he3, List.append_assoc]

theorem procs_extends_refl (ps : List ProcessResourceInfo) :
    procs_extends ps ps :=
  ⟨rfl, fun t => pri_extends_refl _⟩

theorem procs_extends_trans (ps qs rs : List ProcessResourceInfo)
    (h1 : procs_extends ps qs) (h2 : procs_extends qs rs) :
    procs_extends ps rs :=
  ⟨h2.1.trans h1.1, fun t => pri_extends_trans _ _ _ (h1.2 t) (h2.2 t)⟩

theorem getD_set_cases (ps : List ProcessResourceInfo) (i t : Nat)
    (x : ProcessResourceInfo) :
    (ps.set i x).getD t default
      = if i = t ∧ i < ps.length then x else ps.getD t default := by
  by_cases hc : i = t ∧ i < ps.length
  · rw [if_pos hc]
    obtain ⟨rfl, hlt⟩ := hc
    rw [List.getD_eq_getElem?_getD, List.getElem?_set_self (by simpa using hlt)]
    rfl
  · rw [if_neg hc]
    rw [List.getD_eq_getElem?_getD, List.getD_eq_getElem?_getD]
    by_cases hit : i = t
    · subst hit
      have hge : ps.length ≤ i := by
        rcases Nat.lt_or_ge i ps.length with h | h
        · exact absurd ⟨rfl, h⟩ hc
        · exact h
      rw [List.set_eq_of_length_le hge]
    · rw [List.getElem?_set_ne hit]

theorem pri_add_held_extends (p : ProcessResourceInfo) (rid : Int) :
    pri_extends p (pri_add_held_resource p rid) := by
  rw [pri_add_held_resource]
  by_cases h1 : p.held_resources.length < MAX_RESOURCES_PER_PROCESS
  · rw [if_pos h1]
    by_cases h2 : rid ∈ p.held_resources
    · rw [if_pos h2]; exact pri_extends_refl p
    · rw [if_neg h2]
      exact ⟨rfl, rfl, rfl, rfl, ⟨[rid], rfl⟩, ⟨[], by simp⟩, ⟨[], by simp⟩⟩
  · rw [if_neg h1]; exact pri_extends_refl p

theorem pri_add_waiting_res_extends (p : ProcessResourceInfo) (rid : Int) :
    pri_extends p (pri_add_waiting_resource p rid) := by
  rw [pri_add_waiting_resource]
  by_cases h1 : p.waiting_resources.length < MAX_RESOURCES_PER_PROCESS
  · rw [if_pos h1]
    by_cases h2 : rid ∈ p.waiting_resources
    · rw [if_pos h2]; exact pri_extends_refl p
    · rw [if_neg h2]
      exact ⟨rfl, rfl, rfl, rfl, ⟨[], by simp⟩, ⟨[rid], rfl⟩, ⟨[], by simp⟩⟩
  · rw [if_neg h1]; exact pri_extends_refl p

theorem pri_add_waiting_pid_extends (p : ProcessResourceInfo) (pid : Int) :
    pri_extends p (pri_add_waiting_pid p pid) := by
  rw [pri_add_waiting_pid]
  by_cases h1 : p.waiting_on_pids.length < MAX_WAITING_PIDS
  · rw [if_pos h1]
    by_cases h2 : pid ∈ p.waiting_on_pids
    · rw [if_pos h2]; exact pri_extends_refl p
    · rw [if_neg h2]
      exact ⟨rfl, rfl, rfl, rfl, ⟨[], by simp⟩, ⟨[], by simp⟩, ⟨[pid], rfl⟩⟩
  · rw [if_neg h1]; exact pri_extends_refl p

theorem set_extends (ps : List ProcessResourceInfo) (i : Nat)
    (x : ProcessResourceInfo) (hx : pri_extends (ps.getD i default) x) :
    procs_extends ps (ps.set i x) := by
  refine ⟨List.length_set ps i x ▸ rfl, fun t => ?_⟩
  rw [getD_set_cases]
  by_cases hc : i = t ∧ i < ps.length
  · rw [if_pos hc]
    obtain ⟨rfl, _⟩ := hc
    exact hx
  · rw [if_neg hc]
    exact pri_extends_refl _

theorem pipe_pair_update_extends (ps : List ProcessResourceInfo)
    (i j : Nat) (inode : Nat) (hij : i ≠ j) :
    procs_extends ps (pipe_pair_update ps i j inode) := by
  rw [pipe_pair_update]
  set rid : Int := Int.ofNat (inode % 1000000) with hrid
  set proc0 := ps.getD i default with hproc0
  set other0 := ps.getD j default with hother0
  set proc1 := if proc0.is_blocked_on_pipe then
      pri_add_waiting_resource (pri_add_waiting_pid proc0 other0.pid) rid
    else proc0 with hproc1
  have hp1 : pri_extends proc0 proc1 := by
    rw [hproc1]
    by_cases hb : proc0.is_blocked_on_pipe
    · rw [if_pos hb]
      exact pri_extends_trans _ _ _ (pri_add_waiting_pid_extends proc0 other0.pid)
        (pri_add_waiting_res_extends _ rid)
    · rw [if_neg hb]; exact pri_extends_refl _
  set other1 := pri_add_held_resource other0 rid with hother1
  have ho1 : pri_extends other0 other1 := pri_add_held_extends other0 rid
  by_cases hob : other1.is_blocked_on_pipe
  · rw [if_pos hob]
    have hstep1 : procs_extends ps (ps.set i (pri_add_held_resource proc1 rid)) :=
      set_extends ps i _ (pri_extends_trans _ _ _ hp1
        (pri_add_held_extends proc1 rid))
    refine procs_extends_trans _ _ _ hstep1 (set_extends _ j _ ?_)
    have hj : (ps.set i (pri_add_held_resource proc1 rid)).getD j default
        = other0 := by
      rw [getD_set_cases, if_neg (fun hc => hij hc.1), hother0]
    have hgoal : pri_extends other1
        (pri_add_waiting_resource (pri_add_waiting_pid other1 proc1.pid) rid) :=
      pri_extends_trans _ _ _ (pri_add_waiting_pid_extends other1 proc1.pid)
        (pri_add_waiting_res_extends _ rid)
    rw [hj]
    exact pri_extends_trans _ _ _ ho1 hgoal
  · rw [if_neg hob]
    have hstep1 : procs_extends ps (ps.set i proc1) := set_extends ps i _ hp1
    refine procs_extends_trans _ _ _ hstep1 (set_extends _ j _ ?_)
    rw [getD_set_cases]
    by_cases hc : i = j ∧ i < ps.length
    · exact absurd hc.1 hij
    · rw [if_neg hc]
      exact ho1

theorem procs_extends_foldl {α : Type}
    (step : List ProcessResourceInfo → α → List ProcessResourceInfo)
    (hstep : ∀ s x, procs_extends s (step s x)) :
    ∀ (l : List α) (s : List ProcessResourceInfo),
      procs_extends s (l.foldl step s) := by
  intro l
  induction l with
  | nil => exact fun s => procs_extends_refl s
  | cons x t ih =>
      intro s
      rw [List.foldl_cons]
      exact procs_extends_trans _ _ _ (hstep s x) (ih (step s x))

theorem pipe_pair_scan_extends (ps : List ProcessResourceInfo) (i j : Nat)
    (hij : i ≠ j) : procs_extends ps (pipe_pair_scan ps i j) := by
  rw [pipe_pair_scan]
  refine procs_extends_foldl _ (fun s x => ?_) _ ps
  refine procs_extends_foldl _ (fun s2 y => ?_) _ s
  by_cases h : y = x
  · rw [if_pos h]
    exact pipe_pair_update_extends s2 i j x hij
  · rw [if_neg h]
    exact procs_extends_refl s2

theorem lock_scan_step_extends (ps : List ProcessResourceInfo) (i : Nat)
    (lock : FileLockInfo) : procs_extends ps (lock_scan_step ps i lock) := by
  simp only [lock_scan_step]
  by_cases h1 : (lock.is_blocking && decide (lock.pid ≠ (ps.getD i default).pid)) = true
  · rw [if_pos h1]
    by_cases h2 : (ps.getD i default).waiting_resources.length < MAX_RESOURCES_PER_PROCESS
    · rw [if_pos h2]
      by_cases h3 : lock.lock_id ∈ (ps.getD i default).waiting_resources
      · rw [if_pos h3]
        exact procs_extends_refl ps
      · rw [if_neg h3]
        refine set_extends ps i _ ?_
        have hp1 : pri_extends (ps.getD i default)
            { ps.getD i default with
                waiting_resources :=
                  (ps.getD i default).waiting_resources ++ [lock.lock_id] } :=
          ⟨rfl, rfl, rfl, rfl, ⟨[], by simp⟩, ⟨[lock.lock_id], rfl⟩, ⟨[], by simp⟩⟩
        by_cases h4 : ps.any (fun q => q.pid = lock.pid)
        · rw [if_pos h4]
          exact pri_extends_trans _ _ _ hp1 (pri_add_waiting_pid_extends _ lock.pid)
        · rw [if_neg h4]
          exact hp1
    · rw [if_neg h2]
      exact procs_extends_refl ps
  · rw [if_neg h1]
    exact procs_extends_refl ps

theorem analyze_deps_step_extends (locks : List FileLockInfo) (n : Nat)
    (ps : List ProcessResourceInfo) (i : Nat) :
    procs_extends ps (analyze_deps_step locks n ps i) := by
  simp only [analyze_deps_step]
  have hps1 : procs_extends ps
      (if 0 < (ps.getD i default).pipe_inodes.length then
        (List.range n).foldl
          (fun psj j => if i = j then psj else pipe_pair_scan psj i j) ps
      else ps) := by
    by_cases hg : 0 < (ps.getD i default).pipe_inodes.length
    · rw [if_pos hg]
      refine procs_extends_foldl _ (fun s j => ?_) _ ps
      by_cases hj : i = j
      · rw [if_pos hj]
        exact procs_extends_refl s
      · rw [if_neg hj]
        exact pipe_pair_scan_extends s i j hj
    · rw [if_neg hg]
      exact procs_extends_refl ps
  set ps1 := if 0 < (ps.getD i default).pipe_inodes.length then
        (List.range n).foldl
          (fun psj j => if i = j then psj else pipe_pair_scan psj i j) ps
      else ps with hps1def
  refine procs_extends_trans _ _ _ hps1 ?_
  by_cases hg2 : ((ps1.getD i default).is_blocked_on_lock
      && decide (0 < locks.length)) = true
  · rw [if_pos hg2]
    exact procs_extends_foldl _ (fun s lk => lock_scan_step_extends s i lk) _ ps1
  · rw [if_neg hg2]
    exact procs_extends_refl ps1

theorem analyze_deps_extends (procs : List ProcessResourceInfo)
    (locks : List FileLockInfo) :
    procs_extends procs (analyze_pipe_and_lock_dependencies procs locks) := by
  rw [analyze_pipe_and_lock_dependencies]
  exact procs_extends_foldl _
    (fun s i => analyze_deps_step_extends locks procs.length s i) _ procs

theorem pri_add_waiting_pid_held (p : ProcessResourceInfo) (x : Int) :
    (pri_add_waiting_pid p x).held_resources = p.held_resources := by
  rw [pri_add_waiting_pid]
  by_cases h1 : p.waiting_on_pids.length < MAX_WAITING_PIDS
  · rw [if_pos h1]
    by_cases h2 : x ∈ p.waiting_on_pids
    · rw [if_pos h2]
    · rw [if_neg h2]
  · rw [if_neg h1]

theorem pri_add_waiting_pid_waiting (p : ProcessResourceInfo) (x : Int) :
    (pri_add_waiting_pid p x).waiting_resources = p.waiting_resources := by
  rw [pri_add_waiting_pid]
  by_cases h1 : p.waiting_on_pids.length < MAX_WAITING_PIDS
  · rw [if_pos h1]
    by_cases h2 : x ∈ p.waiting_on_pids
    · rw [if_pos h2]
    · rw [if_neg h2]
  · rw [if_neg h1]

theorem pri_add_waiting_res_held (p : ProcessResourceInfo) (x : Int) :
    (pri_add_waiting_resource p x).held_resources = p.held_resources := by
  rw [pri_add_waiting_resource]
  by_cases h1 : p.waiting_resources.length < MAX_RESOURCES_PER_PROCESS
  · rw [if_pos h1]
    by_cases h2 : x ∈ p.waiting_resources
    · rw [if_pos h2]
    · rw [if_neg h2]
  · rw [if_neg h1]

theorem pri_add_waiting_res_waiting_on (p : ProcessResourceInfo) (x : Int) :
    (pri_add_waiting_resource p x).waiting_on_pids = p.waiting_on_pids := by
  rw [pri_add_waiting_resource]
  by_cases h1 : p.waiting_resources.length < MAX_RESOURCES_PER_PROCESS
  · rw [if_pos h1]
    by_cases h2 : x ∈ p.waiting_resources
    · rw [if_pos h2]
    · rw [if_neg h2]
  · rw [if_neg h1]

theorem pri_add_held_waiting (p : ProcessResourceInfo) (x : Int) :
    (pri_add_held_resource p x).waiting_resources = p.waiting_resources := by
  rw [pri_add_held_resource]
  by_cases h1 : p.held_resources.length < MAX_RESOURCES_PER_PROCESS
  · rw [if_pos h1]
    by_cases h2 : x ∈ p.held_resources
    · rw [if_pos h2]
    · rw [if_neg h2]
  · rw [if_neg h1]

theorem pri_add_held_waiting_on (p : ProcessResourceInfo) (x : Int) :
    (pri_add_held_resource p x).waiting_on_pids = p.waiting_on_pids := by
  rw [pri_add_held_resource]
  by_cases h1 : p.held_resources.length < MAX_RESOURCES_PER_PROCESS
  · rw [if_pos h1]
    by_cases h2 : x ∈ p.held_resources
    · rw [if_pos h2]
    · rw [if_neg h2]
  · rw [if_neg h1]

theorem pri_add_held_flag (p : ProcessResourceInfo) (x : Int) :
    (pri_add_held_resource p x).is_blocked_on_pipe = p.is_blocked_on_pipe := by
  rw [pri_add_held_resource]
  by_cases h1 : p.held_resources.length < MAX_RESOURCES_PER_PROCESS
  · rw [if_pos h1]
    by_cases h2 : x ∈ p.held_resources
    · rw [if_pos h2]
    · rw [if_neg h2]
  · rw [if_neg h1]

theorem pri_add_held_mem_or_cap (p : ProcessResourceInfo) (x : Int) :
    x ∈ (pri_add_held_resource p x).held_resources ∨
    MAX_RESOURCES_PER_PROCESS ≤ (pri_add_held_resource p x).held_resources.length := by
  rw [pri_add_held_resource]
  by_cases h1 : p.held_resources.length < MAX_RESOURCES_PER_PROCESS
  · rw [if_pos h1]
    by_cases h2 : x ∈ p.held_resources
    · rw [if_pos h2]
      exact Or.inl h2
    · rw [if_neg h2]
      exact Or.inl (by simp)
  · rw [if_neg h1]
    exact Or.inr (Nat.le_of_not_lt h1)

theorem pri_add_waiting_res_mem_or_cap (p : ProcessResourceInfo) (x : Int) :
    x ∈ (pri_add_waiting_resource p x).waiting_resources ∨
    MAX_RESOURCES_PER_PROCESS ≤ (pri_add_waiting_resource p x).waiting_resources.length := by
  rw [pri_add_waiting_resource]
  by_cases h1 : p.waiting_resources.length < MAX_RESOURCES_PER_PROCESS
  · rw [if_pos h1]
    by_cases h2 : x ∈ p.waiting_resources
    · rw [if_pos h2]
      exact Or.inl h2
    · rw [if_neg h2]
      exact Or.inl (by simp)
  · rw [if_neg h1]
    exact Or.inr (Nat.le_of_not_lt h1)

theorem pri_add_waiting_pid_mem_or_cap (p : ProcessResourceInfo) (x : Int) :
    x ∈ (pri_add_waiting_pid p x).waiting_on_pids ∨
    MAX_WAITING_PIDS ≤ (pri_add_waiting_pid p x).waiting_on_pids.length := by
  rw [pri_add_waiting_pid]
  by_cases h1 : p.waiting_on_pids.length < MAX_WAITING_PIDS
  · rw [if_pos h1]
    by_cases h2 : x ∈ p.waiting_on_pids
    · rw [if_pos h2]
      exact Or.inl h2
    · rw [if_neg h2]
      exact Or.inl (by simp)
  · rw [if_neg h1]
    exact Or.inr (Nat.le_of_not_lt h1)

theorem extends_mem_or_cap_held (ps qs : List ProcessResourceInfo)
    (t : Nat) (x : Int) (h : procs_extends ps qs)
    (hp : x ∈ (ps.getD t default).held_resources ∨
      MAX_RESOURCES_PER_PROCESS ≤ (ps.getD t default).held_resources.length) :
    x ∈ (qs.getD t default).held_resources ∨
    MAX_RESOURCES_PER_PROCESS ≤ (qs.getD t default).held_resources.length := by
  obtain ⟨-, hent⟩ := h
  obtain ⟨-, -, -, -, ⟨e, he⟩, -, -⟩ := hent t
  rw [he]
  rcases hp with hp | hp
  · exact Or.inl (List.mem_append.mpr (Or.inl hp))
  · refine Or.inr ?_
    rw [List.length_append]
    omega

theorem extends_mem_or_cap_waiting (ps qs : List ProcessResourceInfo)
    (t : Nat) (x : Int) (h : procs_extends ps qs)
    (hp : x ∈ (ps.getD t default).waiting_resources ∨
      MAX_RESOURCES_PER_PROCESS ≤ (ps.getD t default).waiting_resources.length) :
    x ∈ (qs.getD t default).waiting_resources ∨
    MAX_RESOURCES_PER_PROCESS ≤ (qs.getD t default).waiting_resources.length := by
  obtain ⟨-, hent⟩ := h
  obtain ⟨-, -, -, -, -, ⟨e, he⟩, -⟩ := hent t
  rw [he]
  rcases hp with hp | hp
  · exact Or.inl (List.mem_append.mpr (Or.inl hp))
  · refine Or.inr ?_
    rw [List.length_append]
    omega

theorem extends_mem_or_cap_waiting_on (ps qs : List ProcessResourceInfo)
    (t : Nat) (x : Int) (h : procs_extends ps qs)
    (hp : x ∈ (ps.getD t default).waiting_on_pids ∨
      MAX_WAITING_PIDS ≤ (ps.getD t default).waiting_on_pids.length) :
    x ∈ (qs.getD t default).waiting_on_pids ∨
    MAX_WAITING_PIDS ≤ (qs.getD t default).waiting_on_pids.length := by
  obtain ⟨-, hent⟩ := h
  obtain ⟨-, -, -, -, -, -, ⟨e, he⟩⟩ := hent t
  rw [he]
  rcases hp with hp | hp
  · exact Or.inl (List.mem_append.mpr (Or.inl hp))
  · refine Or.inr ?_
    rw [List.length_append]
    omega

theorem foldl_establish {α : Type} (P : List ProcessResourceInfo → Prop)
    (step : List ProcessResourceInfo → α → List ProcessResourceInfo)
    (hstep : ∀ s x, procs_extends s (step s x))
    (hmono : ∀ s s2, procs_extends s s2 → P s → P s2) :
    ∀ (l : List α) (s : List ProcessResourceInfo) (a : α), a ∈ l →
      (∀ s2, procs_extends s s2 → P (step s2 a)) → P (l.foldl step s) := by
  intro l
  induction l with
  | nil =>
      intro s a ha
      exact absurd ha (List.not_mem_nil a)
  | cons b t ih =>
      intro s a ha hest
      rw [List.foldl_cons]
      rcases List.mem_cons.mp ha with rfl | ha
      · have hP : P (step s a) := hest s (procs_extends_refl s)
        exact hmono _ _ (procs_extends_foldl step hstep t (step s a)) hP
      · exact ih (step s b) a ha
          (fun s2 h2 => hest s2 (procs_extends_trans _ _ _ (hstep s b) h2))

theorem pipe_pair_update_held_j (ps : List ProcessResourceInfo)
    (i j inode : Nat) (hij : i ≠ j) (hj : j < ps.length) :
    Int.ofNat (inode % 1000000) ∈
      ((pipe_pair_update ps i j inode).getD j default).held_resources ∨
    MAX_RESOURCES_PER_PROCESS ≤
      ((pipe_pair_update ps i j inode).getD j default).held_resources.length := by
  simp only [pipe_pair_update]
  by_cases hob : (pri_add_held_resource (ps.getD j default)
      (Int.ofNat (inode % 1000000))).is_blocked_on_pipe
  · rw [if_pos hob]
    rw [getD_set_cases, if_pos ⟨rfl, by simpa using hj⟩]
    rw [pri_add_waiting_res_held, pri_add_waiting_pid_held]
    exact pri_add_held_mem_or_cap _ _
  · rw [if_neg hob]
    rw [getD_set_cases, if_pos ⟨rfl, by simpa using hj⟩]
    exact pri_add_held_mem_or_cap _ _

theorem pipe_pair_update_wait_i (ps : List ProcessResourceInfo)
    (i j inode : Nat) (hij : i ≠ j) (hi : i < ps.length)
    (hbl : (ps.getD i default).is_blocked_on_pipe = true) :
    (Int.ofNat (inode % 1000000) ∈
        ((pipe_pair_update ps i j inode).getD i default).waiting_resources ∨
      MAX_RESOURCES_PER_PROCESS ≤
        ((pipe_pair_update ps i j inode).getD i default).waiting_resources.length) ∧
    ((ps.getD j default).pid ∈
        ((pipe_pair_update ps i j inode).getD i default).waiting_on_pids ∨
      MAX_WAITING_PIDS ≤
        ((pipe_pair_update ps i j inode).getD i default).waiting_on_pids.length) := by
  simp only [pipe_pair_update]
  rw [if_pos hbl]
  by_cases hob : (pri_add_held_resource (ps.getD j default)
      (Int.ofNat (inode % 1000000))).is_blocked_on_pipe
  · rw [if_pos hob]
    rw [getD_set_cases, if_neg (fun hc => hij hc.1.symm),
      getD_set_cases, if_pos ⟨rfl, by simpa using hi⟩]
    constructor
    · rw [pri_add_held_waiting]
      exact pri_add_waiting_res_mem_or_cap _ _
    · rw [pri_add_held_waiting_on, pri_add_waiting_res_waiting_on]
      exact pri_add_waiting_pid_mem_or_cap _ _
  · rw [if_neg hob]
    rw [getD_set_cases, if_neg (fun hc => hij hc.1.symm),
      getD_set_cases, if_pos ⟨rfl, by simpa using hi⟩]
    constructor
    · exact pri_add_waiting_res_mem_or_cap _ _
    · rw [pri_add_waiting_res_waiting_on]
      exact pri_add_waiting_pid_mem_or_cap _ _

theorem pipe_pair_scan_establish (P : List ProcessResourceInfo → Prop)
    (hmono : ∀ s s2, procs_extends s s2 → P s → P s2)
    (ps : List ProcessResourceInfo) (i j inode : Nat) (hij : i ≠ j)
    (hsi : inode ∈ (ps.getD i default).pipe_inodes)
    (hsj : inode ∈ (ps.getD j default).pipe_inodes)
    (hupd : ∀ s2, procs_extends ps s2 → P (pipe_pair_update s2 i j inode)) :
    P (pipe_pair_scan ps i j) := by
  rw [pipe_pair_scan]
  have hstep_inner : ∀ (x : Nat) (s2 : List ProcessResourceInfo) (y : Nat),
      procs_extends s2 (if y = x then pipe_pair_update s2 i j x else s2) := by
    intro x s2 y
    by_cases h : y = x
    · rw [if_pos h]
      exact pipe_pair_update_extends s2 i j x hij
    · rw [if_neg h]
      exact procs_extends_refl s2
  have hstep_outer : ∀ (s : List ProcessResourceInfo) (x : Nat),
      procs_extends s ((ps.getD j default).pipe_inodes.foldl
        (fun psl y => if y = x then pipe_pair_update psl i j x else psl) s) :=
    fun s x => procs_extends_foldl _ (fun s2 y => hstep_inner x s2 y) _ s
  have hest : ∀ s2, procs_extends ps s2 →
      P ((ps.getD j default).pipe_inodes.foldl
        (fun psl y => if y = inode then pipe_pair_update psl i j inode else psl)
        s2) := by
    intro s2 h2
    refine foldl_establish P _ (fun s3 y => hstep_inner inode s3 y) hmono
      _ s2 inode hsj ?_
    intro s3 h3
    rw [if_pos rfl]
    exact hupd s3 (procs_extends_trans _ _ _ h2 h3)
  exact foldl_establish P _ hstep_outer hmono _ ps inode hsi hest

theorem deps_step_establish (P : List ProcessResourceInfo → Prop)
    (hmono : ∀ s s2, procs_extends s s2 → P s → P s2)
    (locks : List FileLockInfo) (n : Nat)
    (ps : List ProcessResourceInfo) (i j inode : Nat)
    (hij : i ≠ j) (hjn : j < n)
    (hsi : inode ∈ (ps.getD i default).pipe_inodes)
    (hsj : inode ∈ (ps.getD j default).pipe_inodes)
    (hupd : ∀ s2, procs_extends ps s2 → P (pipe_pair_update s2 i j inode)) :
    P (analyze_deps_step locks n ps i) := by
  simp only [analyze_deps_step]
  have hg : 0 < (ps.getD i default).pipe_inodes.length :=
    List.length_pos.mpr (fun hnil => by rw [hnil] at hsi; exact absurd hsi (List.not_mem_nil _))
  rw [if_pos hg]
  have hstepj : ∀ (s : List ProcessResourceInfo) (x : Nat),
      procs_extends s (if i = x then s else pipe_pair_scan s i x) := by
    intro s x
    by_cases h : i = x
    · rw [if_pos h]
      exact procs_extends_refl s
    · rw [if_neg h]
      exact pipe_pair_scan_extends s i x h
  have hestj : ∀ s2, procs_extends ps s2 →
      P (if i = j then s2 else pipe_pair_scan s2 i j) := by
    intro s2 h2
    rw [if_neg hij]
    have hent := h2.2
    have hpi : (s2.getD i default).pipe_inodes
        = (ps.getD i default).pipe_inodes := (hent i).2.1
    have hpj : (s2.getD j default).pipe_inodes
        = (ps.getD j default).pipe_inodes := (hent j).2.1
    exact pipe_pair_scan_establish P hmono s2 i j inode hij
      (by rw [hpi]; exact hsi) (by rw [hpj]; exact hsj)
      (fun s3 h3 => hupd s3 (procs_extends_trans _ _ _ h2 h3))
  have hP1 : P ((List.range n).foldl
      (fun psj j2 => if i = j2 then psj else pipe_pair_scan psj i j2) ps) :=
    foldl_establish P _ hstepj hmono _ ps j (List.mem_range.mpr hjn) hestj
  set ps1 := (List.range n).foldl
      (fun psj j2 => if i = j2 then psj else pipe_pair_scan psj i j2) ps with hps1
  by_cases hg2 : ((ps1.getD i default).is_blocked_on_lock
      && decide (0 < locks.length)) = true
  · rw [if_pos hg2]
    refine hmono ps1 _ ?_ hP1
    exact procs_extends_foldl _ (fun s lk => lock_scan_step_extends s i lk) _ ps1
  · rw [if_neg hg2]
    exact hP1

theorem analyze_deps_establish (P : List ProcessResourceInfo → Prop)
    (hmono : ∀ s s2, procs_extends s s2 → P s → P s2)
    (procs : List ProcessResourceInfo) (locks : List FileLockInfo)
    (i j inode : Nat) (hij : i ≠ j)
    (hi : i < procs.length) (hj : j < procs.length)
    (hsi : inode ∈ (procs.getD i default).pipe_inodes)
    (hsj : inode ∈ (procs.getD j default).pipe_inodes)
    (hupd : ∀ s2, procs_extends procs s2 → P (pipe_pair_update s2 i j inode)) :
    P (analyze_pipe_and_lock_dependencies procs locks) := by
  rw [analyze_pipe_and_lock_dependencies]
  have hesti : ∀ s2, procs_extends procs s2 →
      P (analyze_deps_step locks procs.length s2 i) := by
    intro s2 h2
    have hent := h2.2
    exact deps_step_establish P hmono locks procs.length s2 i j inode hij hj
      (by rw [(hent i).2.1]; exact hsi) (by rw [(hent j).2.1]; exact hsj)
      (fun s3 h3 => hupd s3 (procs_extends_trans _ _ _ h2 h3))
  exact foldl_establish P _
    (fun s x => analyze_deps_step_extends locks procs.length s x) hmono
    _ procs i (List.mem_range.mpr hi) hesti

theorem pipe_pair_update_wait_untouched (ps : List ProcessResourceInfo)
    (a b inode t : Nat) (hab : a ≠ b)
    (hfl : (ps.getD t default).is_blocked_on_pipe = false) :
    ((pipe_pair_update ps a b inode).getD t default).waiting_resources
      = (ps.getD t default).waiting_resources ∧
    ((pipe_pair_update ps a b inode).getD t default).waiting_on_pids
      = (ps.getD t default).waiting_on_pids := by
  simp only [pipe_pair_update]
  by_cases htb : t = b
  · subst htb
    have hobf : ¬((pri_add_held_resource (ps.getD t default)
        (Int.ofNat (inode % 1000000))).is_blocked_on_pipe = true) := by
      rw [pri_add_held_flag, hfl]
      exact Bool.false_ne_true
    rw [if_neg hobf, getD_set_cases]
    by_cases hblen : t < ps.length
    · rw [if_pos ⟨rfl, by simpa using hblen⟩]
      exact ⟨pri_add_held_waiting _ _, pri_add_held_waiting_on _ _⟩
    · rw [if_neg (fun hc => hblen (by simpa using hc.2)), getD_set_cases,
        if_neg (fun hc => hab hc.1)]
      exact ⟨rfl, rfl⟩
  · by_cases hta : t = a
    · subst hta
      have hp1 : ¬((ps.getD t default).is_blocked_on_pipe = true) := by
        rw [hfl]
        exact Bool.false_ne_true
      rw [if_neg hp1]
      by_cases hob : (pri_add_held_resource (ps.getD b default)
          (Int.ofNat (inode % 1000000))).is_blocked_on_pipe = true
      · rw [if_pos hob, getD_set_cases, if_neg (fun hc => htb hc.1.symm),
          getD_set_cases]
        by_cases halen : t < ps.length
        · rw [if_pos ⟨rfl, halen⟩]
          exact ⟨pri_add_held_waiting _ _, pri_add_held_waiting_on _ _⟩
        · rw [if_neg (fun hc => halen hc.2)]
          exact ⟨rfl, rfl⟩
      · rw [if_neg hob, getD_set_cases, if_neg (fun hc => htb hc.1.symm),
          getD_set_cases]
        by_cases halen : t < ps.length
        · rw [if_pos ⟨rfl, halen⟩]
          exact ⟨rfl, rfl⟩
        · rw [if_neg (fun hc => halen hc.2)]
          exact ⟨rfl, rfl⟩
    · by_cases hob : (pri_add_held_resource (ps.getD b default)
          (Int.ofNat (inode % 1000000))).is_blocked_on_pipe = true
      · rw [if_pos hob, getD_set_cases, if_neg (fun hc => htb hc.1.symm),
          getD_set_cases, if_neg (fun hc => hta hc.1.symm)]
        exact ⟨rfl, rfl⟩
      · rw [if_neg hob, getD_set_cases, if_neg (fun hc => htb hc.1.symm),
          getD_set_cases, if_neg (fun hc => hta hc.1.symm)]
        exact ⟨rfl, rfl⟩

theorem lock_scan_step_getD_ne (ps : List ProcessResourceInfo) (i : Nat)
    (lock : FileLockInfo) (t : Nat) (hti : t ≠ i) :
    (lock_scan_step ps i lock).getD t default = ps.getD t default := by
  simp only [lock_scan_step]
  by_cases h1 : (lock.is_blocking
      && decide (lock.pid ≠ (ps.getD i default).pid)) = true
  · rw [if_pos h1]
    by_cases h2 : (ps.getD i default).waiting_resources.length
        < MAX_RESOURCES_PER_PROCESS
    · rw [if_pos h2]
      by_cases h3 : lock.lock_id ∈ (ps.getD i default).waiting_resources
      · rw [if_pos h3]
      · rw [if_neg h3, getD_set_cases, if_neg (fun hc => hti hc.1.symm)]
    · rw [if_neg h2]
  · rw [if_neg h1]

theorem foldl_preserve_prop {α : Type} (P : List ProcessResourceInfo → Prop)
    (step : List ProcessResourceInfo → α → List ProcessResourceInfo)
    (hstep : ∀ s x, P s → P (step s x)) :
    ∀ (l : List α) (s : List ProcessResourceInfo), P s → P (l.foldl step s) := by
  intro l
  induction l with
  | nil => exact fun s h => h
  | cons x tl ih =>
      intro s h
      rw [List.foldl_cons]
      exact ih (step s x) (hstep s x h)

theorem pipe_pair_update_inv (procs : List ProcessResourceInfo) (t : Nat)
    (s : List ProcessResourceInfo) (a b inode : Nat) (hab : a ≠ b)
    (h : waits_unchanged_inv procs t s) :
    waits_unchanged_inv procs t (pipe_pair_update s a b inode) := by
  obtain ⟨hfp, hflk, hw, ho⟩ := h
  have hext := (pipe_pair_update_extends s a b inode hab).2 t
  obtain ⟨-, -, hfp2, hflk2, -, -, -⟩ := hext
  have huntouched := pipe_pair_update_wait_untouched s a b inode t hab hfp
  exact ⟨hfp2.trans hfp, hflk2.trans hflk, huntouched.1.trans hw,
    huntouched.2.trans ho⟩

theorem pipe_pair_scan_inv (procs : List ProcessResourceInfo) (t : Nat)
    (s : List ProcessResourceInfo) (i j : Nat) (hij : i ≠ j)
    (h : waits_unchanged_inv procs t s) :
    waits_unchanged_inv procs t (pipe_pair_scan s i j) := by
  rw [pipe_pair_scan]
  have hinner : ∀ (x : Nat) (s2 : List ProcessResourceInfo),
      waits_unchanged_inv procs t s2 →
      waits_unchanged_inv procs t
        ((s.getD j default).pipe_inodes.foldl
          (fun psl y => if y = x then pipe_pair_update psl i j x else psl) s2) := by
    intro x
    refine foldl_preserve_prop _ _ (fun s2 y h2 => ?_) _
    by_cases hyx : y = x
    · rw [if_pos hyx]
      exact pipe_pair_update_inv procs t s2 i j x hij h2
    · rw [if_neg hyx]
      exact h2
  exact foldl_preserve_prop _ _ (fun s2 x h2 => hinner x s2 h2) _ s h

theorem lock_scan_step_inv (procs : List ProcessResourceInfo) (t : Nat)
    (s : List ProcessResourceInfo) (i : Nat) (lock : FileLockInfo)
    (hti : t ≠ i) (h : waits_unchanged_inv procs t s) :
    waits_unchanged_inv procs t (lock_scan_step s i lock) := by
  obtain ⟨hfp, hflk, hw, ho⟩ := h
  rw [waits_unchanged_inv, lock_scan_step_getD_ne s i lock t hti]
  exact ⟨hfp, hflk, hw, ho⟩

theorem deps_step_inv (procs : List ProcessResourceInfo) (t : Nat)
    (locks : List FileLockInfo) (n : Nat)
    (s : List ProcessResourceInfo) (i : Nat)
    (h : waits_unchanged_inv procs t s) :
    waits_unchanged_inv procs t (analyze_deps_step locks n s i) := by
  simp only [analyze_deps_step]
  have h1 : waits_unchanged_inv procs t
      (if 0 < (s.getD i default).pipe_inodes.length then
        (List.range n).foldl
          (fun psj j2 => if i = j2 then psj else pipe_pair_scan psj i j2) s
      else s) := by
    by_cases hg : 0 < (s.getD i default).pipe_inodes.length
    · rw [if_pos hg]
      refine foldl_preserve_prop _ _ (fun s2 j2 h2 => ?_) _ s h
      by_cases hj2 : i = j2
      · rw [if_pos hj2]
        exact h2
      · rw [if_neg hj2]
        exact pipe_pair_scan_inv procs t s2 i j2 hj2 h2
    · rw [if_neg hg]
      exact h
  set ps1 := if 0 < (s.getD i default).pipe_inodes.length then
      (List.range n).foldl
        (fun psj j2 => if i = j2 then psj else pipe_pair_scan psj i j2) s
    else s with hps1
  by_cases hg2 : ((ps1.getD i default).is_blocked_on_lock
      && decide (0 < locks.length)) = true
  · rw [if_pos hg2]
    by_cases hti : t = i
    · exfalso
      have hlockflag : (ps1.getD i default).is_blocked_on_lock = true :=
        (Bool.and_eq_true _ _).mp hg2 |>.1
      rw [← hti] at hlockflag
      rw [h1.2.1] at hlockflag
      exact Bool.false_ne_true hlockflag
    · exact foldl_preserve_prop _ _
        (fun s2 lk h2 => lock_scan_step_inv procs t s2 i lk hti h2) _ ps1 h1
  · rw [if_neg hg2]
    exact h1

theorem analyze_deps_inv (procs : List ProcessResourceInfo)
    (locks : List FileLockInfo) (t : Nat)
    (hfp : (procs.getD t default).is_blocked_on_pipe = false)
    (hflk : (procs.getD t default).is_blocked_on_lock = false) :
    waits_unchanged_inv procs t
      (analyze_pipe_and_lock_dependencies procs locks) := by
  rw [analyze_pipe_and_lock_dependencies]
  exact foldl_preserve_prop _ _
    (fun s2 i h2 => deps_step_inv procs t locks procs.length s2 i h2) _ procs
    ⟨hfp, hflk, rfl, rfl⟩

/-- C3 (amended): for every pair of distinct in-range indices i, j whose
processes share a pipe inode, with rid = inode mod 1000000, the extractor
(1) adds rid to j's held set unconditionally (or j's held set is at
capacity), (2) when process i is blocked on a pipe, adds rid to i's
waited-for set and j's pid to i's waiting_on_pids (or the respective list
is at capacity), and (3) never touches the waiting fields of a process
that is blocked neither on a pipe nor on a lock. -/
theorem analyze_pipe_deps_amended (procs : List ProcessResourceInfo)
    (locks : List FileLockInfo) (i j inode : Nat) (hij : i ≠ j)
    (hi : i < procs.length) (hj : j < procs.length)
    (hsi : inode ∈ (procs.getD i default).pipe_inodes)
    (hsj : inode ∈ (procs.getD j default).pipe_inodes) :
    (Int.ofNat (inode % 1000000) ∈
        ((analyze_pipe_and_lock_dependencies procs locks).getD j
          default).held_resources ∨
      MAX_RESOURCES_PER_PROCESS ≤
        ((analyze_pipe_and_lock_dependencies procs locks).getD j
          default).held_resources.length) ∧
    ((procs.getD i default).is_blocked_on_pipe = true →
      (Int.ofNat (inode % 1000000) ∈
          ((analyze_pipe_and_lock_dependencies procs locks).getD i
            default).waiting_resources ∨
        MAX_RESOURCES_PER_PROCESS ≤
          ((analyze_pipe_and_lock_dependencies procs locks).getD i
            default).waiting_resources.length) ∧
      ((procs.getD j default).pid ∈
          ((analyze_pipe_and_lock_dependencies procs locks).getD i
            default).waiting_on_pids ∨
        MAX_WAITING_PIDS ≤
          ((analyze_pipe_and_lock_dependencies procs locks).getD i
            default).waiting_on_pids.length)) ∧
    (∀ t, (procs.getD t default).is_blocked_on_pipe = false →
      (procs.getD t default).is_blocked_on_lock = false →
      ((analyze_pipe_and_lock_dependencies procs locks).getD t
          default).waiting_resources
        = (procs.getD t default).waiting_resources ∧
      ((analyze_pipe_and_lock_dependencies procs locks).getD t
          default).waiting_on_pids
        = (procs.getD t default).waiting_on_pids) := by
  refine ⟨?_, ?_, ?_⟩
  · refine analyze_deps_establish
      (fun s => Int.ofNat (inode % 1000000) ∈
          (s.getD j default).held_resources ∨
        MAX_RESOURCES_PER_PROCESS ≤ (s.getD j default).held_resources.length)
      (fun s s2 h hp => extends_mem_or_cap_held s s2 j _ h hp)
      procs locks i j inode hij hi hj hsi hsj ?_
    intro s2 h2
    exact pipe_pair_update_held_j s2 i j inode hij (by rw [h2.1]; exact hj)
  · intro hbl
    refine analyze_deps_establish
      (fun s => (Int.ofNat (inode % 1000000) ∈
            (s.getD i default).waiting_resources ∨
          MAX_RESOURCES_PER_PROCESS ≤
            (s.getD i default).waiting_resources.length) ∧
        ((procs.getD j default).pid ∈ (s.getD i default).waiting_on_pids ∨
          MAX_WAITING_PIDS ≤ (s.getD i default).waiting_on_pids.length))
      (fun s s2 h hp => ⟨extends_mem_or_cap_waiting s s2 i _ h hp.1,
        extends_mem_or_cap_waiting_on s s2 i _ h hp.2⟩)
      procs locks i j inode hij hi hj hsi hsj ?_
    intro s2 h2
    have hi2 : i < s2.length := by rw [h2.1]; exact hi
    have hbl2 : (s2.getD i default).is_blocked_on_pipe = true := by
      rw [(h2.2 i).2.2.1]
      exact hbl
    have hres := pipe_pair_update_wait_i s2 i j inode hij hi2 hbl2
    refine ⟨hres.1, ?_⟩
    rw [← (h2.2 j).1]
    exact hres.2
  · intro t hfp hflk
    have hinv := analyze_deps_inv procs locks t hfp hflk
    simp only [waits_unchanged_inv] at hinv
    exact ⟨hinv.2.2.1, hinv.2.2.2⟩

/-- Witness for the amended pipe-extraction claim on two processes that
share pipe inode 42, the first blocked on the pipe. -/
theorem analyze_pipe_deps_amended_witness :
    (Int.ofNat (42 % 1000000) ∈
        ((analyze_pipe_and_lock_dependencies [pipe_pri_a_blk, pipe_pri_b]
          []).getD 1 default).held_resources ∨
      MAX_RESOURCES_PER_PROCESS ≤
        ((analyze_pipe_and_lock_dependencies [pipe_pri_a_blk, pipe_pri_b]
          []).getD 1 default).held_resources.length) ∧
    (([pipe_pri_a_blk, pipe_pri_b].getD 0
        default).is_blocked_on_pipe = true →
      (Int.ofNat (42 % 1000000) ∈
          ((analyze_pipe_and_lock_dependencies [pipe_pri_a_blk, pipe_pri_b]
            []).getD 0 default).waiting_resources ∨
        MAX_RESOURCES_PER_PROCESS ≤
          ((analyze_pipe_and_lock_dependencies [pipe_pri_a_blk, pipe_pri_b]
            []).getD 0 default).waiting_resources.length) ∧
      (([pipe_pri_a_blk, pipe_pri_b].getD 1 default).pid ∈
          ((analyze_pipe_and_lock_dependencies [pipe_pri_a_blk, pipe_pri_b]
            []).getD 0 default).waiting_on_pids ∨
        MAX_WAITING_PIDS ≤
          ((analyze_pipe_and_lock_dependencies [pipe_pri_a_blk, pipe_pri_b]
            []).getD 0 default).waiting_on_pids.length)) ∧
    (∀ t, ([pipe_pri_a_blk, pipe_pri_b].getD t
        default).is_blocked_on_pipe = false →
      ([pipe_pri_a_blk, pipe_pri_b].getD t
        default).is_blocked_on_lock = false →
      ((analyze_pipe_and_lock_dependencies [pipe_pri_a_blk, pipe_pri_b]
          []).getD t default).waiting_resources
        = ([pipe_pri_a_blk, pipe_pri_b].getD t default).waiting_resources ∧
      ((analyze_pipe_and_lock_dependencies [pipe_pri_a_blk, pipe_pri_b]
          []).getD t default).waiting_on_pids
        = ([pipe_pri_a_blk, pipe_pri_b].getD t default).waiting_on_pids) :=
  analyze_pipe_deps_amended [pipe_pri_a_blk, pipe_pri_b] [] 0 1 42
    (by decide) (by decide) (by decide) (by decide) (by decide)

theorem getD_set_general {α : Type} (l : List α) (i t : Nat) (x d : α) :
    (l.set i x).getD t d = if i = t ∧ i < l.length then x else l.getD t d := by
  by_cases hc : i = t ∧ i < l.length
  · rw [if_pos hc]
    obtain ⟨rfl, hlt⟩ := hc
    rw [List.getD_eq_getElem?_getD, List.getElem?_set_self (by simpa using hlt)]
    rfl
  · rw [if_neg hc]
    rw [List.getD_eq_getElem?_getD, List.getD_eq_getElem?_getD]
    by_cases hit : i = t
    · subst hit
      have hge : l.length ≤ i := by
        rcases Nat.lt_or_ge i l.length with h | h
        · exact absurd ⟨rfl, h⟩ hc
        · exact h
      rw [List.set_eq_of_length_le hge]
    · rw [List.getElem?_set_ne hit]

theorem getD_append_lt {α : Type} (l l2 : List α) (n : Nat) (d : α)
    (h : n < l.length) : (l ++ l2).getD n d = l.getD n d := by
  rw [List.getD_eq_getElem?_getD, List.getD_eq_getElem?_getD,
    List.getElem?_append, if_pos h]

theorem getD_append_len {α : Type} (l : List α) (x d : α) :
    (l ++ [x]).getD l.length d = x := by
  rw [List.getD_eq_getElem?_getD, List.getElem?_append_right (Nat.le_refl _)]
  simp

theorem getD_mem_general {α : Type} (l : List α) (n : Nat) (d : α)
    (h : n < l.length) : l.getD n d ∈ l := by
  rw [List.getD_eq_getElem?_getD, List.getElem?_eq_getElem h]
  exact List.getElem_mem h

theorem getD_drop_general {α : Type} (l : List α) (n k : Nat) (d : α) :
    (l.drop n).getD k d = l.getD (n + k) d := by
  rw [List.getD_eq_getElem?_getD, List.getD_eq_getElem?_getD,
    List.getElem?_drop]

theorem headD_append_left {α : Type} (l l2 : List α) (d : α) (h : l ≠ []) :
    (l ++ l2).headD d = l.headD d := by
  cases l with
  | nil => exact absurd rfl h
  | cons a t => rfl

theorem getD_zero_headD {α : Type} (l : List α) (d : α) :
    l.getD 0 d = l.headD d := by
  cases l <;> rfl

theorem path_edges_of_consec (g : ResourceGraph) :
    ∀ (l : List Nat),
      (∀ k, k + 1 < l.length →
        edge_in_graph g (l.getD k 0) (l.getD (k + 1) 0) = true) →
      path_edges_ok g l = true := by
  intro l
  induction l with
  | nil => intro _; rfl
  | cons u t ih =>
      intro h
      cases t with
      | nil => rfl
      | cons v rest =>
          show (edge_in_graph g u v && path_edges_ok g (v :: rest)) = true
          rw [Bool.and_eq_true]
          refine ⟨h 0 (by simp), ?_⟩
          exact ih fun k hk => h (k + 1) (by simpa using Nat.succ_lt_succ hk)

theorem parent_chain_unfold (parent : List Int) (anc fuel v : Nat) :
    parent_chain parent anc fuel v =
      if v = anc then some [] else
        match fuel with
        | 0 => none
        | Nat.succ f =>
            let next := parent.getD v (-1)
            if next < 0 then none
            else (parent_chain parent anc f next.toNat).map
              fun rest => v :: rest := by
  rw [parent_chain.eq_def]

theorem parent_chain_stack (parent : List Int) (s2 : List Nat) (anc : Nat)
    (hhead : s2 ≠ [] → parent.getD (s2.headD 0) (-1) < 0)
    (hlinks : ∀ k, k + 1 < s2.length →
      parent.getD (s2.getD (k + 1) 0) (-1) = Int.ofNat (s2.getD k 0)) :
    ∀ (k : Nat), k < s2.length →
      ∀ (fuel : Nat) (ch : List Nat),
        parent_chain parent anc fuel (s2.getD k 0) = some ch →
        ∃ t, t ≤ k ∧ s2.getD t 0 = anc ∧
          ch = ((s2.take (k + 1)).drop (t + 1)).reverse := by
  intro k
  induction k with
  | zero =>
      intro hk fuel ch h
      rw [parent_chain_unfold] at h
      by_cases hv : s2.getD 0 0 = anc
      · rw [if_pos hv] at h
        cases h
        have hnil2 : (s2.take 1).drop 1 = [] :=
          List.drop_eq_nil_of_le (by rw [List.length_take]; exact Nat.min_le_left _ _)
        exact ⟨0, Nat.le_refl 0, hv, by rw [hnil2]; rfl⟩
      · rw [if_neg hv] at h
        cases fuel with
        | zero => exact absurd h (by simp)
        | succ f =>
            have hlt : parent.getD (s2.getD 0 0) (-1) < 0 := by
              rw [getD_zero_headD]
              exact hhead (by intro hnil; rw [hnil] at hk; simp at hk)
            simp only [if_pos hlt] at h
            exact absurd h (by simp)
  | succ k2 ih =>
      intro hk fuel ch h
      rw [parent_chain_unfold] at h
      by_cases hv : s2.getD (k2 + 1) 0 = anc
      · rw [if_pos hv] at h
        cases h
        refine ⟨k2 + 1, Nat.le_refl _, hv, ?_⟩
        rw [List.drop_eq_nil_of_le (by
          rw [List.length_take]
          exact Nat.min_le_left _ _)]
        rfl
      · rw [if_neg hv] at h
        cases fuel with
        | zero => exact absurd h (by simp)
        | succ f =>
            rw [hlinks k2 hk] at h
            have hnn : ¬ (Int.ofNat (s2.getD k2 0) < 0) := by
              exact Int.not_lt.mpr (Int.ofNat_nonneg _)
            simp only [if_neg hnn] at h
            have htn : (Int.ofNat (s2.getD k2 0)).toNat = s2.getD k2 0 := rfl
            rw [htn] at h
            cases hrec : parent_chain parent anc f (s2.getD k2 0) with
            | none => rw [hrec] at h; exact absurd h (by simp)
            | some rest =>
                rw [hrec] at h
                rw [Option.map_some'] at h
                cases h
                obtain ⟨t, ht, hanct, hch⟩ :=
                  ih (Nat.lt_of_succ_lt hk) f rest hrec
                refine ⟨t, Nat.le_succ_of_le ht, hanct, ?_⟩
                have htake : s2.take (k2 + 1 + 1)
                    = s2.take (k2 + 1) ++ [s2.getD (k2 + 1) 0] := by
                  rw [List.getD_eq_getElem s2 0 hk]
                  rw [List.take_succ, List.getElem?_eq_getElem hk]
                  rfl
                rw [htake, List.drop_append_eq_append_drop]
                have hlen2 : (s2.take (k2 + 1)).length = k2 + 1 := by
                  rw [List.length_take]
                  omega
                rw [hlen2]
                have hz : t + 1 - (k2 + 1) = 0 := by omega
                rw [hz, List.drop_zero, List.reverse_append, hch]
                rfl

theorem extract_elem (g : ResourceGraph) (parent : List Int) (s2 : List Nat)
    (hnd : s2.Nodup)
    (hhead : s2 ≠ [] → parent.getD (s2.headD 0) (-1) < 0)
    (hlinks : ∀ k, k + 1 < s2.length →
      parent.getD (s2.getD (k + 1) 0) (-1) = Int.ofNat (s2.getD k 0))
    (hedges : ∀ k, k + 1 < s2.length →
      edge_in_graph g (s2.getD k 0) (s2.getD (k + 1) 0) = true)
    (hrange : ∀ v ∈ s2, v < g.numVertices)
    (anc current : Nat) (hne : s2 ≠ [])
    (hcur : s2.getD (s2.length - 1) 0 = current)
    (hclose : edge_in_graph g current anc = true)
    (c : CycleInfo)
    (h : extract_cycle_path parent anc current g = some c) :
    is_elementary_cycle g c.cycle_path = true := by
  rw [extract_cycle_path] at h
  by_cases hb : g.numVertices ≤ anc ∨ g.numVertices ≤ current
  · rw [if_pos hb] at h
    exact absurd h (by simp)
  · rw [if_neg hb] at h
    push_neg at hb
    by_cases hself : current = anc
    · rw [if_pos hself] at h
      cases h
      rw [hself] at hclose
      show is_elementary_cycle g [anc, anc] = true
      rw [is_elementary_cycle]
      simp only [Bool.and_eq_true, decide_eq_true_eq, List.all_eq_true]
      refine ⟨⟨⟨⟨by simp, ?_⟩, by simp⟩, ?_⟩, by simp⟩
      · intro x hx
        have hxa : x = anc := by
          rcases List.mem_cons.mp hx with hx2 | hx2
          · exact hx2
          · simpa using hx2
        rw [hxa]
        exact hb.1
      · show (edge_in_graph g anc anc && path_edges_ok g [anc]) = true
        rw [hclose]
        rfl
    · rw [if_neg hself] at h
      cases hchain : parent_chain parent anc g.numVertices current with
      | none => rw [hchain] at h; exact absurd h (by simp)
      | some chain =>
          rw [hchain] at h
          cases h
          have hlen : 0 < s2.length := List.length_pos.mpr hne
          obtain ⟨t, ht, hanct, hch⟩ :=
            parent_chain_stack parent s2 anc hhead hlinks
              (s2.length - 1) (by omega) g.numVertices chain
              (by rw [hcur]; exact hchain)
          have htake : s2.take (s2.length - 1 + 1) = s2 := by
            have he : s2.length - 1 + 1 = s2.length := by omega
            rw [he, List.take_length]
          rw [htake] at hch
          have htlt : t < s2.length := by omega
          have hdrop : s2.drop t = anc :: s2.drop (t + 1) := by
            rw [List.drop_eq_getElem_cons htlt,
              ← List.getD_eq_getElem s2 0 htlt, hanct]
          have hpath :
              (mk_cycle_info g anc (anc :: chain.reverse ++ [anc])).cycle_path
                = s2.drop t ++ [anc] := by
            show anc :: chain.reverse ++ [anc] = s2.drop t ++ [anc]
            rw [hch, List.reverse_reverse, hdrop]
          rw [hpath]
          rw [is_elementary_cycle]
          simp only [Bool.and_eq_true, decide_eq_true_eq, List.all_eq_true]
          refine ⟨⟨⟨⟨?_, ?_⟩, ?_⟩, ?_⟩, ?_⟩
          · rw [List.length_append, List.length_drop, List.length_singleton]
            omega
          · intro x hx
            rcases List.mem_append.mp hx with hx2 | hx2
            · exact hrange x ((List.drop_sublist _ _).subset hx2)
            · rw [List.mem_singleton] at hx2
              rw [hx2]
              exact hb.1
          · have hne2 : s2.drop t ≠ [] := by
              rw [hdrop]
              exact List.cons_ne_nil _ _
            rw [headD_append_left _ _ _ hne2, List.getLastD_concat, hdrop]
            rfl
          · refine path_edges_of_consec g _ ?_
            intro k hk
            rw [List.length_append, List.length_drop,
              List.length_singleton] at hk
            rcases Nat.lt_or_ge (k + 1) (s2.drop t).length with hlt | hge
            · rw [getD_append_lt _ _ _ _ (by omega), getD_append_lt _ _ _ _ hlt]
              rw [getD_drop_general, getD_drop_general]
              rw [List.length_drop] at hlt
              have harith : t + (k + 1) = (t + k) + 1 := by omega
              rw [harith]
              exact hedges (t + k) (by omega)
            · rw [List.length_drop] at hge
              have hkeq : k + 1 = (s2.drop t).length := by
                rw [List.length_drop]
                omega
              have hklt : k < (s2.drop t).length := by omega
              rw [getD_append_lt _ _ _ _ hklt, hkeq, getD_append_len]
              have hsegk : (s2.drop t).getD k 0 = current := by
                rw [getD_drop_general]
                have he2 : t + k = s2.length - 1 := by
                  rw [List.length_drop] at hkeq
                  omega
                rw [he2, hcur]
              rw [hsegk]
              exact hclose
          · rw [List.dropLast_concat]
            exact hnd.sublist (List.drop_sublist _ _)

theorem headD_mem {α : Type} (l : List α) (d : α) (h : l ≠ []) :
    l.headD d ∈ l := by
  cases l with
  | nil => exact absurd rfl h
  | cons a t => exact List.mem_cons_self a t

theorem getLast?_eq_getD {α : Type} (l : List α) (d : α) (h : l ≠ []) :
    l.getLast? = some (l.getD (l.length - 1) d) := by
  have hpos : 0 < l.length := List.length_pos.mpr h
  rw [List.getLast?_eq_getElem?, List.getElem?_eq_getElem (by omega),
    List.getD_eq_getElem l d (by omega)]

theorem dfsPost_refl (st : DfsState) : DfsPost st st :=
  ⟨fun _ _ => ⟨rfl, rfl⟩, fun _ h => h⟩

theorem dfsPost_trans (a b c : DfsState) (h1 : DfsPost a b)
    (h2 : DfsPost b c) : DfsPost a c := by
  refine ⟨fun v hv => ?_, fun v hv => h1.gray_shrink v (h2.gray_shrink v hv)⟩
  obtain ⟨hc1, hp1⟩ := h1.stable v hv
  have hv2 : b.color.getD v 0 ≠ COLOR_WHITE := by rw [hc1]; exact hv
  obtain ⟨hc2, hp2⟩ := h2.stable v hv2
  exact ⟨hc2.trans hc1, hp2.trans hp1⟩

theorem isInfix_append_right {α : Type} (I s t : List α) (h : I <:+: s) :
    I <:+: s ++ t := by
  obtain ⟨a, b, hab⟩ := h
  exact ⟨a, b ++ t, by rw [← hab]; simp⟩

theorem isInfix_concat_of_not_mem {α : Type} (I s : List α) (x : α)
    (h : I <:+: s ++ [x]) (hx : x ∉ I) : I <:+: s := by
  obtain ⟨a, b, hab⟩ := h
  rcases List.eq_nil_or_concat b with rfl | ⟨b2, y, rfl⟩
  · rw [List.append_nil] at hab
    rcases List.eq_nil_or_concat I with rfl | ⟨I2, z, rfl⟩
    · exact List.nil_infix
    · rw [List.concat_eq_append] at hab hx
      have he : a ++ (I2 ++ [z]) = (a ++ I2) ++ [z] := by simp
      rw [he] at hab
      obtain ⟨h1, h2⟩ := List.append_inj' hab rfl
      exfalso
      refine hx ?_
      have hz : z = x := by injection h2
      rw [← hz]
      exact List.mem_append.mpr (Or.inr (List.mem_singleton.mpr rfl))
  · rw [List.concat_eq_append] at hab
    have he : a ++ I ++ (b2 ++ [y]) = (a ++ I ++ b2) ++ [y] := by simp
    rw [he] at hab
    obtain ⟨h1, h2⟩ := List.append_inj' hab rfl
    exact ⟨a, b2, h1⟩

theorem nodup_getD_inj (s : List Nat) (hs : s.Nodup) (i j : Nat)
    (hi : i < s.length) (hj : j < s.length)
    (h : s.getD i 0 = s.getD j 0) : i = j := by
  rw [List.getD_eq_getElem s 0 hi, List.getD_eq_getElem s 0 hj] at h
  exact (List.Nodup.getElem_inj_iff hs).mp h

theorem mem_getD_nat (l : List Nat) (x : Nat) (h : x ∈ l) :
    ∃ j, j < l.length ∧ l.getD j 0 = x := by
  obtain ⟨j, hj, hjv⟩ := List.mem_iff_getElem.mp h
  exact ⟨j, hj, by rw [List.getD_eq_getElem l 0 hj]; exact hjv⟩

theorem getD_append_right_general {α : Type} (l m : List α) (j : Nat)
    (d : α) : (l ++ m).getD (l.length + j) d = m.getD j d := by
  rw [List.getD_eq_getElem?_getD, List.getD_eq_getElem?_getD,
    List.getElem?_append_right (by omega)]
  have he : l.length + j - l.length = j := by omega
  rw [he]

theorem infix_eq_of_perm_of_nodup (s : List Nat) (hs : s.Nodup)
    (I1 I2 : List Nat) (hperm : I1.Perm I2)
    (h1 : I1 <:+: s) (h2 : I2 <:+: s) : I1 = I2 := by
  obtain ⟨a1, b1, e1⟩ := h1
  obtain ⟨a2, b2, e2⟩ := h2
  have hlen12 : I1.length = I2.length := hperm.length_eq
  by_cases hnil : I1 = []
  · rw [hnil] at hlen12
    rw [hnil]
    exact (List.eq_nil_of_length_eq_zero hlen12.symm).symm
  · have hm : 0 < I1.length := List.length_pos.mpr hnil
    have hs1 : ∀ j, j < I1.length →
        s.getD (a1.length + j) 0 = I1.getD j 0 := by
      intro j hj
      rw [← e1, List.append_assoc, getD_append_right_general,
        getD_append_lt _ _ _ _ hj]
    have hs2 : ∀ j, j < I2.length →
        s.getD (a2.length + j) 0 = I2.getD j 0 := by
      intro j hj
      rw [← e2, List.append_assoc, getD_append_right_general,
        getD_append_lt _ _ _ _ hj]
    have hslen : a1.length + I1.length ≤ s.length := by
      have hcl := congrArg List.length e1
      simp only [List.length_append] at hcl
      omega
    have hslen2 : a2.length + I2.length ≤ s.length := by
      have hcl := congrArg List.length e2
      simp only [List.length_append] at hcl
      omega
    obtain ⟨j1, hj1, hj1v⟩ := mem_getD_nat I2 (I1.getD 0 0)
      (hperm.mem_iff.mp (getD_mem_general I1 0 0 hm))
    have hA : a1.length = a2.length + j1 := by
      have h7 := nodup_getD_inj s hs (a1.length + 0) (a2.length + j1)
        (by omega) (by omega)
        (by rw [hs1 0 hm, hs2 j1 hj1, hj1v])
      omega
    obtain ⟨j2, hj2, hj2v⟩ := mem_getD_nat I1 (I2.getD 0 0)
      (hperm.mem_iff.mpr (getD_mem_general I2 0 0 (by omega)))
    have hB : a2.length = a1.length + j2 := by
      have h7 := nodup_getD_inj s hs (a2.length + 0) (a1.length + j2)
        (by omega) (by omega)
        (by rw [hs2 0 (by omega), hs1 j2 hj2, hj2v])
      omega
    have hpp : a1.length = a2.length := by omega
    refine List.ext_getElem hlen12 ?_
    intro i hi1 hi2
    have h8 : I1.getD i 0 = I2.getD i 0 := by
      rw [← hs1 i hi1, ← hs2 i hi2, hpp]
    rw [List.getD_eq_getElem I1 0 hi1, List.getD_eq_getElem I2 0 hi2] at h8
    exact h8

theorem rotation_eq_perm (a b : List Nat) (h : rotation_eq a b = true) :
    a.length = b.length ∧ a.Perm b := by
  rw [rotation_eq, Bool.and_eq_true] at h
  obtain ⟨hlen, hany⟩ := h
  have hlen2 : a.length = b.length := by simpa using hlen
  obtain ⟨k, hk, hbeq⟩ := List.any_eq_true.mp hany
  have hrot : a.rotate k = b := by simpa using hbeq
  refine ⟨hlen2, ?_⟩
  rw [← hrot]
  exact (List.rotate_perm a k).symm

theorem cycles_match_rotation_self (p : List Nat) (h : p ≠ []) :
    cycles_match_rotation p p = true := by
  rw [cycles_match_rotation]
  refine List.any_eq_true.mpr
    ⟨0, List.mem_range.mpr (List.length_pos.mpr h), ?_⟩
  refine List.all_eq_true.mpr ?_
  intro j hj
  rw [List.mem_range] at hj
  have he : (j + 0) % p.length = j := by
    rw [Nat.add_zero, Nat.mod_eq_of_lt hj]
  rw [he]
  simp

theorem is_duplicate_of_mem_same_path (l : List CycleInfo)
    (c cn : CycleInfo) (hc : c ∈ l) (hpath : c.cycle_path = cn.cycle_path)
    (hne : cn.cycle_path ≠ []) : is_duplicate_cycle cn l = true := by
  rw [is_duplicate_cycle]
  refine List.any_eq_true.mpr ⟨c, hc, ?_⟩
  rw [Bool.and_eq_true]
  constructor
  · rw [hpath]
    simp
  · rw [hpath]
    exact cycles_match_rotation_self _ hne

theorem dropLast_append_getD {α : Type} (l : List α) (d : α) (h : l ≠ []) :
    l.dropLast ++ [l.getD (l.length - 1) d] = l := by
  have h1 := getLast?_eq_getD l d h
  have h2 : l.getLast? = some (l.getLast h) := List.getLast?_eq_getLast l h
  rw [h2] at h1
  have h3 : l.getD (l.length - 1) d = l.getLast h := by
    injection h1 with h4
    exact h4.symm
  rw [h3]
  exact List.dropLast_append_getLast h

theorem extract_suffix (g : ResourceGraph) (parent : List Int)
    (s2 : List Nat)
    (hhead : s2 ≠ [] → parent.getD (s2.headD 0) (-1) < 0)
    (hlinks : ∀ k, k + 1 < s2.length →
      parent.getD (s2.getD (k + 1) 0) (-1) = Int.ofNat (s2.getD k 0))
    (anc current : Nat) (hne : s2 ≠ [])
    (hcur : s2.getD (s2.length - 1) 0 = current)
    (c : CycleInfo)
    (h : extract_cycle_path parent anc current g = some c) :
    c.cycle_path.dropLast <:+ s2 ∧
    c.cycle_path
      = c.cycle_path.dropLast ++ [c.cycle_path.dropLast.headD 0] ∧
    c.cycle_path.dropLast ≠ [] := by
  rw [extract_cycle_path] at h
  by_cases hb : g.numVertices ≤ anc ∨ g.numVertices ≤ current
  · rw [if_pos hb] at h
    exact absurd h (by simp)
  · rw [if_neg hb] at h
    by_cases hself : current = anc
    · rw [if_pos hself] at h
      cases h
      have hanc2 : s2.getD (s2.length - 1) 0 = anc := hcur.trans hself
      refine ⟨?_, rfl, ?_⟩
      swap
      · show ([anc] : List Nat) ≠ []
        simp
      show [anc] <:+ s2
      refine ⟨s2.dropLast, ?_⟩
      rw [← hanc2]
      exact dropLast_append_getD s2 0 hne
    · rw [if_neg hself] at h
      cases hchain : parent_chain parent anc g.numVertices current with
      | none => rw [hchain] at h; exact absurd h (by simp)
      | some chain =>
          rw [hchain] at h
          cases h
          have hlen : 0 < s2.length := List.length_pos.mpr hne
          obtain ⟨t, ht, hanct, hch⟩ :=
            parent_chain_stack parent s2 anc hhead hlinks
              (s2.length - 1) (by omega) g.numVertices chain
              (by rw [hcur]; exact hchain)
          have htake : s2.take (s2.length - 1 + 1) = s2 := by
            have he : s2.length - 1 + 1 = s2.length := by omega
            rw [he, List.take_length]
          rw [htake] at hch
          have htlt : t < s2.length := by omega
          have hdrop : s2.drop t = anc :: s2.drop (t + 1) := by
            rw [List.drop_eq_getElem_cons htlt,
              ← List.getD_eq_getElem s2 0 htlt, hanct]
          have hpath :
              (mk_cycle_info g anc
                (anc :: chain.reverse ++ [anc])).cycle_path
                = s2.drop t ++ [anc] := by
            show anc :: chain.reverse ++ [anc] = s2.drop t ++ [anc]
            rw [hch, List.reverse_reverse, hdrop]
          refine ⟨?_, ?_, ?_⟩
          · rw [hpath, List.dropLast_concat]
            exact ⟨s2.take t, List.take_append_drop t s2⟩
          · rw [hpath, List.dropLast_concat]
            congr 1
            rw [hdrop]
            rfl
          · rw [hpath, List.dropLast_concat, hdrop]
            exact List.cons_ne_nil _ _

theorem dfs_visit_elem (g : ResourceGraph) :
    ∀ (fuel : Nat), ∀ (vertex : Nat) (st : DfsState) (s : List Nat),
      vertex < g.numVertices →
      st.color.getD vertex 0 = COLOR_WHITE →
      StackInv g s st →
      (s = [] → st.parent.getD vertex (-1) < 0) →
      (∀ u, s.getLast? = some u →
        st.parent.getD vertex (-1) = Int.ofNat u) →
      (∀ u, s.getLast? = some u → edge_in_graph g u vertex = true) →
      (∀ d ∈ st.cycles, is_elementary_cycle g d.cycle_path = true) →
      CycOK s st →
      StackInv g s (dfs_visit_recursive g fuel vertex st) ∧
      (∀ d ∈ (dfs_visit_recursive g fuel vertex st).cycles,
        is_elementary_cycle g d.cycle_path = true) ∧
      CycOK s (dfs_visit_recursive g fuel vertex st) ∧
      DfsPost st (dfs_visit_recursive g fuel vertex st) := by
  intro fuel
  induction fuel with
  | zero =>
      intro vertex st s hv hw hinv hroot hlink hetop hcyc hck
      exact ⟨hinv, hcyc, hck, dfsPost_refl st⟩
  | succ fuel ih =>
      intro vertex st s hv hw hinv hroot hlink hetop hcyc hck
      rw [dfs_visit_recursive]
      have hvnotin : vertex ∉ s := by
        intro hmem
        have hg := hinv.mem_gray vertex hmem
        rw [hw] at hg
        exact absurd hg (by decide)
      have hvlen : vertex < st.color.length := by
        rw [hinv.col_len]
        exact hv
      have hsne_of : ∀ k : Nat, k + 1 = s.length → s ≠ [] := by
        intro k hk
        exact List.length_pos.mp (by omega)
      have hinv1 : StackInv g (s ++ [vertex])
          { st with color := st.color.set vertex COLOR_GRAY } := by
        refine ⟨?_, ?_, ?_, ?_, ?_, ?_, ?_, hinv.par_len, ?_⟩
        · refine List.Nodup.append hinv.nodup (List.nodup_singleton _) ?_
          intro x hxs hxv
          rw [List.mem_singleton] at hxv
          rw [hxv] at hxs
          exact hvnotin hxs
        · intro _
          by_cases hsnil : s = []
          · rw [hsnil]
            simp only [List.nil_append]
            exact hroot hsnil
          · rw [headD_append_left _ _ _ hsnil]
            exact hinv.head_par hsnil
        · intro k hk
          rw [List.length_append, List.length_singleton] at hk
          rcases Nat.lt_or_ge (k + 1) s.length with hlt | hge
          · rw [getD_append_lt _ _ _ _ hlt, getD_append_lt _ _ _ _ (by omega)]
            exact hinv.links k hlt
          · have hkeq : k + 1 = s.length := by omega
            rw [hkeq, getD_append_len, getD_append_lt _ _ _ _ (by omega)]
            have hk2 : s.length - 1 = k := by omega
            refine hlink _ ?_
            rw [getLast?_eq_getD s 0 (hsne_of k hkeq), hk2]
        · intro k hk
          rw [List.length_append, List.length_singleton] at hk
          rcases Nat.lt_or_ge (k + 1) s.length with hlt | hge
          · rw [getD_append_lt _ _ _ _ hlt, getD_append_lt _ _ _ _ (by omega)]
            exact hinv.edges k hlt
          · have hkeq : k + 1 = s.length := by omega
            rw [hkeq, getD_append_len, getD_append_lt _ _ _ _ (by omega)]
            have hk2 : s.length - 1 = k := by omega
            refine hetop _ ?_
            rw [getLast?_eq_getD s 0 (hsne_of k hkeq), hk2]
        · intro x hx
          rw [getD_set_general] at hx
          by_cases hcx : vertex = x ∧ vertex < st.color.length
          · rw [if_pos hcx] at hx
            refine List.mem_append.mpr (Or.inr ?_)
            rw [← hcx.1]
            exact List.mem_singleton.mpr rfl
          · rw [if_neg hcx] at hx
            exact List.mem_append.mpr (Or.inl (hinv.gray_mem x hx))
        · intro x hx
          rcases List.mem_append.mp hx with hx2 | hx2
          · rw [getD_set_general]
            by_cases hcx : vertex = x ∧ vertex < st.color.length
            · exfalso
              refine hvnotin ?_
              rw [hcx.1]
              exact hx2
            · rw [if_neg hcx]
              exact hinv.mem_gray x hx2
          · rw [List.mem_singleton] at hx2
            rw [hx2, getD_set_general, if_pos ⟨rfl, hvlen⟩]
        · intro x hx
          rcases List.mem_append.mp hx with hx2 | hx2
          · exact hinv.vrange x hx2
          · rw [List.mem_singleton] at hx2
            rw [hx2]
            exact hv
        · rw [List.length_set]
          exact hinv.col_len
      have hck1 : CycOK (s ++ [vertex])
          { st with color := st.color.set vertex COLOR_GRAY } := by
        refine ⟨?_, hck.2⟩
        intro c hc
        obtain ⟨hshape, hne2, hnw, hinf⟩ := hck.1 c hc
        refine ⟨hshape, hne2, ?_, ?_⟩
        · intro v hv2
          rw [getD_set_general]
          by_cases hcx : vertex = v ∧ vertex < st.color.length
          · rw [if_pos hcx]
            decide
          · rw [if_neg hcx]
            exact hnw v hv2
        · intro hsub
          have hnotv : vertex ∉ c.cycle_path.dropLast := by
            intro hmem
            exact hnw vertex hmem hw
          have hsub2 : ∀ v ∈ c.cycle_path.dropLast, v ∈ s := by
            intro v hv2
            rcases List.mem_append.mp (hsub v hv2) with h5 | h5
            · exact h5
            · rw [List.mem_singleton] at h5
              exfalso
              rw [h5] at hv2
              exact hnotv hv2
          exact isInfix_append_right _ _ _ (hinf hsub2)
      have hfold : ∀ (nodes : List GraphNode),
          (∀ n ∈ nodes, n ∈ g.adjAt vertex) →
          ∀ (stf : DfsState),
            StackInv g (s ++ [vertex]) stf →
            (∀ d ∈ stf.cycles, is_elementary_cycle g d.cycle_path = true) →
            CycOK (s ++ [vertex]) stf →
            DfsPost { st with color := st.color.set vertex COLOR_GRAY } stf →
            StackInv g (s ++ [vertex])
              (nodes.foldl
                (dfs_neighbor g (dfs_visit_recursive g fuel) vertex) stf) ∧
            (∀ d ∈ (nodes.foldl
                (dfs_neighbor g (dfs_visit_recursive g fuel) vertex)
                stf).cycles, is_elementary_cycle g d.cycle_path = true) ∧
            CycOK (s ++ [vertex])
              (nodes.foldl
                (dfs_neighbor g (dfs_visit_recursive g fuel) vertex) stf) ∧
            DfsPost { st with color := st.color.set vertex COLOR_GRAY }
              (nodes.foldl
                (dfs_neighbor g (dfs_visit_recursive g fuel) vertex) stf) := by
        intro nodes
        induction nodes with
        | nil => intro _ stf h1 h2 h4 h3; exact ⟨h1, h2, h4, h3⟩
        | cons node rest ihn =>
            intro hsub stf h1 h2 h4 h3
            rw [List.foldl_cons]
            have hedgeN : edge_in_graph g vertex node.vertex_id = true := by
              refine List.any_eq_true.mpr
                ⟨node, hsub node (List.mem_cons_self _ _), ?_⟩
              simp
            have hstep : StackInv g (s ++ [vertex])
                (dfs_neighbor g (dfs_visit_recursive g fuel) vertex stf node) ∧
                (∀ d ∈ (dfs_neighbor g (dfs_visit_recursive g fuel) vertex
                  stf node).cycles,
                  is_elementary_cycle g d.cycle_path = true) ∧
                CycOK (s ++ [vertex])
                  (dfs_neighbor g (dfs_visit_recursive g fuel) vertex stf
                    node) ∧
                DfsPost { st with color := st.color.set vertex COLOR_GRAY }
                  (dfs_neighbor g (dfs_visit_recursive g fuel) vertex stf
                    node) := by
              simp only [dfs_neighbor]
              by_cases hr : g.numVertices ≤ node.vertex_id
              · rw [if_pos hr]
                exact ⟨h1, h2, h4, h3⟩
              · rw [if_neg hr]
                by_cases hwhite : stf.color.getD node.vertex_id 0 = COLOR_WHITE
                · rw [if_pos hwhite]
                  have hnv : node.vertex_id < g.numVertices :=
                    Nat.lt_of_not_le hr
                  have hnotmem : node.vertex_id ∉ s ++ [vertex] := by
                    intro hmem
                    have hg := h1.mem_gray _ hmem
                    rw [hwhite] at hg
                    exact absurd hg (by decide)
                  have hsetlen : node.vertex_id < stf.parent.length := by
                    rw [h1.par_len]
                    exact hnv
                  have hinvW : StackInv g (s ++ [vertex])
                      { stf with parent :=
                        stf.parent.set node.vertex_id (Int.ofNat vertex) } := by
                    refine ⟨h1.nodup, ?_, ?_, h1.edges, h1.gray_mem,
                      h1.mem_gray, h1.vrange, ?_, h1.col_len⟩
                    · intro hne2
                      rw [getD_set_general, if_neg ?_]
                      · exact h1.head_par hne2
                      · intro hc
                        refine hnotmem ?_
                        rw [hc.1]
                        exact headD_mem _ _ hne2
                    · intro k hk
                      rw [getD_set_general, if_neg ?_]
                      · exact h1.links k hk
                      · intro hc
                        refine hnotmem ?_
                        rw [hc.1]
                        exact getD_mem_general _ _ _ (by omega)
                    · rw [List.length_set]
                      exact h1.par_len
                  have hres := ih node.vertex_id
                    { stf with parent :=
                      stf.parent.set node.vertex_id (Int.ofNat vertex) }
                    (s ++ [vertex]) hnv hwhite hinvW
                    (by intro habs; simp at habs)
                    (by
                      intro u hu
                      rw [List.getLast?_concat] at hu
                      have hu2 : u = vertex := by
                        injection hu with hu3
                        exact hu3.symm
                      rw [hu2, getD_set_general, if_pos ⟨rfl, hsetlen⟩])
                    (by
                      intro u hu
                      rw [List.getLast?_concat] at hu
                      have hu2 : u = vertex := by
                        injection hu with hu3
                        exact hu3.symm
                      rw [hu2]
                      exact hedgeN)
                    h2 h4
                  have hpostW : DfsPost stf
                      { stf with parent :=
                        stf.parent.set node.vertex_id (Int.ofNat vertex) } := by
                    refine ⟨fun v hv2 => ⟨rfl, ?_⟩, fun v hv2 => hv2⟩
                    rw [getD_set_general, if_neg ?_]
                    intro hc
                    refine hv2 ?_
                    rw [← hc.1]
                    exact hwhite
                  exact ⟨hres.1, hres.2.1, hres.2.2.1,
                    dfsPost_trans _ _ _ (dfsPost_trans _ _ _ h3 hpostW)
                      hres.2.2.2⟩
                · rw [if_neg hwhite]
                  by_cases hgray : stf.color.getD node.vertex_id 0 = COLOR_GRAY
                  · rw [if_pos hgray]
                    cases hex : extract_cycle_path stf.parent node.vertex_id
                        vertex g with
                    | none => exact ⟨h1, h2, h4, h3⟩
                    | some cycle =>
                        have hcurS : (s ++ [vertex]).getD
                            ((s ++ [vertex]).length - 1) 0 = vertex := by
                          rw [List.length_append, List.length_singleton]
                          have he3 : s.length + 1 - 1 = s.length := rfl
                          rw [he3, getD_append_len]
                        obtain ⟨hsuf, hshapeN, hneN⟩ :=
                          extract_suffix g stf.parent (s ++ [vertex])
                            h1.head_par h1.links node.vertex_id vertex
                            (by simp) hcurS cycle hex
                        have hper : ∀ d ∈ add_cycle_to_list stf.cycles cycle,
                            d.cycle_path = d.cycle_path.dropLast ++
                              [d.cycle_path.dropLast.headD 0] ∧
                            d.cycle_path.dropLast ≠ [] ∧
                            (∀ v ∈ d.cycle_path.dropLast,
                              stf.color.getD v 0 ≠ COLOR_WHITE) ∧
                            ((∀ v ∈ d.cycle_path.dropLast,
                                v ∈ s ++ [vertex]) →
                              d.cycle_path.dropLast <:+: s ++ [vertex]) := by
                          refine add_cycle_forall _ _ _ h4.1 ?_
                          refine ⟨hshapeN, hneN, ?_, fun _ => hsuf.isInfix⟩
                          intro v hv2
                          have hg2 := h1.mem_gray v (hsuf.subset hv2)
                          rw [hg2]
                          decide
                        have hpair : List.Pairwise (fun c1 c2 =>
                            rotation_eq c1.cycle_path.dropLast
                              c2.cycle_path.dropLast = false ∧
                            rotation_eq c2.cycle_path.dropLast
                              c1.cycle_path.dropLast = false)
                            (add_cycle_to_list stf.cycles cycle) := by
                          rw [add_cycle_to_list]
                          by_cases hdup : is_duplicate_cycle cycle stf.cycles
                          · rw [if_pos hdup]
                            exact h4.2
                          · rw [if_neg hdup]
                            rw [List.pairwise_append]
                            refine ⟨h4.2, List.pairwise_singleton _ _, ?_⟩
                            intro c1 hc1 c2 hc2
                            rw [List.mem_singleton] at hc2
                            rw [hc2]
                            obtain ⟨hshape1, hne1, hnw1, hinf1⟩ :=
                              h4.1 c1 hc1
                            have heqbad : c1.cycle_path.dropLast
                                = cycle.cycle_path.dropLast → False := by
                              intro heq
                              have hpatheq : c1.cycle_path
                                  = cycle.cycle_path := by
                                rw [hshape1, hshapeN, heq]
                              refine absurd
                                (is_duplicate_of_mem_same_path stf.cycles
                                  c1 cycle hc1 hpatheq ?_) hdup
                              rw [hshapeN]
                              simp
                            have hmemI : ∀ v ∈ cycle.cycle_path.dropLast,
                                v ∈ s ++ [vertex] :=
                              fun v hv2 => hsuf.subset hv2
                            constructor
                            · cases hbad : rotation_eq
                                  c1.cycle_path.dropLast
                                  cycle.cycle_path.dropLast with
                              | false => rfl
                              | true =>
                                  exfalso
                                  obtain ⟨hlen6, hperm6⟩ :=
                                    rotation_eq_perm _ _ hbad
                                  have hsub1 : ∀ v ∈ c1.cycle_path.dropLast,
                                      v ∈ s ++ [vertex] := fun v hv2 =>
                                    hmemI v (hperm6.mem_iff.mp hv2)
                                  exact heqbad
                                    (infix_eq_of_perm_of_nodup (s ++ [vertex])
                                      h1.nodup _ _ hperm6 (hinf1 hsub1)
                                      hsuf.isInfix)
                            · cases hbad : rotation_eq
                                  cycle.cycle_path.dropLast
                                  c1.cycle_path.dropLast with
                              | false => rfl
                              | true =>
                                  exfalso
                                  obtain ⟨hlen6, hperm6⟩ :=
                                    rotation_eq_perm _ _ hbad
                                  have hsub1 : ∀ v ∈ c1.cycle_path.dropLast,
                                      v ∈ s ++ [vertex] := fun v hv2 =>
                                    hmemI v (hperm6.mem_iff.mpr hv2)
                                  exact heqbad
                                    (infix_eq_of_perm_of_nodup (s ++ [vertex])
                                      h1.nodup _ _ hperm6.symm (hinf1 hsub1)
                                      hsuf.isInfix)
                        refine ⟨⟨h1.nodup, h1.head_par, h1.links, h1.edges,
                          h1.gray_mem, h1.mem_gray, h1.vrange, h1.par_len,
                          h1.col_len⟩, ?_, ⟨hper, hpair⟩,
                          ⟨h3.stable, h3.gray_shrink⟩⟩
                        refine add_cycle_forall _ _ _ h2 ?_
                        exact extract_elem g stf.parent (s ++ [vertex])
                          h1.nodup h1.head_par h1.links h1.edges h1.vrange
                          node.vertex_id vertex (by simp) hcurS hedgeN
                          cycle hex
                  · rw [if_neg hgray]
                    exact ⟨h1, h2, h4, h3⟩
            exact ihn (fun n hn => hsub n (List.mem_cons_of_mem _ hn)) _
              hstep.1 hstep.2.1 hstep.2.2.1 hstep.2.2.2
      obtain ⟨hinv2, hcyc2, hck2, hpost12⟩ := hfold (g.adjAt vertex)
        (fun n hn => hn) { st with color := st.color.set vertex COLOR_GRAY }
        hinv1 hcyc hck1 (dfsPost_refl _)
      have hvlen2 : vertex <
          ((g.adjAt vertex).foldl
            (dfs_neighbor g (dfs_visit_recursive g fuel) vertex)
            { st with color := st.color.set vertex COLOR_GRAY }).color.length := by
        rw [hinv2.col_len]
        exact hv
      refine ⟨?_, ?_, ?_, ?_⟩
      · refine ⟨hinv.nodup, ?_, ?_, ?_, ?_, ?_, hinv.vrange, hinv2.par_len, ?_⟩
        · intro hne2
          have hh := hinv2.head_par (by simp)
          rw [headD_append_left _ _ _ hne2] at hh
          exact hh
        · intro k hk
          have hh := hinv2.links k
            (by rw [List.length_append, List.length_singleton]; omega)
          rw [getD_append_lt _ _ _ _ (by omega),
            getD_append_lt _ _ _ _ (by omega)] at hh
          exact hh
        · intro k hk
          have hh := hinv2.edges k
            (by rw [List.length_append, List.length_singleton]; omega)
          rw [getD_append_lt _ _ _ _ (by omega),
            getD_append_lt _ _ _ _ (by omega)] at hh
          exact hh
        · intro x hx
          rw [getD_set_general] at hx
          by_cases hcx : vertex = x ∧ vertex <
              ((g.adjAt vertex).foldl
                (dfs_neighbor g (dfs_visit_recursive g fuel) vertex)
                { st with color := st.color.set vertex COLOR_GRAY
                }).color.length
          · rw [if_pos hcx] at hx
            exact absurd hx (by decide)
          · rw [if_neg hcx] at hx
            have hmem2 := hinv2.gray_mem x hx
            rcases List.mem_append.mp hmem2 with hx2 | hx2
            · exact hx2
            · rw [List.mem_singleton] at hx2
              exfalso
              exact hcx ⟨hx2.symm, hvlen2⟩
        · intro x hx
          rw [getD_set_general, if_neg ?_]
          · exact hinv2.mem_gray x (List.mem_append.mpr (Or.inl hx))
          · intro hc
            refine hvnotin ?_
            rw [hc.1]
            exact hx
        · rw [List.length_set]
          exact hinv2.col_len
      · exact hcyc2
      · refine ⟨?_, hck2.2⟩
        intro c hc
        obtain ⟨hshape, hne2, hnw, hinf⟩ := hck2.1 c hc
        refine ⟨hshape, hne2, ?_, ?_⟩
        · intro v hv2
          rw [getD_set_general]
          by_cases hcx : vertex = v ∧ vertex <
              ((g.adjAt vertex).foldl
                (dfs_neighbor g (dfs_visit_recursive g fuel) vertex)
                { st with color := st.color.set vertex COLOR_GRAY
                }).color.length
          · rw [if_pos hcx]
            decide
          · rw [if_neg hcx]
            exact hnw v hv2
        · intro hsub
          have hsub2 : ∀ v ∈ c.cycle_path.dropLast, v ∈ s ++ [vertex] :=
            fun v hv2 => List.mem_append.mpr (Or.inl (hsub v hv2))
          refine isInfix_concat_of_not_mem _ _ _ (hinf hsub2) ?_
          intro hmem
          exact hvnotin (hsub vertex hmem)
      · refine ⟨fun v hvn => ?_, fun v hvg => ?_⟩
        · have hvne : vertex ≠ v := by
            intro hc
            refine hvn ?_
            rw [← hc]
            exact hw
          have hst1 :
              ({ st with
                  color := st.color.set vertex COLOR_GRAY }).color.getD v 0
                = st.color.getD v 0 := by
            rw [getD_set_general, if_neg (fun hc => hvne hc.1)]
          have hvn1 :
              ({ st with
                  color := st.color.set vertex COLOR_GRAY }).color.getD v 0
                ≠ COLOR_WHITE := by
            rw [hst1]
            exact hvn
          obtain ⟨hc12, hp12⟩ := hpost12.stable v hvn1
          constructor
          · rw [getD_set_general, if_neg (fun hc => hvne hc.1), hc12, hst1]
          · exact hp12
        · by_cases hveq : vertex = v
          · exfalso
            rw [getD_set_general, if_pos ⟨hveq, hvlen2⟩] at hvg
            exact absurd hvg (by decide)
          · rw [getD_set_general, if_neg (fun hc => hveq hc.1)] at hvg
            have hg1 := hpost12.gray_shrink v hvg
            rw [getD_set_general, if_neg (fun hc => hveq hc.1)] at hg1
            exact hg1

theorem getD_replicate {α : Type} (n : Nat) (a d : α) :
    ∀ (i : Nat), (List.replicate n a).getD i d = if i < n then a else d := by
  induction n with
  | zero =>
      intro i
      rw [if_neg (by omega)]
      rfl
  | succ n ihn =>
      intro i
      cases i with
      | zero => rw [if_pos (by omega)]; rfl
      | succ i =>
          have he : (List.replicate (n + 1) a).getD (i + 1) d
              = (List.replicate n a).getD i d := rfl
          rw [he, ihn i]
          by_cases h : i < n
          · rw [if_pos h, if_pos (by omega)]
          · rw [if_neg h, if_neg (by omega)]

theorem stackInv_empty_init (g : ResourceGraph) :
    StackInv g [] ⟨List.replicate g.numVertices COLOR_WHITE,
      List.replicate g.numVertices (-1), []⟩ := by
  refine ⟨List.nodup_nil, fun h => absurd rfl h, ?_, ?_, ?_,
    ?_, ?_, ?_, ?_⟩
  · intro k hk
    simp at hk
  · intro k hk
    simp at hk
  · intro v hv
    rw [getD_replicate] at hv
    by_cases h : v < g.numVertices
    · rw [if_pos h] at hv
      exact absurd hv (by decide)
    · rw [if_neg h] at hv
      exact absurd hv (by decide)
  · intro v hv
    exact absurd hv (List.not_mem_nil v)
  · intro v hv
    exact absurd hv (List.not_mem_nil v)
  · exact List.length_replicate _ _
  · exact List.length_replicate _ _

theorem stackInv_empty_reset (g : ResourceGraph) (st : DfsState)
    (h : StackInv g [] st) :
    StackInv g [] { st with parent := List.replicate g.numVertices (-1) } := by
  refine ⟨List.nodup_nil, fun h2 => absurd rfl h2, ?_, ?_, h.gray_mem,
    ?_, ?_, ?_, h.col_len⟩
  · intro k hk
    simp at hk
  · intro k hk
    simp at hk
  · intro v hv
    exact absurd hv (List.not_mem_nil v)
  · intro v hv
    exact absurd hv (List.not_mem_nil v)
  · exact List.length_replicate _ _

theorem find_all_cycles_run (g : ResourceGraph) :
    (∀ c ∈ find_all_cycles g, is_elementary_cycle g c.cycle_path = true) ∧
    List.Pairwise (fun c1 c2 =>
      rotation_eq c1.cycle_path.dropLast c2.cycle_path.dropLast = false ∧
      rotation_eq c2.cycle_path.dropLast c1.cycle_path.dropLast = false)
      (find_all_cycles g) := by
  rw [find_all_cycles]
  have hfold : ∀ (l : List Nat) (st : DfsState),
      (∀ i ∈ l, i < g.numVertices) →
      StackInv g [] st →
      (∀ d ∈ st.cycles, is_elementary_cycle g d.cycle_path = true) →
      CycOK [] st →
      StackInv g []
        (l.foldl
          (fun st i =>
            if st.color.getD i 0 = COLOR_WHITE then
              dfs_visit_recursive g (g.numVertices + 1) i
                { st with parent := List.replicate g.numVertices (-1) }
            else st)
          st) ∧
      (∀ d ∈ (l.foldl
          (fun st i =>
            if st.color.getD i 0 = COLOR_WHITE then
              dfs_visit_recursive g (g.numVertices + 1) i
                { st with parent := List.replicate g.numVertices (-1) }
            else st)
          st).cycles, is_elementary_cycle g d.cycle_path = true) ∧
      CycOK []
        (l.foldl
          (fun st i =>
            if st.color.getD i 0 = COLOR_WHITE then
              dfs_visit_recursive g (g.numVertices + 1) i
                { st with parent := List.replicate g.numVertices (-1) }
            else st)
          st) := by
    intro l
    induction l with
    | nil => intro st _ h1 h2 h3; exact ⟨h1, h2, h3⟩
    | cons i rest ihl =>
        intro st hr h1 h2 h3
        rw [List.foldl_cons]
        have hstep : StackInv g []
            (if st.color.getD i 0 = COLOR_WHITE then
              dfs_visit_recursive g (g.numVertices + 1) i
                { st with parent := List.replicate g.numVertices (-1) }
            else st) ∧
            (∀ d ∈ (if st.color.getD i 0 = COLOR_WHITE then
              dfs_visit_recursive g (g.numVertices + 1) i
                { st with parent := List.replicate g.numVertices (-1) }
            else st).cycles, is_elementary_cycle g d.cycle_path = true) ∧
            CycOK []
              (if st.color.getD i 0 = COLOR_WHITE then
                dfs_visit_recursive g (g.numVertices + 1) i
                  { st with parent := List.replicate g.numVertices (-1) }
              else st) := by
          by_cases hw : st.color.getD i 0 = COLOR_WHITE
          · rw [if_pos hw]
            have hres := dfs_visit_elem g (g.numVertices + 1) i
              { st with parent := List.replicate g.numVertices (-1) } []
              (hr i (List.mem_cons_self _ _)) hw
              (stackInv_empty_reset g st h1)
              (by
                intro _
                rw [getD_replicate]
                by_cases h : i < g.numVertices
                · rw [if_pos h]; decide
                · rw [if_neg h]; decide)
              (by intro u hu; exact absurd hu (by simp))
              (by intro u hu; exact absurd hu (by simp))
              h2 h3
            exact ⟨hres.1, hres.2.1, hres.2.2.1⟩
          · rw [if_neg hw]
            exact ⟨h1, h2, h3⟩
        exact ihl _ (fun j hj => hr j (List.mem_cons_of_mem _ hj))
          hstep.1 hstep.2.1 hstep.2.2
  have hrun := hfold (List.range g.numVertices) _
    (fun i hi => List.mem_range.mp hi) (stackInv_empty_init g)
    (fun d hd => absurd hd (List.not_mem_nil d))
    ⟨fun c hc => absurd hc (List.not_mem_nil c), List.Pairwise.nil⟩
  exact ⟨hrun.2.1, hrun.2.2.2⟩

theorem find_all_cycles_elementary (g : ResourceGraph) :
    ∀ c ∈ find_all_cycles g, is_elementary_cycle g c.cycle_path = true :=
  (find_all_cycles_run g).1

theorem find_all_cycles_rotation (g : ResourceGraph) :
    List.Pairwise (fun c1 c2 =>
      rotation_eq c1.cycle_path.dropLast c2.cycle_path.dropLast = false ∧
      rotation_eq c2.cycle_path.dropLast c1.cycle_path.dropLast = false)
      (find_all_cycles g) :=
  (find_all_cycles_run g).2

theorem dfs_visit_cycles_closed (g : ResourceGraph)
    (Q : List CycleInfo → Prop)
    (hadd : ∀ l c, Q l → Q (add_cycle_to_list l c)) :
    ∀ (fuel vertex : Nat) (st : DfsState), Q st.cycles →
      Q (dfs_visit_recursive g fuel vertex st).cycles := by
  intro fuel
  induction fuel with
  | zero => intro vertex st hst; exact hst
  | succ fuel ih =>
      intro vertex st hst
      rw [dfs_visit_recursive]
      have hfold : ∀ (nodes : List GraphNode) (st1 : DfsState),
          Q st1.cycles →
          Q ((nodes.foldl
            (dfs_neighbor g (dfs_visit_recursive g fuel) vertex)
            st1).cycles) := by
        intro nodes
        induction nodes with
        | nil => intro st1 hst1; exact hst1
        | cons node rest ihn =>
            intro st1 hst1
            rw [List.foldl_cons]
            refine ihn _ ?_
            simp only [dfs_neighbor]
            by_cases hrange : g.numVertices ≤ node.vertex_id
            · rw [if_pos hrange]; exact hst1
            · rw [if_neg hrange]
              by_cases hwhite : st1.color.getD node.vertex_id 0 = COLOR_WHITE
              · rw [if_pos hwhite]
                exact ih node.vertex_id _ hst1
              · rw [if_neg hwhite]
                by_cases hgray : st1.color.getD node.vertex_id 0 = COLOR_GRAY
                · rw [if_pos hgray]
                  cases hex : extract_cycle_path st1.parent node.vertex_id
                      vertex g with
                  | none => exact hst1
                  | some c => exact hadd st1.cycles c hst1
                · rw [if_neg hgray]; exact hst1
      exact hfold _ _ hst

theorem find_all_cycles_closed (g : ResourceGraph)
    (Q : List CycleInfo → Prop) (hnil : Q [])
    (hadd : ∀ l c, Q l → Q (add_cycle_to_list l c)) :
    Q (find_all_cycles g) := by
  rw [find_all_cycles]
  have hfold : ∀ (l : List Nat) (st : DfsState), Q st.cycles →
      Q ((l.foldl
        (fun st i =>
          if st.color.getD i 0 = COLOR_WHITE then
            dfs_visit_recursive g (g.numVertices + 1) i
              { st with parent := List.replicate g.numVertices (-1) }
          else st)
        st).cycles) := by
    intro l
    induction l with
    | nil => intro st hst; exact hst
    | cons i rest ihl =>
        intro st hst
        rw [List.foldl_cons]
        refine ihl _ ?_
        by_cases hw : st.color.getD i 0 = COLOR_WHITE
        · rw [if_pos hw]
          exact dfs_visit_cycles_closed g Q hadd _ i _ hst
        · rw [if_neg hw]; exact hst
  exact hfold _ _ hnil

theorem find_all_cycles_pairwise (g : ResourceGraph) :
    List.Pairwise (fun a b =>
      (a.cycle_path.length == b.cycle_path.length &&
        cycles_match_rotation a.cycle_path b.cycle_path) = false)
      (find_all_cycles g) := by
  refine find_all_cycles_closed g _ List.Pairwise.nil ?_
  intro l c hQ
  rw [add_cycle_to_list]
  by_cases hdup : is_duplicate_cycle c l
  · rw [if_pos hdup]
    exact hQ
  · rw [if_neg hdup]
    rw [List.pairwise_append]
    refine ⟨hQ, List.pairwise_singleton _ _, ?_⟩
    intro a ha b hb
    rw [List.mem_singleton] at hb
    rw [hb]
    rw [is_duplicate_cycle] at hdup
    have hall : ∀ x ∈ l,
        ¬ ((x.cycle_path.length == c.cycle_path.length &&
          cycles_match_rotation x.cycle_path c.cycle_path) = true) := by
      intro x hx hx2
      exact hdup (List.any_eq_true.mpr ⟨x, hx, hx2⟩)
    exact Bool.eq_false_iff.mpr (hall a ha)

theorem find_all_cycles_shape (g : ResourceGraph) :
    ∀ c ∈ find_all_cycles g,
      c.cycle_end_vertex = c.cycle_start_vertex ∧
      ∃ mid, c.cycle_path
        = c.cycle_start_vertex :: mid ++ [c.cycle_start_vertex] := by
  refine find_all_cycles_forall g _ ?_
  intro parent anc current c hex
  rw [extract_cycle_path] at hex
  by_cases hb : g.numVertices ≤ anc ∨ g.numVertices ≤ current
  · rw [if_pos hb] at hex
    exact absurd hex (by simp)
  · rw [if_neg hb] at hex
    by_cases hself : current = anc
    · rw [if_pos hself] at hex
      cases hex
      exact ⟨rfl, [], rfl⟩
    · rw [if_neg hself] at hex
      cases hchain : parent_chain parent anc g.numVertices current with
      | none => rw [hchain] at hex; exact absurd hex (by simp)
      | some chain =>
          rw [hchain] at hex
          cases hex
          exact ⟨rfl, chain.reverse, rfl⟩

/-- C1 (amended): soundness and deduplication of the enumeration hold,
completeness does not.  Every cycle record emitted by find_all_cycles is
an elementary cycle of the graph (a closed in-range edge walk, at least
two entries long, whose non-closing portion repeats no vertex), its
recorded start and end vertices agree and delimit the stored path, and
each cycle is emitted at most once: no two emitted records are rotations
of each other after removing the closing duplicate vertex (in either
direction), and in particular no two emitted records match under the
implemented same-length full-path rotation scan; the enumeration is
however incomplete — an elementary cycle that closes into an
already-finished vertex is never emitted (see the counterexample
theorem). -/
theorem find_all_cycles_amended (g : ResourceGraph) :
    (∀ c ∈ find_all_cycles g,
      is_elementary_cycle g c.cycle_path = true ∧
      c.cycle_end_vertex = c.cycle_start_vertex ∧
      ∃ mid, c.cycle_path
        = c.cycle_start_vertex :: mid ++ [c.cycle_start_vertex]) ∧
    List.Pairwise (fun a b =>
      rotation_eq a.cycle_path.dropLast b.cycle_path.dropLast = false ∧
      rotation_eq b.cycle_path.dropLast a.cycle_path.dropLast = false)
      (find_all_cycles g) ∧
    List.Pairwise (fun a b =>
      (a.cycle_path.length == b.cycle_path.length &&
        cycles_match_rotation a.cycle_path b.cycle_path) = false)
      (find_all_cycles g) := by
  refine ⟨?_, find_all_cycles_rotation g, find_all_cycles_pairwise g⟩
  intro c hc
  exact ⟨find_all_cycles_elementary g c hc, (find_all_cycles_shape g c hc).1,
    (find_all_cycles_shape g c hc).2⟩

/-- Witness for the amended enumeration claim on the E2E-style graph: the
single emitted record is an elementary cycle. -/
theorem find_all_cycles_amended_witness :
    is_elementary_cycle cyc_graph [0, 2, 3, 1, 0] = true ∧
    (⟨[0, 2, 3, 1, 0], 0, 0, [1001, 1002], [2, 1]⟩ : CycleInfo)
      ∈ find_all_cycles cyc_graph := by
  have hmem : (⟨[0, 2, 3, 1, 0], 0, 0, [1001, 1002], [2, 1]⟩ : CycleInfo)
      ∈ find_all_cycles cyc_graph := by
    rw [cyc_graph_cycles_eq]
    exact List.mem_singleton.mpr rfl
  exact ⟨((find_all_cycles_amended cyc_graph).1 _ hmem).1, hmem⟩

end DeadlockDetect